import Mathlib

/-!
# Log scraping and availability / latency reports (`app.js`)

A shallow embedding of `app.js` and a verification of its specification.

Modelling conventions.

* A JavaScript string is a `String`; where the code inspects a string character
  by character (the regular expression, `DateTime.fromFormat`) the embedding
  works on its list of characters.
* The log file is the list of its lines, in file order (the `line` events of
  `readline`).
* A Luxon `DateTime` is either invalid or a calendar day; a valid one is stored
  as its day number in the proleptic Gregorian calendar.  All `DateTime`s of the
  program are local midnights, so day numbers carry all the information
  `diff(..., "days")` and `plus({ days })` use.
* The counters `success` and `fail` grow by one per line; they are modelled by
  `Nat` (JavaScript is exact on them below `2 ^ 53`, that is for every log of
  fewer than `2 ^ 53` lines).
* A latency, a sum of latencies and a quotient are JavaScript Numbers
  (`Number`): a finite binary64 value, kept as the rational number it is, or
  `Infinity`.  `parseInt`, `+`, `/` and `*` round their exact result to the
  nearest binary64 value (`roundDouble`, `toNumber`).
* A JavaScript statement that throws is modelled by the result `none`.
* The libraries are outside the program: `getopts` is modelled by the options
  it returns, `asciichart.plot` by the values it is applied to and by the
  inputs on which it throws, the formatting of dates by the dates, and Luxon
  by the calendar arithmetic it performs on days (the local time zone is taken
  to have every local midnight).
-/

namespace LogBot


/-! ## Constants (l. 10-12) -/

/-- The array `modulesNames` (l. 10). -/
def modulesNames : List String := ["PokeAPI", "PokeImages", "PokeStats"]

/-- The constant `defaultPeriod` (l. 12). -/
def defaultPeriod : Nat := 7

/-! ## Luxon dates -/

/-- A Luxon `DateTime` at day granularity: invalid, or the day number of a
calendar day (day 0 is 01/01/0000 of the proleptic Gregorian calendar). -/
inductive DateTime where
  | invalid : DateTime
  | valid (day : Int) : DateTime
  deriving DecidableEq, Repr

/-- Luxon `isLeapYear`. -/
def isLeapYear (year : Nat) : Bool :=
  year % 4 == 0 && (year % 100 != 0 || year % 400 == 0)

/-- Luxon `daysInMonth` for a month in `1..12`. -/
def daysInMonth (year month : Nat) : Nat :=
  match month with
  | 2 => if isLeapYear year then 29 else 28
  | 4 => 30
  | 6 => 30
  | 9 => 30
  | 11 => 30
  | _ => 31

/-- Number of days of the year that precede the first day of `month`. -/
def daysBeforeMonth (year : Nat) : Nat → Nat
  | 0 => 0
  | 1 => 0
  | m + 2 => daysBeforeMonth year (m + 1) + daysInMonth year (m + 1)

/-- Number of days in the years `0 .. year - 1` (the years divisible by 4 are
leap, except those divisible by 100 and not by 400). -/
def daysBeforeYear (year : Nat) : Nat :=
  365 * year + (year + 3) / 4 - (year + 99) / 100 + (year + 399) / 400

/-- Day number of the calendar day `day/month/year`. -/
def dayNumber (year month day : Nat) : Int :=
  ((daysBeforeYear year + daysBeforeMonth year month + (day - 1) : Nat) : Int)

/-- Value of a decimal digit character. -/
def digitValue (c : Char) : Nat := c.toNat - '0'.toNat

/-- Value of a string of decimal digits, most significant first. -/
def digitsValue (ds : List Char) : Nat :=
  ds.foldl (fun acc c => 10 * acc + digitValue c) 0

/-- Luxon `DateTime.fromFormat(text, "dd/MM/yyyy")`: the text must be exactly two
digits, `/`, two digits, `/`, four digits, and the three numbers must form a
real calendar day (month in `1..12`, day in `1..daysInMonth`); otherwise the
result is an invalid `DateTime`. -/
def fromFormat (text : List Char) : DateTime :=
  match text with
  | [d1, d2, '/', m1, m2, '/', y1, y2, y3, y4] =>
    if d1.isDigit && d2.isDigit && m1.isDigit && m2.isDigit &&
        y1.isDigit && y2.isDigit && y3.isDigit && y4.isDigit then
      let day := digitsValue [d1, d2]
      let month := digitsValue [m1, m2]
      let year := digitsValue [y1, y2, y3, y4]
      if 1 ≤ month ∧ month ≤ 12 ∧ 1 ≤ day ∧ day ≤ daysInMonth year month then
        DateTime.valid (dayNumber year month day)
      else DateTime.invalid
    else DateTime.invalid
  | _ => DateTime.invalid

/-- Luxon `a.diff(b, "days").toObject().days`: the number of days from `b` to `a`;
when either date is invalid the duration is invalid, its object is empty and
`days` is `undefined` (`none`). -/
def DateTime.diffDays (a b : DateTime) : Option Int :=
  match a, b with
  | DateTime.valid x, DateTime.valid y => some (x - y)
  | _, _ => none

/-- Luxon `date.plus({ days: n })`. -/
def DateTime.plusDays (a : DateTime) (n : Int) : DateTime :=
  match a with
  | DateTime.valid x => DateTime.valid (x + n)
  | DateTime.invalid => DateTime.invalid

/-- Luxon `isValid`. -/
def DateTime.isValid (a : DateTime) : Bool :=
  match a with
  | DateTime.valid _ => true
  | DateTime.invalid => false

/-! ## JavaScript Numbers -/

/-- Round to the nearest integer, a tie to the even neighbour. -/
def roundHalfEven (x : ℚ) : ℤ :=
  let f := ⌊x⌋
  let r := x - f
  if r < 1 / 2 then f
  else if 1 / 2 < r then f + 1
  else if f % 2 = 0 then f else f + 1

/-- The binary64 value nearest to `q` (round to nearest, ties to even) when the
exponent is not bounded: the significand `q / 2 ^ e` is rounded to an integer of
53 bits.  Overflow is decided on this value (`toNumber`).  A positive quotient of
the program is an integer divided by a number of lines, so for a log of fewer
than `2 ^ 1022` lines it is not below `2 ^ (-1022)` and subnormal numbers do not
arise. -/
def roundDouble (q : ℚ) : ℚ :=
  if q = 0 then 0
  else
    let e := Int.log 2 |q| - 52
    (roundHalfEven (q / 2 ^ e) : ℚ) * 2 ^ e

/-- A JavaScript Number of the program: a finite value that is not negative, or
`Infinity`.  The program produces no negative Number and no `NaN`. -/
inductive Number where
  | finite (value : ℚ) : Number
  | infinity : Number
  deriving DecidableEq, Repr

/-- A numeral is the finite Number of that value. -/
instance (n : Nat) : OfNat Number n := ⟨Number.finite n⟩

/-- The Number of the exact result `q ≥ 0` of an operation: the nearest binary64
value, and `Infinity` when that value is `2 ^ 1024` or more, beyond the largest
finite binary64 value. -/
def toNumber (q : ℚ) : Number :=
  if roundDouble q < 2 ^ 1024 then Number.finite (roundDouble q) else Number.infinity

/-- JavaScript `a + b` on Numbers that are not negative. -/
def Number.add : Number → Number → Number
  | Number.finite a, Number.finite b => toNumber (a + b)
  | _, _ => Number.infinity

/-- JavaScript `a / b` on finite Numbers: the exact quotient rounded to binary64.
The program guards each of its divisions against a zero divisor (which would
give `NaN` or an `Infinity`); that case is `none` here.  Its divisors are
positive integers, so a quotient is at most the dividend and does not
overflow. -/
def jsDiv (a b : ℚ) : Option ℚ :=
  if b = 0 then none else some (roundDouble (a / b))

/-- JavaScript `a / b` for a Number `a` that is not negative and a finite `b`:
`Infinity / b` is `Infinity`. -/
def Number.div (a : Number) (b : ℚ) : Option Number :=
  match a with
  | Number.finite q => (jsDiv q b).map Number.finite
  | Number.infinity => some Number.infinity

/-- JavaScript `a * b` on finite Numbers: the exact product rounded to
binary64.  The program multiplies a quotient of at most 1 by 100. -/
def jsMul (a b : ℚ) : ℚ := roundDouble (a * b)

/-- The integer `n` of `x.toFixed(2)` for `0 ≤ x < 10 ^ 21`: the integer for which
`n / 100 - x` is as close to zero as possible, the larger one when there are
two. -/
def toFixedHundredths (x : ℚ) : Nat := ⌊x * 100 + 1 / 2⌋.toNat

/-- The text of `toFixed(2)` for the integer `n` of hundredths: the decimal
digits of `n`, padded with zeros on the left to three digits, with a point
before the last two. -/
def fixedText (n : Nat) : String :=
  let m := Nat.toDigits 10 n
  let m := List.replicate (3 - m.length) '0' ++ m
  String.mk (m.take (m.length - 2) ++ '.' :: m.drop (m.length - 2))

/-- The integers `s` and `n` of `Number::toString(x)` for a binary64 value
`x ≥ 10 ^ 21` (an integer): `s` has `k` digits, `s * 10 ^ (n - k)` rounds to `x`,
and `k` is as small as possible; of two such `s` the one nearer to `x` is taken.
The numbers of digits `k = 1, 2, ..., 17` are tried in turn (`k = 17 - fuel`); for
each, the two multiples of `10 ^ (d - k)` around `x` are the candidates, where `d`
is the number of digits of `x`.  Seventeen digits identify every binary64
value. -/
def shortestDigits (x : ℚ) : Nat → Nat × Nat
  | 0 => (⌊x⌋.toNat, (Nat.toDigits 10 ⌊x⌋.toNat).length)
  | fuel + 1 =>
    let d := (Nat.toDigits 10 ⌊x⌋.toNat).length
    let k := 17 - fuel
    let unit : Nat := 10 ^ (d - k)
    let lo := ⌊x⌋.toNat / unit
    let okLo := decide (roundDouble ((lo * unit : Nat) : ℚ) = x)
    let okHi := decide (roundDouble (((lo + 1) * unit : Nat) : ℚ) = x)
    let pickHi :=
      okHi && (!okLo || decide ((((lo + 1) * unit : Nat) : ℚ) - x < x - ((lo * unit : Nat) : ℚ)) ||
        (decide ((((lo + 1) * unit : Nat) : ℚ) - x = x - ((lo * unit : Nat) : ℚ)) && lo % 2 == 1))
    if okLo || okHi then
      let s := if pickHi then lo + 1 else lo
      if s = 10 ^ k then (1, d + 1) else (s, d)
    else shortestDigits x fuel

/-- The text `Number::toString(x)` for a binary64 value `x ≥ 10 ^ 21`: the digits
of `s`, a point after the first one when there are more, and the exponent
`e+(n - 1)`; `1e+21` for `10 ^ 21`. -/
def numberToString (x : ℚ) : String :=
  let (s, n) := shortestDigits x 17
  match Nat.toDigits 10 s with
  | [] => ""
  | [c] => String.mk (c :: "e+".toList ++ Nat.toDigits 10 (n - 1))
  | c :: rest => String.mk (c :: '.' :: rest ++ "e+".toList ++ Nat.toDigits 10 (n - 1))

/-- The call `x.toFixed(2)`: the decimal text with two decimals below `10 ^ 21`,
the text of `Number::toString` from `10 ^ 21` on, and `Infinity`. -/
def toFixed2 (x : Number) : String :=
  match x with
  | Number.finite q => if q < 10 ^ 21 then fixedText (toFixedHundredths q) else numberToString q
  | Number.infinity => "Infinity"

/-- The call `parseFloat(x.toFixed(2))`: the binary64 value nearest to the
decimal number written by `toFixed`; the text of `Number::toString` is read
back as `x` itself, and `Infinity` as `Infinity`. -/
def parseFloatFixed2 (x : Number) : Number :=
  match x with
  | Number.finite q =>
    if q < 10 ^ 21 then Number.finite (roundDouble ((toFixedHundredths q : ℚ) / 100))
    else Number.finite q
  | Number.infinity => Number.infinity

/-! ## The accumulators (l. 20-35) -/

/-- The object built by `new APIData(periodLength)` (l. 20-24). -/
structure APIData where
  success : List Nat
  fail : List Nat
  latency : List (List Number)
  deriving DecidableEq, Repr

/-- The constructor `APIData` (l. 20-24). -/
def APIData.new (periodLength : Nat) : APIData where
  success := List.replicate periodLength 0
  fail := List.replicate periodLength 0
  latency := List.replicate periodLength []

/-- The object `data` of `scrapDataFromLogs` (l. 31-35): one `APIData` under each
of the keys `PokeStats`, `PokeAPI`, `PokeImages`. -/
structure Data where
  PokeStats : APIData
  PokeAPI : APIData
  PokeImages : APIData
  deriving DecidableEq, Repr

/-- The initial value of `data` (l. 31-35). -/
def Data.new (periodLength : Nat) : Data where
  PokeStats := APIData.new periodLength
  PokeAPI := APIData.new periodLength
  PokeImages := APIData.new periodLength

/-- Property access `data[key]`; `none` is `undefined`. -/
def Data.get? (data : Data) (key : String) : Option APIData :=
  if key = "PokeStats" then some data.PokeStats
  else if key = "PokeAPI" then some data.PokeAPI
  else if key = "PokeImages" then some data.PokeImages
  else none

/-- The object `data` after the `APIData` under an existing key was mutated
into `api`. -/
def Data.set (data : Data) (key : String) (api : APIData) : Data :=
  if key = "PokeStats" then { data with PokeStats := api }
  else if key = "PokeAPI" then { data with PokeAPI := api }
  else if key = "PokeImages" then { data with PokeImages := api }
  else data

/-! ## The regular expression (l. 38-41) -/

/-- The named groups of a match of the regular expression of l. 39. -/
structure Groups where
  module_name : String
  status : String
  latency : List Char
  date : List Char
  deriving DecidableEq, Repr

/-- Match the literal text `lit` at the head of `s`; the result is the rest of
`s`. -/
def matchLit : List Char → List Char → Option (List Char)
  | [], s => some s
  | _ :: _, [] => none
  | c :: lit, d :: s => if c = d then matchLit lit s else none

/-- An alternation of literals, tried from left to right: the first alternative
that matches at the head of `s`, with the rest of `s`. -/
def matchAlt : List String → List Char → Option (String × List Char)
  | [], _ => none
  | a :: alts, s =>
    match matchLit a.toList s with
    | some rest => some (a, rest)
    | none => matchAlt alts s

/-- Match `\d{n}` at the head of `s`: the `n` digits and the rest of `s`. -/
def matchDigits : Nat → List Char → Option (List Char × List Char)
  | 0, s => some ([], s)
  | _ + 1, [] => none
  | n + 1, c :: s =>
    if c.isDigit then
      match matchDigits n s with
      | some (ds, rest) => some (c :: ds, rest)
      | none => none
    else none

/-- Match `\d+` at the head of `s`: the longest non-empty run of digits and the
rest of `s`.  The pattern goes on with the letter `m`, so no shorter run of
digits can be followed by a match of the rest of the pattern. -/
def matchDigitsPlus (s : List Char) : Option (List Char × List Char) :=
  let ds := s.takeWhile Char.isDigit
  if ds = [] then none else some (ds, s.dropWhile Char.isDigit)

/-- Match the regular expression of l. 39 at the head of `s`:
`(PokeStats|PokeImages|PokeAPI) \((success|fail),(\d+)ms,(\d{2}\/\d{2}\/\d{4})\)`.
No two alternatives of a group can match at the same place, so the
backtracking of the engine finds no match other than the one found here. -/
def matchHere (s : List Char) : Option Groups := do
  let (module_name, s) ← matchAlt ["PokeStats", "PokeImages", "PokeAPI"] s
  let s ← matchLit " (".toList s
  let (status, s) ← matchAlt ["success", "fail"] s
  let s ← matchLit ",".toList s
  let (latency, s) ← matchDigitsPlus s
  let s ← matchLit "ms,".toList s
  let (dd, s) ← matchDigits 2 s
  let s ← matchLit "/".toList s
  let (mm, s) ← matchDigits 2 s
  let s ← matchLit "/".toList s
  let (yyyy, s) ← matchDigits 4 s
  let _ ← matchLit ")".toList s
  pure { module_name := module_name, status := status, latency := latency,
         date := dd ++ "/".toList ++ mm ++ "/".toList ++ yyyy }

/-- The call `regex.exec(line)` (l. 41): the pattern is searched, so the result is
the match at the leftmost position where there is one, `none` (JavaScript
`null`) when there is none. -/
def regexExec : List Char → Option Groups
  | [] => matchHere []
  | c :: s =>
    match matchHere (c :: s) with
    | some g => some g
    | none => regexExec s

/-- The call `parseInt(latency)` on a non-empty string of digits (l. 46): the
Number nearest to the integer written, which is the integer itself up to
`2 ^ 53` (`parseInt_eq_toNumber`). -/
def parseInt (ds : List Char) : Number :=
  if digitsValue ds ≤ 2 ^ 53 then Number.finite (digitsValue ds)
  else toNumber (digitsValue ds)

/-! ## `scrapDataFromLogs` (l. 26-74) -/

/-- The three statements of l. 61-63 on the `APIData` of the matched module:
`latency[offSet].push(latency)` throws when `latency[offSet]` is `undefined`,
and the two `+=` add 1 to the counter of the status and 0 to the other one.
An index past the end of a counter array (where JavaScript would store `NaN`)
is reported as `none` as well. -/
def APIData.record (api : APIData) (offSet : Nat) (status : String) (latency : Number) :
    Option APIData :=
  match api.latency[offSet]?, api.success[offSet]?, api.fail[offSet]? with
  | some samples, some s, some f =>
    some { latency := api.latency.set offSet (samples ++ [latency]),
           success := api.success.set offSet (s + (if status = "success" then 1 else 0)),
           fail := api.fail.set offSet (f + (if status = "fail" then 1 else 0)) }
  | _, _, _ => none

/-- The `line` handler of `scrapDataFromLogs` (l. 37-66), as a function from the
accumulator before the line to the accumulator after it. -/
def lineHandler (startDate : DateTime) (periodLength : Nat) (data : Data)
    (line : String) : Option Data :=
  match regexExec line.toList with
  | none => some data
  | some result =>
    let latency := parseInt result.latency
    let date := fromFormat result.date
    match date.diffDays startDate with
    | none => some data
    | some offSet =>
      if 0 ≤ offSet ∧ offSet < (periodLength : Int) then
        match data.get? result.module_name with
        | none => none
        | some api =>
          match api.record offSet.toNat result.status latency with
          | none => none
          | some api1 => some (data.set result.module_name api1)
      else some data

/-- The function `scrapDataFromLogs(startDate, periodLength, logsFile)`
(l. 26-74), on the lines of the log file. -/
def scrapDataFromLogs (startDate : DateTime) (periodLength : Nat)
    (lines : List String) : Option Data :=
  lines.foldlM (lineHandler startDate periodLength) (Data.new periodLength)

/-! ## Specification vocabulary -/

/-- The line has a pattern match with module `m`, status `st` and a valid date
equal to the day `d`. -/
def isEvent (m st : String) (d : Int) (line : String) : Bool :=
  match regexExec line.toList with
  | some g => decide (g.module_name = m ∧ g.status = st ∧ fromFormat g.date = DateTime.valid d)
  | none => false

/-- The latency value of the line, as `parseInt` reads it, when its pattern
match has module `m` and a valid date equal to the day `d`, whatever its
status. -/
def eventLatency (m : String) (d : Int) (line : String) : Option Number :=
  match regexExec line.toList with
  | some g =>
    if g.module_name = m ∧ fromFormat g.date = DateTime.valid d then some (parseInt g.latency)
    else none
  | none => none

/-- The latency written in the line, the integer that its digits denote, when
the pattern match of the line has module `m` and a valid date equal to the day
`d`, whatever its status. -/
def writtenLatency (m : String) (d : Int) (line : String) : Option Nat :=
  match regexExec line.toList with
  | some g =>
    if g.module_name = m ∧ fromFormat g.date = DateTime.valid d then some (digitsValue g.latency)
    else none
  | none => none

/-- All three arrays of an `APIData` have `n` elements. -/
def APIData.HasLength (n : Nat) (api : APIData) : Prop :=
  api.success.length = n ∧ api.fail.length = n ∧ api.latency.length = n

/-- Every `APIData` of `data` has arrays of `n` elements. -/
def Data.HasLength (n : Nat) (data : Data) : Prop :=
  data.PokeStats.HasLength n ∧ data.PokeAPI.HasLength n ∧ data.PokeImages.HasLength n

/-- The text of a log record with the groups `g`:
`<module_name> (<status>,<latency>ms,<date>)`. -/
def recordText (g : Groups) : List Char :=
  g.module_name.toList ++ " (".toList ++ g.status.toList ++ ",".toList ++ g.latency ++
    "ms,".toList ++ g.date ++ ")".toList

/-- The groups `g` are those of a record of the log format: a known module name,
a status, a non-empty latency in digits and a date of the shape `dd/dd/dddd`. -/
def IsRecord (g : Groups) : Prop :=
  g.module_name ∈ ["PokeStats", "PokeImages", "PokeAPI"] ∧
  g.status ∈ ["success", "fail"] ∧
  g.latency ≠ [] ∧ (∀ c ∈ g.latency, c.isDigit = true) ∧
  ∃ dd mm yyyy : List Char,
    dd.length = 2 ∧ (∀ c ∈ dd, c.isDigit = true) ∧
    mm.length = 2 ∧ (∀ c ∈ mm, c.isDigit = true) ∧
    yyyy.length = 4 ∧ (∀ c ∈ yyyy, c.isDigit = true) ∧
    g.date = dd ++ "/".toList ++ mm ++ "/".toList ++ yyyy

/-- The text `s` starts with the record whose groups are `g`. -/
def StartsWithRecord (s : List Char) (g : Groups) : Prop :=
  IsRecord g ∧ ∃ rest : List Char, s = recordText g ++ rest

/-- Some position of `s` starts with a record whose groups are `g`. -/
def ContainsRecordWith (s : List Char) (g : Groups) : Prop :=
  ∃ before rest : List Char, s = before ++ rest ∧ StartsWithRecord rest g

/-- The effect of one line on the accumulators of module `m`, as the
specification states it: the buckets of the day offsets `k` grow by the event
of the line, if it has one for module `m` on day `start + k`. -/
def StepSpec (start : Int) (n : Nat) (m : String) (line : String) (api api1 : APIData) : Prop :=
  ∀ k, k < n →
    api1.success[k]? = (api.success[k]?).map
      (fun v => v + if isEvent m "success" (start + k) line then 1 else 0) ∧
    api1.fail[k]? = (api.fail[k]?).map
      (fun v => v + if isEvent m "fail" (start + k) line then 1 else 0) ∧
    api1.latency[k]? = (api.latency[k]?).map
      (fun v => v ++ (eventLatency m (start + k) line).toList)

/-- The text contains a substring of the shape
`<PokeStats|PokeImages|PokeAPI> (<success|fail>,<digits>ms,<dd>/<dd>/<dddd>)`. -/
def ContainsRecord (s : List Char) : Prop := ∃ g, ContainsRecordWith s g

/-- The bucket index of l. 50 and l. 58: the number of days from `startDate` to
`date` when it is defined and lies in `[0, periodLength)`, `none` when the
event is discarded. -/
def acceptedOffset (startDate : DateTime) (periodLength : Nat) (date : DateTime) : Option Nat :=
  match date.diffDays startDate with
  | none => none
  | some offSet =>
    if 0 ≤ offSet ∧ offSet < (periodLength : Int) then some offSet.toNat else none

/-! ## What the program prints and calls -/

/-- The kinds of axis labels of `renderGraph` (l. 313-325). -/
inductive AxisField where
  | day : AxisField
  | month : AxisField
  | year : AxisField
  deriving DecidableEq, Repr

/-- An argument of `console.log`.  Texts made by the libraries are kept as the
values they are made from. -/
inductive LogArg where
  /-- A string. -/
  | text (s : String) : LogArg
  /-- A finite Number. -/
  | number (x : ℚ) : LogArg
  /-- The text `date.toFormat("dd/MM/yyyy")`. -/
  | date (d : DateTime) : LogArg
  /-- The text `asciichart.plot(graphData, { height })`. -/
  | chart (graphData : List ℚ) (height : Nat) : LogArg
  /-- The line of labels of one field of the dates under the chart. -/
  | axis (field : AxisField) (dates : List DateTime) : LogArg
  /-- The object `options` (l. 232). -/
  | optionsObject : LogArg
  deriving DecidableEq

/-- What a report driver does that can be observed. -/
inductive Effect where
  /-- A call of `console.log`. -/
  | log (args : List LogArg) : Effect
  /-- A call of `scrapDataFromLogs`. -/
  | scrap (startDate : DateTime) (periodLength : Int) (logsFile : String) : Effect
  /-- The run ends with an exception. -/
  | error : Effect
  deriving DecidableEq

/-- The effects of a sequence of steps, up to the first one that fails. -/
def untilError : List (Option Effect) → List Effect
  | [] => []
  | none :: _ => [Effect.error]
  | some e :: rest => e :: untilError rest

/-- The values of a sequence of computations, `none` when one of them fails. -/
def collect : List (Option Number) → Option (List Number)
  | [] => some []
  | none :: _ => none
  | some x :: rest => (collect rest).map (fun xs => x :: xs)

/-- The values of an array of finite Numbers, `none` when one is `Infinity`. -/
def finiteValues : List Number → Option (List ℚ)
  | [] => some []
  | Number.finite q :: rest => (finiteValues rest).map (fun qs => q :: qs)
  | Number.infinity :: _ => none

/-- The message of l. 144-147, l. 206-209 and l. 334-337. -/
def unknownModuleMessage : Effect :=
  Effect.log [LogArg.text "Módulo no existe, tiene que ser uno de los siguientes",
    LogArg.text (", ".intercalate modulesNames)]

/-- The message of l. 150-153, l. 212-215 and l. 340-343. -/
def missingModuleMessage : Effect :=
  Effect.log [LogArg.text "Módulo no ingresado. Módulos disponibles: ",
    LogArg.text (", ".intercalate modulesNames)]

/-- The call `await scrapDataFromLogs(startDate, periodLength, "logs.txt")` of the
report drivers, where `periodLength` is any integer: `new Array(periodLength)`
throws a `RangeError` when it is negative.  `logs` are the lines of the file. -/
def scrapCall (startDate : DateTime) (periodLength : Int) (logs : List String) : Option Data :=
  if periodLength < 0 then none else scrapDataFromLogs startDate periodLength.toNat logs

/-! ## `checkLatency` (l. 76-155) -/

/-- The options of `checkLatency` as `getopts` returns them: the positional
arguments `options._` and the texts given for `start` and for `end` (the field
`finish`); `none` when the option is absent and the default of l. 79-84
applies.  An option value that is not a string is outside the model. -/
structure LatencyOptions where
  positional : List String
  start : Option String
  finish : Option String

/-- The constant `startDate` of l. 93: the date read from the option `start`, whose
default (l. 80-82) is the text of the day `defaultPeriod - 1` days before
`currentDate`, which `fromFormat` reads back as that day. -/
def LatencyOptions.startDate (options : LatencyOptions) (currentDate : DateTime) : DateTime :=
  match options.start with
  | some text => fromFormat text.toList
  | none => currentDate.plusDays (-((defaultPeriod : Int) - 1))

/-- The constant `endDate` of l. 94: the date read from the option `end`, whose
default (l. 83) is the text of `currentDate`. -/
def LatencyOptions.endDate (options : LatencyOptions) (currentDate : DateTime) : DateTime :=
  match options.finish with
  | some text => fromFormat text.toList
  | none => currentDate

/-- The value `averageLatency` of l. 128-136: `reduce` adds the latencies from
left to right, every sum being rounded to binary64. -/
def averageLatency (latencyOfDay : List Number) : Option String :=
  if latencyOfDay.length > 0 then
    (Number.div (latencyOfDay.foldl (fun prev curr => Number.add prev curr) 0)
      (latencyOfDay.length : ℚ)).map
      (fun q => toFixed2 q ++ "ms")
  else some "desconocido"

/-- One turn of the loop of l. 125-142: the row printed for `day`. -/
def latencyRow (scrappedData : Data) (moduleName : String) (startDate : DateTime)
    (day : Nat) : Option Effect :=
  match scrappedData.get? moduleName with
  | none => none
  | some api =>
    match api.latency[day]? with
    | none => none
    | some latencyOfDay =>
      (averageLatency latencyOfDay).map (fun text =>
        Effect.log [LogArg.date (startDate.plusDays day), LogArg.text text])

/-- The function `checkLatency(args)` (l. 76-155) on the parsed options.
`currentDate` is the constant of l. 13-18 and `logs` are the lines of
`logs.txt`. -/
def checkLatency (currentDate : DateTime) (logs : List String) (options : LatencyOptions) :
    List Effect :=
  match options.positional with
  | [] => [missingModuleMessage]
  | moduleName :: _ =>
    if moduleName ∈ modulesNames then
      let startDate := options.startDate currentDate
      let endDate := options.endDate currentDate
      if !startDate.isValid then
        [Effect.log [LogArg.text "Fecha inicio inválida tiene que ser de la forma (02/09/2023)"]]
      else if !endDate.isValid then
        [Effect.log [LogArg.text "Fecha fin inválida tiene que ser de la forma (02/09/2023)"]]
      else
        match endDate.diffDays startDate with
        | none => [Effect.error]
        | some daysDiff =>
          if daysDiff < 0 then
            [Effect.log [LogArg.text "La fecha inicio es después de la fecha fin"]]
          else
            let periodLength := daysDiff + 1
            Effect.scrap startDate periodLength "logs.txt" ::
              match scrapCall startDate periodLength logs with
              | none => [Effect.error]
              | some scrappedData =>
                untilError ((List.range periodLength.toNat).map
                  (latencyRow scrappedData moduleName startDate))
    else [unknownModuleMessage]

/-! ## `checkAvailability` (l. 157-217) -/

/-- The value of the option `LastNthDays` as `getopts` returns it: absent (the
default 7 applies), the bare flag (`true`), or an integer. -/
inductive NthDays where
  | absent : NthDays
  | flag : NthDays
  | value (n : Int) : NthDays
  deriving DecidableEq, Repr

/-- The options of `checkAvailability` and `renderGraph` as `getopts` returns
them. -/
structure PeriodOptions where
  positional : List String
  LastNthDays : NthDays
  Last3Days : Bool
  Last30Days : Bool
  Latency : Bool

/-- The variable `days` of l. 166-174 and l. 234-242. -/
def resolveDays (options : PeriodOptions) : Int :=
  let days : Int :=
    match options.LastNthDays with
    | NthDays.absent => 7
    | NthDays.flag => 7
    | NthDays.value n => n
  let days := if options.Last3Days then 3 else days
  if options.Last30Days then 30 else days

/-- The second argument of `console.log` at l. 200-203. -/
def availability (success fail : Nat) : Option LogArg :=
  let totalRequests := success + fail
  if totalRequests = 0 then some (LogArg.text "desconocido")
  else (jsDiv (success : ℚ) (totalRequests : ℚ)).map (fun q => LogArg.number (jsMul q 100))

/-- One turn of the loop of l. 194-204: the row printed for `day`. -/
def availabilityRow (scrappedData : Data) (moduleName : String) (startDate : DateTime)
    (day : Nat) : Option Effect :=
  match scrappedData.get? moduleName with
  | none => none
  | some api =>
    match api.success[day]?, api.fail[day]? with
    | some success, some fail =>
      (availability success fail).map (fun value =>
        Effect.log [LogArg.date (startDate.plusDays day), value])
    | _, _ => none

/-- The function `checkAvailability(args)` (l. 157-217) on the parsed options. -/
def checkAvailability (currentDate : DateTime) (logs : List String) (options : PeriodOptions) :
    List Effect :=
  let days := resolveDays options
  match options.positional with
  | [] => [missingModuleMessage]
  | moduleName :: _ =>
    if moduleName ∈ modulesNames then
      let startDate := currentDate.plusDays (-(days - 1))
      let periodLength := days
      Effect.scrap startDate periodLength "logs.txt" ::
        match scrapCall startDate periodLength logs with
        | none => [Effect.error]
        | some scrappedData =>
          untilError ((List.range periodLength.toNat).map
            (availabilityRow scrappedData moduleName startDate))
    else [unknownModuleMessage]

/-! ## `renderGraph` (l. 219-345) -/

/-- One element of `averageLatencyByDay` (l. 262-272). -/
def averageLatencyOfDay (latencyOfDay : List Number) : Option Number :=
  if latencyOfDay.length > 0 then
    (Number.div (latencyOfDay.foldl (fun prev curr => Number.add prev curr) 0)
      (latencyOfDay.length : ℚ)).map
      parseFloatFixed2
  else some 0

/-- The value pushed for `day` at l. 285-299. -/
def availabilityOfDay (api : APIData) (day : Nat) : Option Number :=
  match api.success[day]?, api.fail[day]? with
  | some success, some fail =>
    let totalRequests := success + fail
    if totalRequests = 0 then some 0
    else (jsDiv (success : ℚ) (totalRequests : ℚ)).map (fun q => Number.finite (jsMul q 100))
  | _, _ => none

/-- The array `graphData` of l. 274-300: every value of a day is pushed `n = 4`
times. -/
def graphData (api : APIData) (periodLength : Nat) (latencyOption : Bool) :
    Option (List Number) :=
  let perDay :=
    if latencyOption then collect (api.latency.map averageLatencyOfDay)
    else collect ((List.range periodLength).map (availabilityOfDay api))
  perDay.map (fun values => values.flatMap (fun elem => List.replicate 4 elem))

/-- The call `asciichart.plot(graphData, { height })` (l. 303), as the argument of
`console.log` it returns.  `plot` takes its first bounds from `series[0][0]` of
an array of arrays: for the empty array `series[0]` is `undefined` and a
`TypeError` is thrown.  With an `Infinity` in the array the number of rows it
computes is `NaN`, and `new Array` throws a `RangeError`.  For every other
array the library is taken to return its text, which is kept as the values
plotted; how it draws them is not modelled. -/
def plot (graphData : List Number) (height : Nat) : Option LogArg :=
  if graphData = [] then none
  else (finiteValues graphData).map (fun values => LogArg.chart values height)

/-- The function `renderGraph(args)` (l. 219-345) on the parsed options. -/
def renderGraph (currentDate : DateTime) (logs : List String) (options : PeriodOptions) :
    List Effect :=
  let days := resolveDays options
  Effect.log [LogArg.optionsObject] :: Effect.log [LogArg.number (days : ℚ)] ::
  match options.positional with
  | [] => [missingModuleMessage]
  | moduleName :: _ =>
    if moduleName ∈ modulesNames then
      let startDate := currentDate.plusDays (-(days - 1))
      let periodLength := days
      Effect.scrap startDate periodLength "logs.txt" ::
        match scrapCall startDate periodLength logs with
        | none => [Effect.error]
        | some scrappedData =>
          match scrappedData.get? moduleName with
          | none => [Effect.error]
          | some api =>
            match graphData api periodLength.toNat options.Latency with
            | none => [Effect.error]
            | some series =>
              match plot series 8 with
              | none => [Effect.error]
              | some chart =>
                let dates := (List.range periodLength.toNat).map
                  (fun i => startDate.plusDays (i : Int))
                let ticks := List.replicate periodLength.toNat "┬"
                [Effect.log [chart],
                 Effect.log [LogArg.text ("             " ++ "─" ++ "───".intercalate ticks)],
                 Effect.log [LogArg.axis AxisField.day dates],
                 Effect.log [LogArg.axis AxisField.month dates],
                 Effect.log [LogArg.axis AxisField.year dates]]
    else [unknownModuleMessage]

/-! ## The calendar -/

/-- The numbers `day/month/year` form a real calendar day. -/
def IsCalendarDay (year month day : Nat) : Prop :=
  1 ≤ month ∧ month ≤ 12 ∧ 1 ≤ day ∧ day ≤ daysInMonth year month

/-- In every day bucket of every module the number of latency samples is the
number of successes plus the number of failures, for the day offsets below
`n`. -/
def Data.CountsMatchSamples (n : Nat) (data : Data) : Prop :=
  ∀ key api, data.get? key = some api → ∀ k, k < n →
    ∃ (s f : Nat) (samples : List Number),
      api.success[k]? = some s ∧ api.fail[k]? = some f ∧ api.latency[k]? = some samples ∧
      s + f = samples.length

/-! # Theorems -/

theorem apiData_new_hasLength (n : Nat) : (APIData.new n).HasLength n := by
  simp [APIData.new, APIData.HasLength]

theorem data_new_hasLength (n : Nat) : (Data.new n).HasLength n :=
  ⟨apiData_new_hasLength n, apiData_new_hasLength n, apiData_new_hasLength n⟩

theorem Data.get?_isSome_iff (data : Data) (key : String) :
    (data.get? key).isSome ↔ key ∈ modulesNames := by
  unfold Data.get? modulesNames
  by_cases h1 : key = "PokeStats"
  · subst h1; simp
  · by_cases h2 : key = "PokeAPI"
    · subst h2; simp
    · by_cases h3 : key = "PokeImages"
      · subst h3; simp
      · simp [h1, h2, h3]

theorem Data.get?_set (data : Data) (key : String) (api : APIData)
    (hkey : key ∈ modulesNames) (m : String) :
    (data.set key api).get? m = if m = key then some api else data.get? m := by
  simp only [modulesNames, List.mem_cons, List.mem_singleton, List.not_mem_nil, or_false] at hkey
  rcases hkey with h | h | h <;> subst h <;> unfold Data.get? Data.set <;>
    by_cases h1 : m = "PokeStats" <;> by_cases h2 : m = "PokeAPI" <;>
    by_cases h3 : m = "PokeImages" <;> simp_all

theorem Data.HasLength.get? {n : Nat} {data : Data} (h : data.HasLength n)
    {key : String} {api : APIData} (hk : data.get? key = some api) : api.HasLength n := by
  unfold Data.get? at hk
  obtain ⟨h1, h2, h3⟩ := h
  split_ifs at hk <;> simp_all

theorem Data.HasLength.set {n : Nat} {data : Data} (h : data.HasLength n)
    (key : String) {api : APIData} (ha : api.HasLength n) : (data.set key api).HasLength n := by
  unfold Data.set
  obtain ⟨h1, h2, h3⟩ := h
  split_ifs <;> exact ⟨by first | exact ha | assumption, by first | exact ha | assumption, by first | exact ha | assumption⟩ 

/-! ## Soundness of the matcher -/

theorem matchLit_eq_some {lit s rest : List Char} :
    matchLit lit s = some rest ↔ s = lit ++ rest := by
  induction lit generalizing s with
  | nil => simp [matchLit, eq_comm]
  | cons c lit ih =>
    cases s with
    | nil => simp [matchLit]
    | cons d s =>
      simp only [matchLit, List.cons_append, List.cons.injEq]
      by_cases h : c = d
      · simp [h, ih]
      · simp [h, Ne.symm h]

theorem matchAlt_sound {alts : List String} {s : List Char} {a : String} {rest : List Char}
    (h : matchAlt alts s = some (a, rest)) : a ∈ alts ∧ s = a.toList ++ rest := by
  induction alts with
  | nil => simp [matchAlt] at h
  | cons b alts ih =>
    unfold matchAlt at h
    split at h
    · rename_i r hr
      simp only [Option.some.injEq, Prod.mk.injEq] at h
      obtain ⟨rfl, rfl⟩ := h
      exact ⟨List.mem_cons_self _ _, matchLit_eq_some.1 hr⟩
    · exact ⟨List.mem_cons_of_mem _ (ih h).1, (ih h).2⟩

theorem matchDigits_sound {n : Nat} {s ds rest : List Char}
    (h : matchDigits n s = some (ds, rest)) :
    s = ds ++ rest ∧ ds.length = n ∧ ∀ c ∈ ds, c.isDigit = true := by
  induction n generalizing s ds with
  | zero =>
    simp only [matchDigits, Option.some.injEq, Prod.mk.injEq] at h
    obtain ⟨rfl, rfl⟩ := h
    simp
  | succ n ih =>
    cases s with
    | nil => simp [matchDigits] at h
    | cons c s =>
      unfold matchDigits at h
      split at h
      · rename_i hc
        split at h
        · rename_i ds1 rest1 h1
          simp only [Option.some.injEq, Prod.mk.injEq] at h
          obtain ⟨rfl, rfl⟩ := h
          obtain ⟨e1, e2, e3⟩ := ih h1
          refine ⟨by simp [e1], by simp [e2], ?_⟩
          intro x hx
          rcases List.mem_cons.1 hx with rfl | hx
          · exact hc
          · exact e3 x hx
        · simp at h
      · simp at h

theorem matchDigitsPlus_sound {s ds rest : List Char}
    (h : matchDigitsPlus s = some (ds, rest)) :
    s = ds ++ rest ∧ ds ≠ [] ∧ ∀ c ∈ ds, c.isDigit = true := by
  unfold matchDigitsPlus at h
  simp only at h
  split at h
  · simp at h
  · rename_i hne
    simp only [Option.some.injEq, Prod.mk.injEq] at h
    obtain ⟨rfl, rfl⟩ := h
    exact ⟨(List.takeWhile_append_dropWhile _ _).symm, hne,
      fun c hc => List.mem_takeWhile_imp hc⟩

theorem matchHere_sound {s : List Char} {g : Groups} (h : matchHere s = some g) :
    StartsWithRecord s g := by
  simp only [matchHere, bind, Option.bind_eq_some, Prod.exists, pure, Option.some.injEq] at h
  obtain ⟨m, s1, hm, s2, h2, st, s3, h3, s4, h4, lat, s5, h5, s6, h6, dd, s7, h7, s8, h8,
    mm, s9, h9, s10, h10, yyyy, s11, h11, s12, h12, rfl⟩ := h
  obtain ⟨hm1, rfl⟩ := matchAlt_sound hm
  obtain ⟨hst1, rfl⟩ := matchAlt_sound h3
  obtain ⟨rfl, hne, hdig⟩ := matchDigitsPlus_sound h5
  obtain ⟨rfl, a2, a3⟩ := matchDigits_sound h7
  obtain ⟨rfl, b2, b3⟩ := matchDigits_sound h9
  obtain ⟨rfl, c2, c3⟩ := matchDigits_sound h11
  rw [matchLit_eq_some] at h2 h4 h6 h8 h10 h12
  subst h12 h10 h8 h6 h4 h2
  exact ⟨⟨hm1, hst1, hne, hdig, dd, mm, yyyy, a2, a3, b2, b3, c2, c3, rfl⟩, s12,
    by simp [recordText, List.append_assoc]⟩

theorem regexExec_sound {s : List Char} {g : Groups} (h : regexExec s = some g) :
    ContainsRecordWith s g := by
  induction s with
  | nil => exact ⟨[], [], rfl, matchHere_sound (by simpa [regexExec] using h)⟩
  | cons c s ih =>
    unfold regexExec at h
    split at h
    · rename_i g1 hg
      simp only [Option.some.injEq] at h
      subst h
      exact ⟨[], c :: s, rfl, matchHere_sound hg⟩
    · obtain ⟨before, rest, e, hr⟩ := ih h
      exact ⟨c :: before, rest, by simp [e], hr⟩

theorem regexExec_module {s : List Char} {g : Groups} (h : regexExec s = some g) :
    g.module_name ∈ modulesNames := by
  obtain ⟨_, _, _, ⟨hm, _⟩, _⟩ := regexExec_sound h
  simp only [modulesNames, List.mem_cons, List.mem_singleton, List.not_mem_nil, or_false] at hm ⊢
  tauto

theorem APIData.record_eq_some {n : Nat} {api : APIData} (h : api.HasLength n)
    {offSet : Nat} (ho : offSet < n) (status : String) (latency : Number) :
    ∃ api1, api.record offSet status latency = some api1 ∧ api1.HasLength n ∧
      (∀ k, api1.success[k]? = (api.success[k]?).map
          (fun v => v + if k = offSet ∧ status = "success" then 1 else 0)) ∧
      (∀ k, api1.fail[k]? = (api.fail[k]?).map
          (fun v => v + if k = offSet ∧ status = "fail" then 1 else 0)) ∧
      (∀ k, api1.latency[k]? = (api.latency[k]?).map
          (fun v => v ++ if k = offSet then [latency] else [])) := by
  obtain ⟨h1, h2, h3⟩ := h
  have l1 : offSet < api.success.length := by omega
  have l2 : offSet < api.fail.length := by omega
  have l3 : offSet < api.latency.length := by omega
  simp only [APIData.record, List.getElem?_eq_getElem l1, List.getElem?_eq_getElem l2,
    List.getElem?_eq_getElem l3]
  refine ⟨_, rfl, ⟨by simp [h1], by simp [h2], by simp [h3]⟩, ?_, ?_, ?_⟩
  · intro k
    by_cases hk : k = offSet
    · subst hk; simp [List.getElem?_eq_getElem l1, List.getElem?_set_self l1]
    · simp [hk, List.getElem?_set_ne (Ne.symm hk)]
  · intro k
    by_cases hk : k = offSet
    · subst hk; simp [List.getElem?_eq_getElem l2, List.getElem?_set_self l2]
    · simp [hk, List.getElem?_set_ne (Ne.symm hk)]
  · intro k
    by_cases hk : k = offSet
    · subst hk; simp [List.getElem?_eq_getElem l3, List.getElem?_set_self l3]
    · simp [hk, List.getElem?_set_ne (Ne.symm hk)]

theorem StepSpec.of_no_event {start : Int} {n : Nat} {m : String} {line : String}
    (api : APIData)
    (h : ∀ k, k < n → ∀ g, regexExec line.toList = some g →
      ¬ (g.module_name = m ∧ fromFormat g.date = DateTime.valid (start + k))) :
    StepSpec start n m line api api := by
  intro k hk
  have h1 : ∀ st, isEvent m st (start + k) line = false := by
    intro st
    unfold isEvent
    split
    · rename_i g hg
      have := h k hk g hg
      simp only [decide_eq_false_iff_not]
      tauto
    · rfl
  have h2 : eventLatency m (start + k) line = none := by
    unfold eventLatency
    split
    · rename_i g hg
      have := h k hk g hg
      simp [this]
    · rfl
  simp [h1, h2]

theorem lineHandler_step (start : Int) (n : Nat) (data : Data) (hd : data.HasLength n)
    (line : String) :
    ∃ data1, lineHandler (DateTime.valid start) n data line = some data1 ∧
      data1.HasLength n ∧
      ∀ m api, data.get? m = some api →
        ∃ api1, data1.get? m = some api1 ∧ StepSpec start n m line api api1 := by
  unfold lineHandler
  cases hre : regexExec line.toList with
  | none =>
    refine ⟨data, rfl, hd, fun m api hm => ⟨api, hm, StepSpec.of_no_event api ?_⟩⟩
    intro k _ g hg
    rw [hre] at hg
    cases hg
  | some g =>
    simp only
    cases hdate : fromFormat g.date with
    | invalid =>
      refine ⟨data, rfl, hd, fun m api hm => ⟨api, hm, StepSpec.of_no_event api ?_⟩⟩
      intro k _ g1 hg1
      rw [hre] at hg1
      cases hg1
      simp [hdate]
    | valid d =>
      simp only [DateTime.diffDays]
      by_cases hwin : 0 ≤ d - start ∧ d - start < (n : Int)
      · rw [if_pos hwin]
        have hmod := regexExec_module hre
        obtain ⟨api0, hapi0⟩ := Option.isSome_iff_exists.1
          ((Data.get?_isSome_iff data g.module_name).2 hmod)
        have hlt : (d - start).toNat < n := by omega
        obtain ⟨api1, hrec, hlen1, hs, hf, hl⟩ :=
          APIData.record_eq_some (hd.get? hapi0) hlt g.status (parseInt g.latency)
        rw [hapi0]
        simp only
        rw [hrec]
        refine ⟨_, rfl, hd.set _ hlen1, ?_⟩
        intro m api hm
        rw [Data.get?_set _ _ _ hmod]
        by_cases hmm : m = g.module_name
        · subst hmm
          rw [hapi0] at hm
          cases hm
          refine ⟨api1, by simp, ?_⟩
          intro k hk
          have hkd : (k = (d - start).toNat) = (d = start + k) :=
            propext ⟨fun e => by omega, fun e => by omega⟩
          refine ⟨?_, ?_, ?_⟩
          · rw [hs k]; congr 1; funext v
            simp only [isEvent, hre, hdate, true_and, hkd, DateTime.valid.injEq]
            by_cases hst : g.status = "success" <;> by_cases hk2 : d = start + k <;>
              simp [hst, hk2]
          · rw [hf k]; congr 1; funext v
            simp only [isEvent, hre, hdate, true_and, hkd, DateTime.valid.injEq]
            by_cases hst : g.status = "fail" <;> by_cases hk2 : d = start + k <;>
              simp [hst, hk2]
          · rw [hl k]; congr 1; funext v
            simp only [eventLatency, hre, hdate, true_and, hkd, DateTime.valid.injEq]
            by_cases hk2 : d = start + k <;> simp [hk2]
        · rw [if_neg hmm]
          refine ⟨api, hm, StepSpec.of_no_event api ?_⟩
          intro k _ g1 hg1
          rw [hre] at hg1
          cases hg1
          intro hc
          exact hmm hc.1.symm
      · rw [if_neg hwin]
        refine ⟨data, rfl, hd, fun m api hm => ⟨api, hm, StepSpec.of_no_event api ?_⟩⟩
        intro k hk g1 hg1
        rw [hre] at hg1
        cases hg1
        rw [hdate]
        intro hc
        have := hc.2
        cases this
        omega

/-! ## What `scrapDataFromLogs` computes -/

theorem foldlM_lineHandler_spec (start : Int) (n : Nat) (lines : List String) :
    ∀ data : Data, data.HasLength n →
    ∃ data1, lines.foldlM (lineHandler (DateTime.valid start) n) data = some data1 ∧
      data1.HasLength n ∧
      ∀ m api, data.get? m = some api →
        ∃ api1, data1.get? m = some api1 ∧ ∀ k, k < n →
          api1.success[k]? = (api.success[k]?).map
            (fun v => v + lines.countP (isEvent m "success" (start + k))) ∧
          api1.fail[k]? = (api.fail[k]?).map
            (fun v => v + lines.countP (isEvent m "fail" (start + k))) ∧
          api1.latency[k]? = (api.latency[k]?).map
            (fun v => v ++ lines.filterMap (eventLatency m (start + k))) := by
  induction lines with
  | nil =>
    intro data hd
    refine ⟨data, rfl, hd, fun m api hm => ⟨api, hm, fun k _ => ?_⟩⟩
    simp
  | cons line lines ih =>
    intro data hd
    obtain ⟨data1, h1, hd1, hstep⟩ := lineHandler_step start n data hd line
    obtain ⟨data2, h2, hd2, hrest⟩ := ih data1 hd1
    refine ⟨data2, ?_, hd2, ?_⟩
    · rw [List.foldlM_cons, h1]
      exact h2
    · intro m api hm
      obtain ⟨api1, hm1, hs1⟩ := hstep m api hm
      obtain ⟨api2, hm2, hs2⟩ := hrest m api1 hm1
      refine ⟨api2, hm2, fun k hk => ?_⟩
      obtain ⟨a1, a2, a3⟩ := hs1 k hk
      obtain ⟨b1, b2, b3⟩ := hs2 k hk
      refine ⟨?_, ?_, ?_⟩
      · rw [b1, a1, Option.map_map]; congr 1; funext v
        simp only [Function.comp, List.countP_cons]
        split_ifs <;> omega
      · rw [b2, a2, Option.map_map]; congr 1; funext v
        simp only [Function.comp, List.countP_cons]
        split_ifs <;> omega
      · rw [b3, a3, Option.map_map]; congr 1; funext v
        simp only [Function.comp, List.filterMap_cons]
        cases eventLatency m (start + k) line <;> simp

theorem scrapDataFromLogs_spec (start : Int) (n : Nat) (lines : List String) :
    ∃ data, scrapDataFromLogs (DateTime.valid start) n lines = some data ∧
      data.HasLength n ∧
      ∀ m, m ∈ modulesNames →
        ∃ api, data.get? m = some api ∧ ∀ k, k < n →
          api.success[k]? = some (lines.countP (isEvent m "success" (start + k))) ∧
          api.fail[k]? = some (lines.countP (isEvent m "fail" (start + k))) ∧
          api.latency[k]? = some (lines.filterMap (eventLatency m (start + k))) := by
  obtain ⟨data, h, hd, hs⟩ := foldlM_lineHandler_spec start n lines (Data.new n)
    (data_new_hasLength n)
  refine ⟨data, h, hd, fun m hm => ?_⟩
  obtain ⟨api0, h0⟩ := Option.isSome_iff_exists.1 ((Data.get?_isSome_iff (Data.new n) m).2 hm)
  obtain ⟨api, hapi, hk⟩ := hs m api0 h0
  refine ⟨api, hapi, fun k hkn => ?_⟩
  have e0 : api0 = APIData.new n := by
    unfold Data.get? Data.new at h0
    split_ifs at h0 <;> simp_all
  subst e0
  obtain ⟨a1, a2, a3⟩ := hk k hkn
  simp only [APIData.new, List.getElem?_replicate_of_lt hkn, Option.map_some'] at a1 a2 a3
  exact ⟨by simpa using a1, by simpa using a2, by simpa using a3⟩

/-! ## Completeness of the matcher -/

theorem matchLit_append (lit rest : List Char) : matchLit lit (lit ++ rest) = some rest :=
  matchLit_eq_some.2 rfl

theorem matchDigits_complete {n : Nat} {ds : List Char} (rest : List Char)
    (hl : ds.length = n) (hd : ∀ c ∈ ds, c.isDigit = true) :
    matchDigits n (ds ++ rest) = some (ds, rest) := by
  induction n generalizing ds with
  | zero =>
    have : ds = [] := List.length_eq_zero.1 hl
    subst this
    rfl
  | succ n ih =>
    cases ds with
    | nil => simp at hl
    | cons c ds =>
      have hc : c.isDigit = true := hd c (List.mem_cons_self _ _)
      have := @ih ds (by simpa using hl) (fun x hx => hd x (List.mem_cons_of_mem _ hx))
      simp [matchDigits, hc, this]

theorem matchDigitsPlus_complete {ds : List Char} (rest : List Char)
    (hne : ds ≠ []) (hd : ∀ c ∈ ds, c.isDigit = true) :
    matchDigitsPlus (ds ++ ("ms,".toList ++ rest)) = some (ds, "ms,".toList ++ rest) := by
  have h1 : List.takeWhile Char.isDigit (ds ++ ("ms,".toList ++ rest)) = ds := by
    rw [List.takeWhile_append_of_pos hd]
    simp [List.takeWhile]
  have h2 : List.dropWhile Char.isDigit (ds ++ ("ms,".toList ++ rest)) =
      "ms,".toList ++ rest := by
    rw [List.dropWhile_append_of_pos hd]
    simp [List.dropWhile]
  unfold matchDigitsPlus
  simp only [h1, h2, if_neg hne]

theorem matchHere_complete {s : List Char} {g : Groups} (h : StartsWithRecord s g) :
    matchHere s = some g := by
  obtain ⟨⟨hm, hst, hne, hlat, dd, mm, yyyy, l1, d1, l2, d2, l3, d3, hdate⟩, rest, rfl⟩ := h
  obtain ⟨m, st, lat, date⟩ := g
  simp only at hm hst hne hlat hdate
  subst hdate
  have hmod : ∀ t : List Char, matchAlt ["PokeStats", "PokeImages", "PokeAPI"]
      (m.toList ++ t) = some (m, t) := by
    intro t
    simp only [List.mem_cons, List.mem_singleton, List.not_mem_nil, or_false] at hm
    rcases hm with rfl | rfl | rfl <;> rfl
  have hstat : ∀ t : List Char, matchAlt ["success", "fail"] (st.toList ++ t) = some (st, t) := by
    intro t
    simp only [List.mem_cons, List.mem_singleton, List.not_mem_nil, or_false] at hst
    rcases hst with rfl | rfl <;> rfl
  simp only [matchHere, recordText, List.append_assoc, hmod, bind, Option.some_bind,
    matchLit_append, hstat, matchDigitsPlus_complete _ hne hlat, matchDigits_complete _ l1 d1,
    matchDigits_complete _ l2 d2, matchDigits_complete _ l3 d3, pure]

theorem regexExec_complete {s : List Char} {g : Groups} (h : ContainsRecordWith s g) :
    (regexExec s).isSome = true := by
  obtain ⟨before, rest, rfl, hr⟩ := h
  have hm := matchHere_complete hr
  induction before with
  | nil =>
    cases rest with
    | nil => simp [regexExec, hm]
    | cons c rest => simp [regexExec, hm]
  | cons c before ih =>
    simp only [List.cons_append, regexExec]
    split
    · rfl
    · exact ih

theorem regexExec_isSome_iff (s : List Char) : (regexExec s).isSome = true ↔ ContainsRecord s := by
  constructor
  · intro h
    obtain ⟨g, hg⟩ := Option.isSome_iff_exists.1 h
    exact ⟨g, regexExec_sound hg⟩
  · rintro ⟨g, hg⟩
    exact regexExec_complete hg

theorem DateTime.diffDays_invalid (date : DateTime) :
    date.diffDays DateTime.invalid = none := by
  cases date <;> rfl

theorem lineHandler_invalid_start (n : Nat) (data : Data) (line : String) :
    lineHandler DateTime.invalid n data line = some data := by
  unfold lineHandler
  split
  · rfl
  · simp [DateTime.diffDays_invalid]

theorem Data.hasLength_iff (n : Nat) (data : Data) :
    data.HasLength n ↔ ∀ key api, data.get? key = some api →
      api.success.length = n ∧ api.fail.length = n ∧ api.latency.length = n := by
  constructor
  · intro h key api hk
    exact h.get? hk
  · intro h
    exact ⟨h "PokeStats" _ rfl, h "PokeAPI" _ rfl, h "PokeImages" _ rfl⟩

theorem lineHandler_hasLength (startDate : DateTime) (n : Nat) (data : Data)
    (hd : data.HasLength n) (line : String) :
    ∃ data1, lineHandler startDate n data line = some data1 ∧ data1.HasLength n := by
  cases startDate with
  | invalid => exact ⟨data, lineHandler_invalid_start n data line, hd⟩
  | valid start =>
    obtain ⟨data1, h1, h2, _⟩ := lineHandler_step start n data hd line
    exact ⟨data1, h1, h2⟩

theorem foldlM_lineHandler_hasLength (startDate : DateTime) (n : Nat) (lines : List String) :
    ∀ data : Data, data.HasLength n →
      ∃ data1, lines.foldlM (lineHandler startDate n) data = some data1 ∧ data1.HasLength n := by
  induction lines with
  | nil => exact fun data hd => ⟨data, rfl, hd⟩
  | cons line lines ih =>
    intro data hd
    obtain ⟨data1, h1, hd1⟩ := lineHandler_hasLength startDate n data hd line
    obtain ⟨data2, h2, hd2⟩ := ih data1 hd1
    exact ⟨data2, by rw [List.foldlM_cons, h1]; exact h2, hd2⟩

theorem lineHandler_of_regexExec_none (startDate : DateTime) (n : Nat) (data : Data)
    (line : String) (h : regexExec line.toList = none) :
    lineHandler startDate n data line = some data := by
  unfold lineHandler
  rw [h]

theorem lineHandler_of_not_accepted (startDate : DateTime) (n : Nat) (data : Data)
    (line : String) (g : Groups) (hg : regexExec line.toList = some g)
    (h : acceptedOffset startDate n (fromFormat g.date) = none) :
    lineHandler startDate n data line = some data := by
  unfold lineHandler
  unfold acceptedOffset at h
  rw [hg]
  simp only
  split
  · rfl
  · rename_i o ho
    rw [ho] at h
    simp only at h
    split
    · rename_i hw
      rw [if_pos hw] at h
      cases h
    · rfl

theorem lineHandler_of_accepted (startDate : DateTime) (n : Nat) (data : Data)
    (line : String) (g : Groups) (hg : regexExec line.toList = some g) (k : Nat)
    (h : acceptedOffset startDate n (fromFormat g.date) = some k) :
    lineHandler startDate n data line =
      (data.get? g.module_name).bind (fun api =>
        (api.record k g.status (parseInt g.latency)).map (fun api1 =>
          data.set g.module_name api1)) := by
  unfold lineHandler
  unfold acceptedOffset at h
  rw [hg]
  simp only
  split
  · rename_i ho
    rw [ho] at h
    cases h
  · rename_i o ho
    rw [ho] at h
    simp only at h
    split
    · rename_i hw
      rw [if_pos hw] at h
      cases h
      cases data.get? g.module_name with
      | none => rfl
      | some api =>
        simp only [Option.some_bind]
        cases api.record o.toNat g.status (parseInt g.latency) <;> rfl
    · rename_i hw
      rw [if_neg hw] at h
      cases h

theorem acceptedOffset_valid (start : Int) (n : Nat) (d : Int) (k : Nat) :
    acceptedOffset (DateTime.valid start) n (DateTime.valid d) = some k ↔
      k < n ∧ d = start + k := by
  simp only [acceptedOffset, DateTime.diffDays]
  split_ifs with h
  · simp only [Option.some.injEq]
    omega
  · simp only [reduceCtorEq, false_iff]
    omega

theorem acceptedOffset_invalid (startDate : DateTime) (n : Nat) :
    acceptedOffset startDate n DateTime.invalid = none := by
  cases startDate <;> rfl

theorem scrapDataFromLogs_skip (startDate : DateTime) (n : Nat) (line : String)
    (h : ∀ data, lineHandler startDate n data line = some data) (before after : List String) :
    scrapDataFromLogs startDate n (before ++ line :: after) =
      scrapDataFromLogs startDate n (before ++ after) := by
  unfold scrapDataFromLogs
  rw [List.foldlM_append, List.foldlM_append]
  congr 1
  funext data
  rw [List.foldlM_cons, h data]
  rfl

/-! ## Rounding to binary64 -/

theorem roundHalfEven_cases (x : ℚ) :
    roundHalfEven x = ⌊x⌋ ∨ roundHalfEven x = ⌊x⌋ + 1 := by
  unfold roundHalfEven
  simp only
  split_ifs <;> simp

theorem abs_roundHalfEven_sub_le (x : ℚ) : |(roundHalfEven x : ℚ) - x| ≤ 1 / 2 := by
  have h1 := Int.floor_le x
  have h2 := Int.lt_floor_add_one x
  unfold roundHalfEven
  simp only
  rw [abs_le]
  split_ifs with a b c <;> push_cast <;> constructor <;> linarith

theorem roundHalfEven_intCast (z : ℤ) : roundHalfEven (z : ℚ) = z := by
  unfold roundHalfEven
  simp

theorem roundHalfEven_le_of_le {x : ℚ} {z : ℤ} (h : x ≤ z) : roundHalfEven x ≤ z := by
  rcases eq_or_lt_of_le h with h | h
  · rw [h, roundHalfEven_intCast]
  · have : ⌊x⌋ < z := Int.floor_lt.2 h
    rcases roundHalfEven_cases x with e | e <;> omega

theorem le_roundHalfEven_of_le {x : ℚ} {z : ℤ} (h : (z : ℚ) ≤ x) : z ≤ roundHalfEven x := by
  have : z ≤ ⌊x⌋ := Int.le_floor.2 h
  rcases roundHalfEven_cases x with e | e <;> omega

theorem roundHalfEven_mono {x y : ℚ} (h : x ≤ y) : roundHalfEven x ≤ roundHalfEven y := by
  have hf : ⌊x⌋ ≤ ⌊y⌋ := Int.floor_mono h
  rcases eq_or_lt_of_le hf with hf | hf
  · unfold roundHalfEven
    simp only
    rw [hf]
    split_ifs <;> first | omega | (exfalso; linarith)
  · have h1 : roundHalfEven x ≤ ⌊x⌋ + 1 := by
      rcases roundHalfEven_cases x with e | e <;> omega
    have h2 : ⌊y⌋ ≤ roundHalfEven y := by
      rcases roundHalfEven_cases y with e | e <;> omega
    omega

theorem two_zpow_pos (e : ℤ) : (0 : ℚ) < 2 ^ e := zpow_pos (by norm_num) e

theorem double_exponent_spec {q : ℚ} (hq : 0 < q) :
    (2 : ℚ) ^ (52 : ℤ) ≤ q / 2 ^ (Int.log 2 q - 52) ∧
    q / 2 ^ (Int.log 2 q - 52) < (2 : ℚ) ^ (53 : ℤ) := by
  have h1 : ((2 : ℕ) : ℚ) ^ Int.log 2 q ≤ q := Int.zpow_log_le_self (by norm_num) hq
  have h2 : q < ((2 : ℕ) : ℚ) ^ (Int.log 2 q + 1) := Int.lt_zpow_succ_log_self (by norm_num) q
  rw [Nat.cast_ofNat] at h1 h2
  have hpos := two_zpow_pos (Int.log 2 q - 52)
  constructor
  · rw [le_div_iff₀ hpos, ← zpow_add₀ (by norm_num : (2 : ℚ) ≠ 0)]
    have : (52 : ℤ) + (Int.log 2 q - 52) = Int.log 2 q := by ring
    rw [this]
    exact h1
  · rw [div_lt_iff₀ hpos, ← zpow_add₀ (by norm_num : (2 : ℚ) ≠ 0)]
    have : (53 : ℤ) + (Int.log 2 q - 52) = Int.log 2 q + 1 := by ring
    rw [this]
    exact h2

theorem roundDouble_of_pos {q : ℚ} (hq : 0 < q) :
    roundDouble q = (roundHalfEven (q / 2 ^ (Int.log 2 q - 52)) : ℚ) * 2 ^ (Int.log 2 q - 52) := by
  unfold roundDouble
  rw [if_neg hq.ne', abs_of_pos hq]

theorem roundDouble_zero : roundDouble 0 = 0 := by
  simp [roundDouble]

theorem significand_bounds {q : ℚ} (hq : 0 < q) :
    (2 : ℤ) ^ 52 ≤ roundHalfEven (q / 2 ^ (Int.log 2 q - 52)) ∧
    roundHalfEven (q / 2 ^ (Int.log 2 q - 52)) ≤ (2 : ℤ) ^ 53 := by
  obtain ⟨h1, h2⟩ := double_exponent_spec hq
  constructor
  · apply le_roundHalfEven_of_le
    push_cast
    exact_mod_cast h1
  · apply roundHalfEven_le_of_le
    push_cast
    exact_mod_cast h2.le

theorem roundDouble_pos {q : ℚ} (hq : 0 < q) : 0 < roundDouble q := by
  rw [roundDouble_of_pos hq]
  have h := (significand_bounds hq).1
  have : (0 : ℚ) < (roundHalfEven (q / 2 ^ (Int.log 2 q - 52)) : ℚ) := by
    have : (0 : ℤ) < roundHalfEven (q / 2 ^ (Int.log 2 q - 52)) := by
      have : (0 : ℤ) < 2 ^ 52 := by norm_num
      omega
    exact_mod_cast this
  exact mul_pos this (two_zpow_pos _)

theorem roundDouble_nonneg {q : ℚ} (hq : 0 ≤ q) : 0 ≤ roundDouble q := by
  rcases eq_or_lt_of_le hq with h | h
  · rw [← h, roundDouble_zero]
  · exact (roundDouble_pos h).le

/-- The rounding error of a positive quotient is at most half a unit in the
last place, hence at most `q * 2 ^ (-53)`. -/
theorem abs_roundDouble_sub_le {q : ℚ} (hq : 0 ≤ q) :
    |roundDouble q - q| ≤ q / 2 ^ 53 := by
  rcases eq_or_lt_of_le hq with h | h
  · rw [← h, roundDouble_zero]; simp
  rw [roundDouble_of_pos h]
  set e := Int.log 2 q - 52 with he
  have hpos := two_zpow_pos e
  have h1 := (double_exponent_spec h).1
  rw [← he] at h1
  have hr := abs_roundHalfEven_sub_le (q / 2 ^ e)
  have e1 : (roundHalfEven (q / 2 ^ e) : ℚ) * 2 ^ e - q =
      ((roundHalfEven (q / 2 ^ e) : ℚ) - q / 2 ^ e) * 2 ^ e := by
    field_simp
  rw [e1, abs_mul, abs_of_pos hpos]
  have h3 : (2 : ℚ) ^ e ≤ q / 2 ^ 52 := by
    rw [le_div_iff₀ (by positivity)]
    rw [le_div_iff₀ hpos] at h1
    have : (2 : ℚ) ^ (52 : ℤ) = 2 ^ 52 := by norm_cast
    rw [this] at h1
    linarith
  calc |(roundHalfEven (q / 2 ^ e) : ℚ) - q / 2 ^ e| * 2 ^ e
      ≤ 1 / 2 * 2 ^ e := mul_le_mul_of_nonneg_right hr hpos.le
    _ ≤ 1 / 2 * (q / 2 ^ 52) := by linarith
    _ = q / 2 ^ 53 := by ring

/-- A binary64 value (an integer below `2 ^ 53` times a power of two) is not
changed by rounding. -/
theorem roundDouble_of_repr (m : ℕ) (z : ℤ) (hm : m < 2 ^ 53) :
    roundDouble ((m : ℚ) * 2 ^ z) = (m : ℚ) * 2 ^ z := by
  rcases Nat.eq_zero_or_pos m with h0 | h0
  · subst h0; simp [roundDouble_zero]
  have hq : (0 : ℚ) < (m : ℚ) * 2 ^ z := mul_pos (by exact_mod_cast h0) (two_zpow_pos z)
  rw [roundDouble_of_pos hq]
  set e := Int.log 2 ((m : ℚ) * 2 ^ z) - 52 with he
  have h1 : ((2 : ℕ) : ℚ) ^ Int.log 2 ((m : ℚ) * 2 ^ z) ≤ (m : ℚ) * 2 ^ z :=
    Int.zpow_log_le_self (by norm_num) hq
  rw [Nat.cast_ofNat] at h1
  have h2 : (m : ℚ) * 2 ^ z < 2 ^ (53 + z) := by
    rw [zpow_add₀ (by norm_num : (2 : ℚ) ≠ 0)]
    have : (m : ℚ) < 2 ^ (53 : ℤ) := by exact_mod_cast hm
    exact mul_lt_mul_of_pos_right this (two_zpow_pos z)
  have h3 : Int.log 2 ((m : ℚ) * 2 ^ z) < 53 + z :=
    (zpow_lt_zpow_iff_right₀ (by norm_num : (1 : ℚ) < 2)).1 (lt_of_le_of_lt h1 h2)
  have hez : e ≤ z := by omega
  obtain ⟨k, hk⟩ : ∃ k : ℕ, z = e + k := ⟨(z - e).toNat, by omega⟩
  clear_value e
  clear h1 h2 h3 he hq
  subst hk
  have hne := (two_zpow_pos e).ne'
  have e1 : (m : ℚ) * 2 ^ (e + (k : ℤ)) / 2 ^ e = ((m * 2 ^ k : ℕ) : ℤ) := by
    rw [zpow_add₀ (by norm_num : (2 : ℚ) ≠ 0), zpow_natCast]
    field_simp
    ring
  rw [e1, roundHalfEven_intCast, zpow_add₀ (by norm_num : (2 : ℚ) ≠ 0), zpow_natCast]
  push_cast
  ring

theorem roundDouble_natCast (m : ℕ) (hm : m < 2 ^ 53) : roundDouble (m : ℚ) = m := by
  have := roundDouble_of_repr m 0 hm
  simpa using this

/-- Rounding to binary64 is monotone on the non-negative numbers. -/
theorem roundDouble_mono {x y : ℚ} (hx : 0 ≤ x) (hxy : x ≤ y) :
    roundDouble x ≤ roundDouble y := by
  rcases eq_or_lt_of_le hx with h | h
  · rw [← h, roundDouble_zero]
    exact roundDouble_nonneg (hx.trans hxy)
  have hy : 0 < y := lt_of_lt_of_le h hxy
  have hL : Int.log 2 x ≤ Int.log 2 y := Int.log_mono_right h hxy
  rw [roundDouble_of_pos h, roundDouble_of_pos hy]
  rcases eq_or_lt_of_le hL with hL | hL
  · rw [hL]
    have hpos := two_zpow_pos (Int.log 2 y - 52)
    have : x / 2 ^ (Int.log 2 y - 52) ≤ y / 2 ^ (Int.log 2 y - 52) :=
      div_le_div_of_nonneg_right hxy hpos.le
    have := roundHalfEven_mono this
    exact mul_le_mul_of_nonneg_right (by exact_mod_cast this) hpos.le
  · have a1 := (significand_bounds h).2
    have a2 := (significand_bounds hy).1
    have b1 : (roundHalfEven (x / 2 ^ (Int.log 2 x - 52)) : ℚ) ≤ 2 ^ (53 : ℤ) := by
      exact_mod_cast a1
    have b2 : (2 : ℚ) ^ (52 : ℤ) ≤ (roundHalfEven (y / 2 ^ (Int.log 2 y - 52)) : ℚ) := by
      exact_mod_cast a2
    calc (roundHalfEven (x / 2 ^ (Int.log 2 x - 52)) : ℚ) * 2 ^ (Int.log 2 x - 52)
        ≤ 2 ^ (53 : ℤ) * 2 ^ (Int.log 2 x - 52) :=
          mul_le_mul_of_nonneg_right b1 (two_zpow_pos _).le
      _ = 2 ^ (Int.log 2 x + 1) := by
          rw [← zpow_add₀ (by norm_num : (2 : ℚ) ≠ 0)]; congr 1; ring
      _ ≤ 2 ^ (Int.log 2 y) := zpow_le_zpow_right₀ (by norm_num) (by omega)
      _ = 2 ^ (52 : ℤ) * 2 ^ (Int.log 2 y - 52) := by
          rw [← zpow_add₀ (by norm_num : (2 : ℚ) ≠ 0)]; congr 1; ring
      _ ≤ (roundHalfEven (y / 2 ^ (Int.log 2 y - 52)) : ℚ) * 2 ^ (Int.log 2 y - 52) :=
          mul_le_mul_of_nonneg_right b2 (two_zpow_pos _).le

theorem roundDouble_half : roundDouble (1 / 2) = 1 / 2 := by
  have := roundDouble_of_repr 1 (-1) (by norm_num)
  norm_num at this
  simpa using this

/-- The integer strictly within `1 / 2` of `x` is what `x` rounds to. -/
theorem roundHalfEven_eq_of_lt {x : ℚ} (z : ℤ) (h1 : (z : ℚ) - 1 / 2 < x)
    (h2 : x < (z : ℚ) + 1 / 2) : roundHalfEven x = z := by
  have h := abs_roundHalfEven_sub_le x
  rw [abs_le] at h
  have a1 : ((roundHalfEven x - z : ℤ) : ℚ) < 1 := by push_cast; linarith
  have a2 : (-1 : ℚ) < ((roundHalfEven x - z : ℤ) : ℚ) := by push_cast; linarith
  have b1 : roundHalfEven x - z < 1 := by exact_mod_cast a1
  have b2 : -1 < roundHalfEven x - z := by exact_mod_cast a2
  omega

/-- A tie is rounded to the even neighbour below. -/
theorem roundHalfEven_tie_even {x : ℚ} (z : ℤ) (hx : x = (z : ℚ) + 1 / 2) (hz : z % 2 = 0) :
    roundHalfEven x = z := by
  subst hx
  have hf : ⌊(z : ℚ) + 1 / 2⌋ = z := by
    rw [Int.floor_eq_iff]
    constructor <;> linarith
  unfold roundHalfEven
  simp only [hf]
  rw [if_neg (by norm_num), if_neg (by norm_num), if_pos hz]

/-- The exponent of `roundDouble` is the one that puts the significand between
`2 ^ 52` and `2 ^ 53`. -/
theorem roundDouble_eq_of_bounds {q : ℚ} (e : ℤ) (h1 : (2 : ℚ) ^ (52 : ℤ) ≤ q / 2 ^ e)
    (h2 : q / 2 ^ e < (2 : ℚ) ^ (53 : ℤ)) :
    roundDouble q = (roundHalfEven (q / 2 ^ e) : ℚ) * 2 ^ e := by
  have hpos := two_zpow_pos e
  have hq : 0 < q := by
    have : (0 : ℚ) < q / 2 ^ e := lt_of_lt_of_le (two_zpow_pos 52) h1
    exact (div_pos_iff_of_pos_right hpos).1 this
  have hlog : Int.log 2 q = e + 52 := by
    have a1 : e + 52 ≤ Int.log 2 q := by
      rw [← Int.zpow_le_iff_le_log (by norm_num) hq]
      rw [le_div_iff₀ hpos, ← zpow_add₀ (by norm_num : (2 : ℚ) ≠ 0)] at h1
      rw [add_comm]
      exact_mod_cast h1
    have a2 : Int.log 2 q < e + 53 := by
      rw [← Int.lt_zpow_iff_log_lt (by norm_num) hq]
      rw [div_lt_iff₀ hpos, ← zpow_add₀ (by norm_num : (2 : ℚ) ≠ 0)] at h2
      rw [add_comm]
      exact_mod_cast h2
    omega
  rw [roundDouble_of_pos hq, hlog]
  have : e + 52 - 52 = e := by ring
  rw [this]

theorem roundDouble_le_natCast {q : ℚ} (hq : 0 ≤ q) (m : ℕ) (hm : m ≤ 2 ^ 53) (h : q ≤ m) :
    roundDouble q ≤ m := by
  have hr : roundDouble (m : ℚ) = m := by
    rcases Nat.lt_or_ge m (2 ^ 53) with h1 | h1
    · exact roundDouble_natCast m h1
    · have e : m = 2 ^ 53 := le_antisymm hm h1
      subst e
      have := roundDouble_of_repr (2 ^ 52) 1 (by norm_num)
      norm_num at this ⊢
      exact this
  calc roundDouble q ≤ roundDouble (m : ℚ) := roundDouble_mono hq h
    _ = m := hr

theorem toNumber_of_lt {q : ℚ} (h : roundDouble q < 2 ^ 1024) :
    toNumber q = Number.finite (roundDouble q) := by
  unfold toNumber
  rw [if_pos h]

/-- An integer up to `2 ^ 53` is a Number. -/
theorem toNumber_natCast (n : ℕ) (h : n ≤ 2 ^ 53) : toNumber (n : ℚ) = Number.finite n := by
  have hr : roundDouble (n : ℚ) = n :=
    le_antisymm (roundDouble_le_natCast (by positivity) n h le_rfl) (by
      rcases Nat.lt_or_ge n (2 ^ 53) with h1 | h1
      · rw [roundDouble_natCast n h1]
      · have e : n = 2 ^ 53 := le_antisymm h h1
        subst e
        have := roundDouble_of_repr (2 ^ 52) 1 (by norm_num)
        norm_num at this ⊢
        exact this.ge)
  have hlt : roundDouble (n : ℚ) < 2 ^ 1024 := by
    rw [hr]
    have h2 : (n : ℚ) ≤ 2 ^ 53 := by exact_mod_cast h
    exact lt_of_le_of_lt h2 (pow_lt_pow_right₀ (by norm_num) (by norm_num))
  rw [toNumber_of_lt hlt, hr]

/-- The call `parseInt` gives the Number nearest to the integer written. -/
theorem parseInt_eq_toNumber (ds : List Char) :
    parseInt ds = toNumber (digitsValue ds : ℚ) := by
  unfold parseInt
  split
  · rename_i h
    rw [toNumber_natCast _ h]
  · rfl

theorem eventLatency_eq_written (m : String) (d : Int) (line : String) :
    eventLatency m d line = (writtenLatency m d line).map (fun v : ℕ => toNumber (v : ℚ)) := by
  unfold eventLatency writtenLatency
  cases regexExec line.toList with
  | none => rfl
  | some g =>
    simp only
    split
    · rw [Option.map_some', parseInt_eq_toNumber]
    · rfl

/-- The latencies stored for a day are the Numbers nearest to the latencies
written in the lines of that day. -/
theorem filterMap_eventLatency (m : String) (d : Int) (lines : List String) :
    lines.filterMap (eventLatency m d) =
      (lines.filterMap (writtenLatency m d)).map (fun v : ℕ => toNumber (v : ℚ)) := by
  rw [List.map_filterMap]
  congr 1
  funext line
  exact eventLatency_eq_written m d line

theorem map_toNumber_of_le (vs : List ℕ) (h : ∀ v ∈ vs, v ≤ 2 ^ 53) :
    vs.map (fun v : ℕ => toNumber (v : ℚ)) = vs.map (fun v : ℕ => Number.finite (v : ℚ)) :=
  List.map_congr_left (fun v hv => toNumber_natCast v (h v hv))

theorem le_sum_of_mem_nat {vs : List ℕ} {v : ℕ} (h : v ∈ vs) : v ≤ vs.sum := by
  induction vs with
  | nil => cases h
  | cons x vs ih =>
    rw [List.sum_cons]
    rcases List.mem_cons.1 h with e | e
    · omega
    · have := ih e
      omega

theorem map_toNumber_of_sum_le (vs : List ℕ) (h : vs.sum ≤ 2 ^ 53) :
    vs.map (fun v : ℕ => toNumber (v : ℚ)) = vs.map (fun v : ℕ => Number.finite (v : ℚ)) :=
  map_toNumber_of_le vs (fun _ hv => le_trans (le_sum_of_mem_nat hv) h)

/-! ## The derived metrics -/

/-- As long as the sum stays within `2 ^ 53`, `reduce` adds exactly. -/
theorem foldl_add_finite (vs : List ℕ) (a : ℕ) (h : a + vs.sum ≤ 2 ^ 53) :
    (vs.map (fun v : ℕ => Number.finite (v : ℚ))).foldl (fun prev curr => Number.add prev curr)
        (Number.finite (a : ℚ)) =
      Number.finite ((a + vs.sum : ℕ) : ℚ) := by
  induction vs generalizing a with
  | nil => simp
  | cons v vs ih =>
    rw [List.sum_cons] at h
    rw [List.map_cons, List.foldl_cons]
    have e : Number.add (Number.finite (a : ℚ)) (Number.finite (v : ℚ)) =
        Number.finite ((a + v : ℕ) : ℚ) := by
      show toNumber ((a : ℚ) + (v : ℚ)) = _
      rw [← Nat.cast_add, toNumber_natCast _ (by omega)]
    rw [e, ih (a + v) (by omega), List.sum_cons]
    congr 2
    omega

theorem foldl_add_exact (vs : List ℕ) (h : vs.sum ≤ 2 ^ 53) :
    (vs.map (fun v : ℕ => Number.finite (v : ℚ))).foldl (fun prev curr => Number.add prev curr) 0 =
      Number.finite (vs.sum : ℚ) := by
  have := foldl_add_finite vs 0 (by omega)
  rw [Nat.zero_add] at this
  exact this

theorem toFixedHundredths_spec {x : ℚ} (hx : 0 ≤ x) :
    |((toFixedHundredths x : ℕ) : ℚ) - x * 100| ≤ 1 / 2 := by
  unfold toFixedHundredths
  have h0 : 0 ≤ ⌊x * 100 + 1 / 2⌋ := Int.floor_nonneg.2 (by positivity)
  have e : ((⌊x * 100 + 1 / 2⌋.toNat : ℕ) : ℚ) = ((⌊x * 100 + 1 / 2⌋ : ℤ) : ℚ) := by
    have := Int.toNat_of_nonneg h0
    exact_mod_cast congrArg (fun z : ℤ => (z : ℚ)) this
  rw [e, abs_le]
  have h1 := Int.floor_le (x * 100 + 1 / 2)
  have h2 := Int.lt_floor_add_one (x * 100 + 1 / 2)
  constructor <;> linarith

/-- The two decimals that `toFixed(2)` shows for the rounded quotient `s / n` are
a nearest multiple of `1 / 100` of the exact quotient, as long as doubles are
exact on `200 * s`. -/
theorem toFixedHundredths_roundDouble_div (s n : ℕ) (hn : 0 < n) (hs : 200 * s < 2 ^ 53) :
    |((toFixedHundredths (roundDouble ((s : ℚ) / n)) : ℕ) : ℚ) / 100 - (s : ℚ) / n| ≤ 1 / 200 := by
  set q : ℚ := (s : ℚ) / n with hq
  have hnq : (0 : ℚ) < n := by exact_mod_cast hn
  have hq0 : 0 ≤ q := by positivity
  set y := roundDouble q with hy
  have hy0 : 0 ≤ y := roundDouble_nonneg hq0
  have herr : |y - q| ≤ q / 2 ^ 53 := abs_roundDouble_sub_le hq0
  set h := toFixedHundredths y with hh
  have hfix : |(h : ℚ) - y * 100| ≤ 1 / 2 := toFixedHundredths_spec hy0
  -- the integer 2 h n - 200 s
  have hD : |(2 * (h : ℤ) * n - 200 * s : ℤ)| ≤ n := by
    by_contra hcon
    have hge : (n : ℤ) + 1 ≤ |(2 * (h : ℤ) * n - 200 * s : ℤ)| := by omega
    have hgeq : (n : ℚ) + 1 ≤ |(2 * (h : ℚ) * n - 200 * s : ℚ)| := by
      have := (Int.cast_le (R := ℚ)).2 hge
      push_cast at this
      simpa using this
    have e1 : (2 * (h : ℚ) * n - 200 * s : ℚ) = 2 * n * ((h : ℚ) - y * 100) +
        200 * n * (y - q) := by
      rw [hq]; field_simp; ring
    have b1 : |2 * (n : ℚ) * ((h : ℚ) - y * 100)| ≤ n := by
      rw [abs_mul, abs_of_pos (by positivity : (0 : ℚ) < 2 * n)]
      nlinarith
    have b2 : |200 * (n : ℚ) * (y - q)| < 1 := by
      rw [abs_mul, abs_of_pos (by positivity : (0 : ℚ) < 200 * n)]
      have : 200 * (n : ℚ) * (q / 2 ^ 53) < 1 := by
        rw [hq]
        have hs' : (200 * (s : ℚ)) < 2 ^ 53 := by exact_mod_cast hs
        field_simp
        rw [div_lt_one (by positivity)]
        nlinarith
      have : 200 * (n : ℚ) * |y - q| ≤ 200 * (n : ℚ) * (q / 2 ^ 53) :=
        mul_le_mul_of_nonneg_left herr (by positivity)
      linarith
    have := abs_add (2 * (n : ℚ) * ((h : ℚ) - y * 100)) (200 * (n : ℚ) * (y - q))
    rw [← e1] at this
    linarith
  have hDq : |(2 * (h : ℚ) * n - 200 * s : ℚ)| ≤ n := by
    have := (Int.cast_le (R := ℚ)).2 hD
    push_cast at this
    simpa using this
  have e2 : (h : ℚ) / 100 - q = (2 * (h : ℚ) * n - 200 * s) / (200 * n) := by
    rw [hq]; field_simp; ring
  rw [e2, abs_div, abs_of_pos (by positivity : (0 : ℚ) < 200 * n), div_le_iff₀ (by positivity)]
  linarith

theorem roundDouble_le_of_repr {q : ℚ} (hq : 0 ≤ q) (m : ℕ) (z : ℤ) (hm : m < 2 ^ 53)
    (h : q ≤ (m : ℚ) * 2 ^ z) : roundDouble q ≤ (m : ℚ) * 2 ^ z := by
  have := roundDouble_mono hq h
  rwa [roundDouble_of_repr m z hm] at this

theorem roundDouble_le_add {q : ℚ} (hq : 0 ≤ q) : roundDouble q ≤ q + q / 2 ^ 53 := by
  have := (abs_le.1 (abs_roundDouble_sub_le hq)).2
  linarith

/-- The value `(success / totalRequests) * 100` of l. 202 and l. 298 in binary64
arithmetic: it is within a relative error of `2 ^ (-51)` of the exact
percentage, it lies in `[0, 100]`, and it is 0 or 100 only when the exact
percentage is. -/
theorem percentage_spec (s f : ℕ) (ht : 0 < s + f) (hb : s + f < 2 ^ 53) :
    |jsMul (roundDouble ((s : ℚ) / ((s + f : ℕ) : ℚ))) 100 - (s : ℚ) / ((s + f : ℕ) : ℚ) * 100| ≤
      (s : ℚ) / ((s + f : ℕ) : ℚ) * 100 / 2 ^ 51 ∧
    0 ≤ jsMul (roundDouble ((s : ℚ) / ((s + f : ℕ) : ℚ))) 100 ∧
    jsMul (roundDouble ((s : ℚ) / ((s + f : ℕ) : ℚ))) 100 ≤ 100 ∧
    (jsMul (roundDouble ((s : ℚ) / ((s + f : ℕ) : ℚ))) 100 = 100 ↔ f = 0) ∧
    (jsMul (roundDouble ((s : ℚ) / ((s + f : ℕ) : ℚ))) 100 = 0 ↔ s = 0) := by
  have htq : (0 : ℚ) < ((s + f : ℕ) : ℚ) := by exact_mod_cast ht
  set t : ℚ := ((s + f : ℕ) : ℚ) with htdef
  set q : ℚ := (s : ℚ) / t with hq
  have hq0 : 0 ≤ q := by positivity
  have hst : (s : ℚ) ≤ t := by rw [htdef]; exact_mod_cast Nat.le_add_right s f
  have hq1 : q ≤ 1 := by rw [hq, div_le_one htq]; exact hst
  set y := roundDouble q with hy
  have hy0 : 0 ≤ y := roundDouble_nonneg hq0
  have hy1 : y ≤ 1 := by
    have := roundDouble_le_of_repr hq0 1 0 (by norm_num) (by simpa using hq1)
    simpa using this
  have herr : |y - q| ≤ q / 2 ^ 53 := abs_roundDouble_sub_le hq0
  have hy100 : 0 ≤ y * 100 := by positivity
  unfold jsMul
  set v := roundDouble (y * 100) with hv
  have hv0 : 0 ≤ v := roundDouble_nonneg hy100
  have hverr : |v - y * 100| ≤ y * 100 / 2 ^ 53 := abs_roundDouble_sub_le hy100
  have hv100 : v ≤ 100 := by
    have := roundDouble_le_of_repr hy100 100 0 (by norm_num) (by simp; linarith)
    simpa using this
  refine ⟨?_, hv0, hv100, ?_, ?_⟩
  · have e : v - q * 100 = (v - y * 100) + 100 * (y - q) := by ring
    have hyq : y ≤ 2 * q := by
      have := (abs_le.1 herr).2
      have h2 : q / 2 ^ 53 ≤ q := div_le_self hq0 (by norm_num)
      linarith
    have b1 : |v - y * 100| ≤ 2 * q * 100 / 2 ^ 53 := by
      refine hverr.trans ?_
      apply div_le_div_of_nonneg_right _ (by positivity)
      linarith
    have b2 : |100 * (y - q)| ≤ 100 * (q / 2 ^ 53) := by
      rw [abs_mul, abs_of_pos (by norm_num : (0 : ℚ) < 100)]
      exact mul_le_mul_of_nonneg_left herr (by norm_num)
    rw [e]
    refine (abs_add _ _).trans ?_
    have e2 : q * 100 / 2 ^ 51 = 2 * q * 100 / 2 ^ 53 + 2 * q * 100 / 2 ^ 53 := by ring
    have e3 : 100 * (q / 2 ^ 53) ≤ 2 * q * 100 / 2 ^ 53 := by
      have : 100 * (q / 2 ^ 53) = q * 100 / 2 ^ 53 := by ring
      rw [this]
      apply div_le_div_of_nonneg_right _ (by positivity)
      linarith
    linarith
  · constructor
    · intro h100
      by_contra hf
      have hf1 : 1 ≤ f := Nat.one_le_iff_ne_zero.2 hf
      have hs1 : (s : ℚ) + 1 ≤ t := by
        rw [htdef]; exact_mod_cast Nat.add_le_add_left hf1 s
      have htb : t < 2 ^ 53 := by rw [htdef]; exact_mod_cast hb
      have hqle : q ≤ ((2 ^ 53 - 1 : ℕ) : ℚ) * 2 ^ (-53 : ℤ) := by
        rw [hq, div_le_iff₀ htq]
        have : (((2 ^ 53 - 1 : ℕ) : ℚ)) * 2 ^ (-53 : ℤ) = 1 - 1 / 2 ^ 53 := by
          norm_num
        rw [this]
        have : (1 - 1 / 2 ^ 53 : ℚ) * t = t - t / 2 ^ 53 := by ring
        rw [this]
        have : t / 2 ^ 53 ≤ 1 := by rw [div_le_one (by positivity)]; exact htb.le
        linarith
      have hyle := roundDouble_le_of_repr hq0 (2 ^ 53 - 1) (-53) (by norm_num) hqle
      rw [← hy] at hyle
      have hyle2 : y ≤ 1 - 1 / 2 ^ 53 := by
        have : (((2 ^ 53 - 1 : ℕ) : ℚ)) * 2 ^ (-53 : ℤ) = 1 - 1 / 2 ^ 53 := by
          norm_num
        rwa [this] at hyle
      have hvle := roundDouble_le_add hy100
      rw [← hv, h100] at hvle
      have : y * 100 + y * 100 / 2 ^ 53 ≤
          (1 - 1 / 2 ^ 53) * 100 + (1 - 1 / 2 ^ 53) * 100 / 2 ^ 53 := by
        have h1 : y * 100 ≤ (1 - 1 / 2 ^ 53) * 100 := by linarith
        have h2 : y * 100 / 2 ^ 53 ≤ (1 - 1 / 2 ^ 53) * 100 / 2 ^ 53 :=
          div_le_div_of_nonneg_right h1 (by positivity)
        linarith
      have hlt : ((1 : ℚ) - 1 / 2 ^ 53) * 100 + (1 - 1 / 2 ^ 53) * 100 / 2 ^ 53 < 100 := by
        norm_num
      linarith
    · intro hf
      subst hf
      have hq1' : q = 1 := by
        have hts : t = (s : ℚ) := by rw [htdef]; simp
        rw [hq, ← hts]
        exact div_self htq.ne'
      have hy1' : y = 1 := by
        rw [hy, hq1']
        have := roundDouble_natCast 1 (by norm_num)
        simpa using this
      rw [hv, hy1']
      have := roundDouble_natCast 100 (by norm_num)
      simpa using this
  · constructor
    · intro h0
      by_contra hs
      have hs0 : (0 : ℚ) < s := by exact_mod_cast Nat.pos_of_ne_zero hs
      have hqpos : 0 < q := by positivity
      have hypos : 0 < y := roundDouble_pos hqpos
      have : 0 < v := roundDouble_pos (by positivity)
      linarith
    · intro hs
      subst hs
      have hq0' : q = 0 := by rw [hq]; simp
      rw [hv, hy, hq0', roundDouble_zero]
      simp [roundDouble_zero]

/-! ## The report drivers -/

theorem scrapCall_natCast (startDate : DateTime) (n : ℕ) (logs : List String) :
    scrapCall startDate (n : ℤ) logs = scrapDataFromLogs startDate n logs := by
  unfold scrapCall
  rw [if_neg (by omega)]
  rfl

theorem untilError_map_some {α : Type} (f : α → Option Effect) (g : α → Effect) (l : List α)
    (h : ∀ x ∈ l, f x = some (g x)) : untilError (l.map f) = l.map g := by
  induction l with
  | nil => rfl
  | cons x l ih =>
    rw [List.map_cons, h x (List.mem_cons_self _ _), List.map_cons, untilError,
      ih (fun y hy => h y (List.mem_cons_of_mem _ hy))]

theorem jsDiv_of_ne_zero (a : ℚ) {b : ℚ} (hb : b ≠ 0) : jsDiv a b = some (roundDouble (a / b)) := by
  unfold jsDiv
  rw [if_neg hb]

theorem averageLatency_nil : averageLatency [] = some "desconocido" := rfl

theorem Number.div_finite (q : ℚ) {b : ℚ} (hb : b ≠ 0) :
    (Number.finite q).div b = some (Number.finite (roundDouble (q / b))) := by
  unfold Number.div
  simp only [jsDiv_of_ne_zero _ hb, Option.map_some']

theorem Number.div_isSome (a : Number) {b : ℚ} (hb : b ≠ 0) : ∃ q, a.div b = some q := by
  cases a with
  | finite q => exact ⟨_, Number.div_finite q hb⟩
  | infinity => exact ⟨_, rfl⟩

/-- The text of a day whose latencies are integers with a sum within `2 ^ 53`:
the sum is exact and is divided once. -/
theorem averageLatency_of_exact {vs : List ℕ} (h : vs ≠ []) (hs : vs.sum ≤ 2 ^ 53) :
    averageLatency (vs.map (fun v : ℕ => Number.finite (v : ℚ))) =
      some (toFixed2 (Number.finite (roundDouble ((vs.sum : ℚ) / (vs.length : ℚ)))) ++ "ms") := by
  have hlen : 0 < vs.length := List.length_pos.2 h
  unfold averageLatency
  rw [List.length_map, if_pos hlen, foldl_add_exact vs hs,
    Number.div_finite _ (by exact_mod_cast hlen.ne')]
  rfl

theorem averageLatency_isSome (l : List Number) :
    averageLatency l = some ((averageLatency l).getD "") := by
  by_cases h : l = []
  · subst h; rfl
  · have hlen : 0 < l.length := List.length_pos.2 h
    obtain ⟨q, hq⟩ := Number.div_isSome
      (l.foldl (fun prev curr => Number.add prev curr) 0) (b := (l.length : ℚ))
      (by exact_mod_cast hlen.ne')
    unfold averageLatency
    rw [if_pos hlen, hq]
    rfl

theorem latencyRow_of_bucket {data : Data} {m : String} {api : APIData} {k : ℕ}
    {bucket : List Number} (hapi : data.get? m = some api) (hb : api.latency[k]? = some bucket)
    (startDate : DateTime) :
    latencyRow data m startDate k =
      some (Effect.log [LogArg.date (startDate.plusDays k),
        LogArg.text ((averageLatency bucket).getD "")]) := by
  unfold latencyRow
  rw [hapi]
  simp only
  rw [hb]
  simp only
  rw [averageLatency_isSome bucket]
  rfl

/-- What `checkLatency` does for a known module and a valid range: one call of
`scrapDataFromLogs` for the window from `a` to `b`, then one row for each day of
the window, whose text is made from the latencies of the events of that day. -/
theorem checkLatency_of_valid (currentDate : DateTime) (logs : List String)
    (options : LatencyOptions) (m : String) (rest : List String) (a b : Int)
    (hpos : options.positional = m :: rest) (hm : m ∈ modulesNames)
    (ha : options.startDate currentDate = DateTime.valid a)
    (hb : options.endDate currentDate = DateTime.valid b)
    (hab : a ≤ b) :
    checkLatency currentDate logs options =
      Effect.scrap (DateTime.valid a) (b - a + 1) "logs.txt" ::
        (List.range (b - a + 1).toNat).map (fun k : ℕ =>
          Effect.log [LogArg.date (DateTime.valid (a + (k : ℤ))),
            LogArg.text ((averageLatency
              (logs.filterMap (eventLatency m (a + (k : ℤ))))).getD "")]) := by
  unfold checkLatency
  rw [hpos]
  simp only [hm, if_true, ha, hb, DateTime.isValid, Bool.not_true, Bool.false_eq_true,
    if_false, DateTime.diffDays]
  rw [if_neg (by omega)]
  congr 1
  obtain ⟨n, hn⟩ : ∃ n : ℕ, b - a + 1 = n := ⟨(b - a + 1).toNat, by omega⟩
  rw [hn, scrapCall_natCast, Int.toNat_ofNat]
  obtain ⟨data, hdata, _, hspec⟩ := scrapDataFromLogs_spec a n logs
  obtain ⟨api, hapi, hbuckets⟩ := hspec m hm
  rw [hdata]
  simp only
  apply untilError_map_some
  intro k hk
  have hkn : k < n := List.mem_range.1 hk
  rw [latencyRow_of_bucket hapi (hbuckets k hkn).2.2]
  rfl

theorem toFixed2_of_lt {q : ℚ} (h : q < 10 ^ 21) :
    toFixed2 (Number.finite q) = fixedText (toFixedHundredths q) := by
  unfold toFixed2
  simp only [if_pos h]

theorem toFixed2_hundred : toFixed2 (Number.finite 100) = "100.00" := by
  have h : toFixedHundredths 100 = 10000 := by
    unfold toFixedHundredths
    have : ⌊(100 : ℚ) * 100 + 1 / 2⌋ = 10000 := by
      rw [Int.floor_eq_iff]
      norm_num
    rw [this]
    rfl
  rw [toFixed2_of_lt (by norm_num), h]
  decide

theorem availability_zero : availability 0 0 = some (LogArg.text "desconocido") := rfl

theorem availability_of_pos {s f : ℕ} (h : 0 < s + f) :
    availability s f =
      some (LogArg.number (jsMul (roundDouble ((s : ℚ) / ((s + f : ℕ) : ℚ))) 100)) := by
  unfold availability
  simp only
  rw [if_neg (by omega), jsDiv_of_ne_zero _ (by exact_mod_cast h.ne')]
  rfl

theorem availability_isSome (s f : ℕ) :
    availability s f = some ((availability s f).getD (LogArg.text "")) := by
  rcases Nat.eq_zero_or_pos (s + f) with h | h
  · have hs : s = 0 := by omega
    have hf : f = 0 := by omega
    subst hs hf
    rfl
  · rw [availability_of_pos h]; rfl

theorem availabilityRow_of_bucket {data : Data} {m : String} {api : APIData} {k s f : ℕ}
    (hapi : data.get? m = some api) (hs : api.success[k]? = some s)
    (hf : api.fail[k]? = some f) (startDate : DateTime) :
    availabilityRow data m startDate k =
      some (Effect.log [LogArg.date (startDate.plusDays k),
        (availability s f).getD (LogArg.text "")]) := by
  unfold availabilityRow
  rw [hapi]
  simp only
  rw [hs, hf]
  simp only
  rw [availability_isSome s f]
  rfl

/-- What `checkAvailability` does for a known module and a non-negative number of
days: one call of `scrapDataFromLogs` for the window of that many days that ends
today, then one row for each day of the window, whose value is made from the
numbers of successful and failed events of that day. -/
theorem checkAvailability_of_known (today : Int) (logs : List String)
    (options : PeriodOptions) (m : String) (rest : List String)
    (hpos : options.positional = m :: rest) (hm : m ∈ modulesNames)
    (hdays : 0 ≤ resolveDays options) :
    checkAvailability (DateTime.valid today) logs options =
      Effect.scrap (DateTime.valid (today + -(resolveDays options - 1))) (resolveDays options)
          "logs.txt" ::
        (List.range (resolveDays options).toNat).map (fun k : ℕ =>
          Effect.log [LogArg.date (DateTime.valid (today + -(resolveDays options - 1) + (k : ℤ))),
            (availability
              (logs.countP (isEvent m "success" (today + -(resolveDays options - 1) + (k : ℤ))))
              (logs.countP (isEvent m "fail" (today + -(resolveDays options - 1) + (k : ℤ))))).getD
              (LogArg.text "")]) := by
  unfold checkAvailability
  rw [hpos]
  simp only [hm, if_true, DateTime.plusDays]
  congr 1
  obtain ⟨n, hn⟩ : ∃ n : ℕ, resolveDays options = n := ⟨(resolveDays options).toNat, by omega⟩
  rw [hn, scrapCall_natCast, Int.toNat_ofNat]
  obtain ⟨data, hdata, _, hspec⟩ := scrapDataFromLogs_spec (today + -((n : ℤ) - 1)) n logs
  obtain ⟨api, hapi, hbuckets⟩ := hspec m hm
  rw [hdata]
  simp only
  apply untilError_map_some
  intro k hk
  have hkn : k < n := List.mem_range.1 hk
  rw [availabilityRow_of_bucket hapi (hbuckets k hkn).1 (hbuckets k hkn).2.1]
  rfl

theorem percentage_half : jsMul (roundDouble ((1 : ℕ) / ((1 + 1 : ℕ) : ℚ))) 100 = 50 := by
  have h1 : ((1 : ℕ) : ℚ) / ((1 + 1 : ℕ) : ℚ) = 1 / 2 := by norm_num
  rw [h1, roundDouble_half]
  unfold jsMul
  have := roundDouble_natCast 50 (by norm_num)
  norm_num at this ⊢
  exact this

theorem regexExec_status {s : List Char} {g : Groups} (h : regexExec s = some g) :
    g.status = "success" ∨ g.status = "fail" := by
  obtain ⟨_, _, _, ⟨_, hst, _⟩, _⟩ := regexExec_sound h
  simpa using hst

theorem eventLatency_length (m : String) (d : Int) (line : String) :
    (eventLatency m d line).toList.length =
      (if isEvent m "success" d line then 1 else 0) +
      (if isEvent m "fail" d line then 1 else 0) := by
  unfold eventLatency isEvent
  cases hre : regexExec line.toList with
  | none => simp
  | some g =>
    simp only
    by_cases hc : g.module_name = m ∧ fromFormat g.date = DateTime.valid d
    · rw [if_pos hc]
      rcases regexExec_status hre with hst | hst
      · simp [hc.1, hc.2, hst]
      · simp [hc.1, hc.2, hst]
    · rw [if_neg hc]
      have h1 : ∀ st : String, decide (g.module_name = m ∧ g.status = st ∧
          fromFormat g.date = DateTime.valid d) = false := by
        intro st
        simp only [decide_eq_false_iff_not]
        tauto
      simp [h1]

/-- The number of latency samples of a day is the number of its successful
events plus the number of its failed events. -/
theorem length_filterMap_eventLatency (m : String) (d : Int) (lines : List String) :
    (lines.filterMap (eventLatency m d)).length =
      lines.countP (isEvent m "success" d) + lines.countP (isEvent m "fail" d) := by
  induction lines with
  | nil => rfl
  | cons line lines ih =>
    have h := eventLatency_length m d line
    rw [List.filterMap_cons, List.countP_cons, List.countP_cons]
    cases hl : eventLatency m d line with
    | none =>
      rw [hl] at h
      simp only [Option.toList, List.length_nil] at h
      simp only
      omega
    | some v =>
      rw [hl] at h
      simp only [Option.toList, List.length_cons, List.length_nil] at h
      simp only [List.length_cons]
      omega

theorem collect_map_some {α : Type} (f : α → Option Number) (g : α → Number) (l : List α)
    (h : ∀ x ∈ l, f x = some (g x)) : collect (l.map f) = some (l.map g) := by
  induction l with
  | nil => rfl
  | cons x l ih =>
    rw [List.map_cons, h x (List.mem_cons_self _ _), List.map_cons, collect,
      ih (fun y hy => h y (List.mem_cons_of_mem _ hy))]
    rfl

theorem getElem?_flatMap_replicate_four {α : Type} (l : List α) (k i : ℕ) (hi : i < 4) :
    (l.flatMap (fun elem => List.replicate 4 elem))[4 * k + i]? = l[k]? := by
  induction l generalizing k with
  | nil => simp
  | cons x l ih =>
    rw [List.flatMap_cons]
    cases k with
    | zero =>
      rw [List.getElem?_append_left (by simpa using hi)]
      simp only [Nat.mul_zero, Nat.zero_add, List.getElem?_replicate, if_pos hi,
        List.getElem?_cons_zero]
    | succ k =>
      rw [List.getElem?_append_right (by simp; omega)]
      have : 4 * (k + 1) + i - (List.replicate 4 x).length = 4 * k + i := by
        simp; omega
      rw [this, ih k]
      simp

theorem length_flatMap_replicate_four {α : Type} (l : List α) :
    (l.flatMap (fun elem => List.replicate 4 elem)).length = 4 * l.length := by
  induction l with
  | nil => rfl
  | cons x l ih =>
    rw [List.flatMap_cons, List.length_append, ih]
    simp
    omega

theorem averageLatencyOfDay_isSome (l : List Number) :
    averageLatencyOfDay l = some ((averageLatencyOfDay l).getD 0) := by
  by_cases h : l = []
  · subst h; rfl
  · have hlen : 0 < l.length := List.length_pos.2 h
    obtain ⟨q, hq⟩ := Number.div_isSome
      (l.foldl (fun prev curr => Number.add prev curr) 0) (b := (l.length : ℚ))
      (by exact_mod_cast hlen.ne')
    unfold averageLatencyOfDay
    rw [if_pos hlen, hq]
    rfl

/-- The plotted value of a day whose latencies are integers with a sum within
`2 ^ 53`. -/
theorem averageLatencyOfDay_of_exact {vs : List ℕ} (h : vs ≠ []) (hs : vs.sum ≤ 2 ^ 53) :
    averageLatencyOfDay (vs.map (fun v : ℕ => Number.finite (v : ℚ))) =
      some (parseFloatFixed2 (Number.finite (roundDouble ((vs.sum : ℚ) / (vs.length : ℚ))))) := by
  have hlen : 0 < vs.length := List.length_pos.2 h
  unfold averageLatencyOfDay
  rw [List.length_map, if_pos hlen, foldl_add_exact vs hs,
    Number.div_finite _ (by exact_mod_cast hlen.ne')]
  rfl

theorem availabilityOfDay_of_counts {api : APIData} {k s f : ℕ}
    (hs : api.success[k]? = some s) (hf : api.fail[k]? = some f) :
    availabilityOfDay api k =
      some (if s + f = 0 then 0
        else Number.finite (jsMul (roundDouble ((s : ℚ) / ((s + f : ℕ) : ℚ))) 100)) := by
  unfold availabilityOfDay
  rw [hs, hf]
  simp only
  by_cases h : s + f = 0
  · rw [if_pos h, if_pos h]
  · rw [if_neg h, if_neg h, jsDiv_of_ne_zero _ (by exact_mod_cast h)]
    rfl

/-- The array `graphData` is defined whenever the arrays of the module have the
length of the window: it holds the value of every day four times in a row. -/
theorem graphData_spec (api : APIData) (n : ℕ) (h : api.HasLength n) (latencyOption : Bool) :
    ∃ perDay : List Number, perDay.length = n ∧
      graphData api n latencyOption =
        some (perDay.flatMap (fun elem => List.replicate 4 elem)) ∧
      ∀ k, k < n → perDay[k]? =
        if latencyOption then (api.latency[k]?).bind averageLatencyOfDay
        else availabilityOfDay api k := by
  obtain ⟨h1, h2, h3⟩ := h
  cases latencyOption with
  | true =>
    refine ⟨api.latency.map (fun l => (averageLatencyOfDay l).getD 0), by simpa using h3, ?_, ?_⟩
    · unfold graphData
      simp only [if_true]
      rw [collect_map_some _ _ _ (fun l _ => averageLatencyOfDay_isSome l)]
      rfl
    · intro k hk
      have hk3 : k < api.latency.length := by omega
      simp only [if_true, List.getElem?_map, List.getElem?_eq_getElem hk3, Option.map_some',
        Option.some_bind]
      exact (averageLatencyOfDay_isSome _).symm
  | false =>
    refine ⟨(List.range n).map (fun k => (availabilityOfDay api k).getD 0), by simp, ?_, ?_⟩
    · unfold graphData
      simp only [Bool.false_eq_true, if_false]
      rw [collect_map_some _ (fun k => (availabilityOfDay api k).getD 0)]
      · rfl
      · intro k hk
        have hkn : k < n := List.mem_range.1 hk
        rw [availabilityOfDay_of_counts (List.getElem?_eq_getElem (by omega))
          (List.getElem?_eq_getElem (by omega))]
        rfl
    · intro k hk
      simp only [Bool.false_eq_true, if_false, List.getElem?_map, List.getElem?_range hk,
        Option.map_some']
      rw [availabilityOfDay_of_counts (List.getElem?_eq_getElem (by omega))
        (List.getElem?_eq_getElem (by omega))]
      rfl

/-- The order of the latencies of a day does not matter to its text as long as
their sum is within `2 ^ 53`. -/
theorem averageLatency_perm_of_exact {vs1 vs2 : List ℕ} (h : vs1.Perm vs2)
    (hs : vs1.sum ≤ 2 ^ 53) :
    averageLatency (vs1.map (fun v : ℕ => toNumber (v : ℚ))) =
      averageLatency (vs2.map (fun v : ℕ => toNumber (v : ℚ))) := by
  have hs2 : vs2.sum ≤ 2 ^ 53 := by rw [← h.sum_eq]; exact hs
  rw [map_toNumber_of_sum_le vs1 hs, map_toNumber_of_sum_le vs2 hs2]
  by_cases hn : vs1 = []
  · subst hn
    rw [List.Perm.nil_eq h]
  · have hn2 : vs2 ≠ [] := fun e => hn (by subst e; exact List.Perm.eq_nil h)
    rw [averageLatency_of_exact hn hs, averageLatency_of_exact hn2 hs2, h.sum_eq, h.length_eq]

theorem averageLatencyOfDay_perm_of_exact {vs1 vs2 : List ℕ} (h : vs1.Perm vs2)
    (hs : vs1.sum ≤ 2 ^ 53) :
    averageLatencyOfDay (vs1.map (fun v : ℕ => toNumber (v : ℚ))) =
      averageLatencyOfDay (vs2.map (fun v : ℕ => toNumber (v : ℚ))) := by
  have hs2 : vs2.sum ≤ 2 ^ 53 := by rw [← h.sum_eq]; exact hs
  rw [map_toNumber_of_sum_le vs1 hs, map_toNumber_of_sum_le vs2 hs2]
  by_cases hn : vs1 = []
  · subst hn
    rw [List.Perm.nil_eq h]
  · have hn2 : vs2 ≠ [] := fun e => hn (by subst e; exact List.Perm.eq_nil h)
    rw [averageLatencyOfDay_of_exact hn hs, averageLatencyOfDay_of_exact hn2 hs2, h.sum_eq,
      h.length_eq]

theorem daysInMonth_pos (year month : Nat) : 28 ≤ daysInMonth year month := by
  unfold daysInMonth
  split <;> try omega
  split <;> omega

theorem daysBeforeMonth_succ (year month : Nat) (h : 1 ≤ month) :
    daysBeforeMonth year (month + 1) = daysBeforeMonth year month + daysInMonth year month := by
  obtain ⟨m, rfl⟩ : ∃ m, month = m + 1 := ⟨month - 1, by omega⟩
  rfl

theorem daysBeforeMonth_mono (year : Nat) {m1 m2 : Nat} (h1 : 1 ≤ m1) (h : m1 < m2) :
    daysBeforeMonth year m1 + daysInMonth year m1 ≤ daysBeforeMonth year m2 := by
  induction m2 with
  | zero => omega
  | succ m2 ih =>
    rcases Nat.lt_succ_iff_lt_or_eq.1 h with hlt | heq
    · have := ih hlt
      rw [daysBeforeMonth_succ year m2 (by omega)]
      omega
    · subst heq
      rw [daysBeforeMonth_succ year m1 h1]

theorem daysBeforeMonth_thirteen (year : Nat) :
    daysBeforeMonth year 13 = if isLeapYear year then 366 else 365 := by
  simp only [daysBeforeMonth, daysInMonth]
  split <;> rfl

theorem isLeapYear_iff (year : Nat) :
    isLeapYear year = true ↔ year % 4 = 0 ∧ (year % 100 ≠ 0 ∨ year % 400 = 0) := by
  simp [isLeapYear]

theorem daysBeforeYear_succ_aux (y a b c a1 b1 c1 : Nat)
    (ha : a1 = a + (if y % 4 = 0 then 1 else 0))
    (hb : b1 = b + (if y % 100 = 0 then 1 else 0))
    (hc : c1 = c + (if y % 400 = 0 then 1 else 0))
    (hab : b ≤ a) (hab1 : b1 ≤ a1) :
    365 * (y + 1) + a1 - b1 + c1 = 365 * y + a - b + c +
      if y % 4 = 0 ∧ (y % 100 ≠ 0 ∨ y % 400 = 0) then 366 else 365 := by
  subst ha hb hc
  by_cases h4 : y % 4 = 0 <;> by_cases h100 : y % 100 = 0 <;> by_cases h400 : y % 400 = 0 <;>
    simp only [h4, h100, h400, if_true, if_false, ne_eq, not_true_eq_false, not_false_eq_true,
      or_true, or_false, and_true, and_false, true_and, false_and] at hab1 ⊢ <;> omega

theorem daysBeforeYear_succ (year : Nat) :
    daysBeforeYear (year + 1) = daysBeforeYear year + if isLeapYear year then 366 else 365 := by
  have h := daysBeforeYear_succ_aux year ((year + 3) / 4) ((year + 99) / 100) ((year + 399) / 400)
    ((year + 1 + 3) / 4) ((year + 1 + 99) / 100) ((year + 1 + 399) / 400)
    (by split <;> omega) (by split <;> omega) (by split <;> omega) (by omega) (by omega)
  unfold daysBeforeYear
  rw [h]
  congr 1
  by_cases hl : isLeapYear year = true
  · rw [if_pos hl, if_pos ((isLeapYear_iff year).1 hl)]
  · rw [if_neg hl, if_neg (fun hc => hl ((isLeapYear_iff year).2 hc))]

theorem daysBeforeYear_mono {y1 y2 : Nat} (h : y1 ≤ y2) : daysBeforeYear y1 ≤ daysBeforeYear y2 := by
  induction y2 with
  | zero =>
    have : y1 = 0 := by omega
    subst this
    exact Nat.le_refl _
  | succ y2 ih =>
    rcases Nat.le_succ_iff.1 h with hle | heq
    · have := ih hle
      rw [daysBeforeYear_succ]
      omega
    · subst heq
      exact Nat.le_refl _

/-- The day of the year of a calendar day is within the year. -/
theorem dayOfYear_lt (year month day : Nat) (h : IsCalendarDay year month day) :
    daysBeforeMonth year month + (day - 1) < if isLeapYear year then 366 else 365 := by
  obtain ⟨h1, h2, h3, h4⟩ := h
  rw [← daysBeforeMonth_thirteen]
  have := daysBeforeMonth_mono year h1 (show month < 13 by omega)
  omega

/-- Later calendar days have larger day numbers. -/
theorem dayNumber_lt {y1 m1 d1 y2 m2 d2 : Nat} (h1 : IsCalendarDay y1 m1 d1)
    (h2 : IsCalendarDay y2 m2 d2)
    (h : y1 < y2 ∨ (y1 = y2 ∧ (m1 < m2 ∨ (m1 = m2 ∧ d1 < d2)))) :
    dayNumber y1 m1 d1 < dayNumber y2 m2 d2 := by
  unfold dayNumber
  have e1 := dayOfYear_lt y1 m1 d1 h1
  obtain ⟨a1, a2, a3, a4⟩ := h1
  obtain ⟨b1, b2, b3, b4⟩ := h2
  rcases h with h | ⟨rfl, h | ⟨rfl, h⟩⟩
  · have hy : daysBeforeYear (y1 + 1) ≤ daysBeforeYear y2 := daysBeforeYear_mono h
    rw [daysBeforeYear_succ] at hy
    have : daysBeforeYear y1 + daysBeforeMonth y1 m1 + (d1 - 1) <
        daysBeforeYear y2 + daysBeforeMonth y2 m2 + (d2 - 1) := by omega
    exact_mod_cast this
  · have := daysBeforeMonth_mono y1 a1 h
    have : daysBeforeYear y1 + daysBeforeMonth y1 m1 + (d1 - 1) <
        daysBeforeYear y1 + daysBeforeMonth y1 m2 + (d2 - 1) := by omega
    exact_mod_cast this
  · have : daysBeforeYear y1 + daysBeforeMonth y1 m1 + (d1 - 1) <
        daysBeforeYear y1 + daysBeforeMonth y1 m1 + (d2 - 1) := by omega
    exact_mod_cast this

/-- Two calendar days with the same day number are the same day. -/
theorem dayNumber_injective {y1 m1 d1 y2 m2 d2 : Nat} (h1 : IsCalendarDay y1 m1 d1)
    (h2 : IsCalendarDay y2 m2 d2) (h : dayNumber y1 m1 d1 = dayNumber y2 m2 d2) :
    y1 = y2 ∧ m1 = m2 ∧ d1 = d2 := by
  by_contra hne
  have hcases : (y1 < y2 ∨ (y1 = y2 ∧ (m1 < m2 ∨ (m1 = m2 ∧ d1 < d2)))) ∨
      (y2 < y1 ∨ (y2 = y1 ∧ (m2 < m1 ∨ (m2 = m1 ∧ d2 < d1)))) := by omega
  rcases hcases with hc | hc
  · have := dayNumber_lt h1 h2 hc
    omega
  · have := dayNumber_lt h2 h1 hc
    omega

theorem digitValue_injective {c1 c2 : Char} (h1 : c1.isDigit = true) (h2 : c2.isDigit = true)
    (h : digitValue c1 = digitValue c2) : c1 = c2 := by
  have e1 : 48 ≤ c1.toNat := by
    simp only [Char.isDigit, Bool.and_eq_true, decide_eq_true_eq] at h1
    exact h1.1
  have e2 : 48 ≤ c2.toNat := by
    simp only [Char.isDigit, Bool.and_eq_true, decide_eq_true_eq] at h2
    exact h2.1
  have e0 : '0'.toNat = 48 := rfl
  unfold digitValue at h
  rw [e0] at h
  have : c1.toNat = c2.toNat := by omega
  rw [← Char.ofNat_toNat c1, ← Char.ofNat_toNat c2, this]

theorem digitValue_lt {c : Char} (h : c.isDigit = true) : digitValue c < 10 := by
  have e0 : '0'.toNat = 48 := rfl
  have e1 : c.toNat ≤ 57 := by
    simp only [Char.isDigit, Bool.and_eq_true, decide_eq_true_eq] at h
    exact h.2
  unfold digitValue
  omega

/-- What `fromFormat` accepts: a text of the shape `dd/MM/yyyy` whose numbers form
a calendar day. -/
theorem fromFormat_eq_valid {text : List Char} {d : Int} (h : fromFormat text = DateTime.valid d) :
    ∃ d1 d2 m1 m2 y1 y2 y3 y4 : Char,
      text = [d1, d2, '/', m1, m2, '/', y1, y2, y3, y4] ∧
      (d1.isDigit = true ∧ d2.isDigit = true ∧ m1.isDigit = true ∧ m2.isDigit = true ∧
        y1.isDigit = true ∧ y2.isDigit = true ∧ y3.isDigit = true ∧ y4.isDigit = true) ∧
      IsCalendarDay (digitsValue [y1, y2, y3, y4]) (digitsValue [m1, m2])
        (digitsValue [d1, d2]) ∧
      d = dayNumber (digitsValue [y1, y2, y3, y4]) (digitsValue [m1, m2])
        (digitsValue [d1, d2]) := by
  unfold fromFormat at h
  split at h
  · rename_i d1 d2 m1 m2 y1 y2 y3 y4
    split at h
    · rename_i hdig
      simp only [Bool.and_eq_true] at hdig
      simp only at h
      split at h
      · rename_i hcal
        simp only [DateTime.valid.injEq] at h
        exact ⟨d1, d2, m1, m2, y1, y2, y3, y4, rfl,
          ⟨hdig.1.1.1.1.1.1.1, hdig.1.1.1.1.1.1.2, hdig.1.1.1.1.1.2, hdig.1.1.1.1.2,
            hdig.1.1.1.2, hdig.1.1.2, hdig.1.2, hdig.2⟩, hcal, h.symm⟩
      · cases h
    · cases h
  · cases h

/-- Two date texts that `fromFormat` reads as the same valid day are the same
text. -/
theorem fromFormat_injective {t1 t2 : List Char} {d : Int}
    (h1 : fromFormat t1 = DateTime.valid d) (h2 : fromFormat t2 = DateTime.valid d) : t1 = t2 := by
  obtain ⟨a1, a2, a3, a4, a5, a6, a7, a8, rfl, ha, hca, hda⟩ := fromFormat_eq_valid h1
  obtain ⟨b1, b2, b3, b4, b5, b6, b7, b8, rfl, hb, hcb, hdb⟩ := fromFormat_eq_valid h2
  obtain ⟨ey, em, ed⟩ := dayNumber_injective hca hcb (hda.symm.trans hdb)
  simp only [digitsValue, List.foldl_cons, List.foldl_nil] at ey em ed
  obtain ⟨p1, p2, p3, p4, p5, p6, p7, p8⟩ := ha
  obtain ⟨q1, q2, q3, q4, q5, q6, q7, q8⟩ := hb
  have l1 := digitValue_lt p1
  have l2 := digitValue_lt p2
  have l3 := digitValue_lt p3
  have l4 := digitValue_lt p4
  have l5 := digitValue_lt p5
  have l6 := digitValue_lt p6
  have l7 := digitValue_lt p7
  have l8 := digitValue_lt p8
  have r1 := digitValue_lt q1
  have r2 := digitValue_lt q2
  have r3 := digitValue_lt q3
  have r4 := digitValue_lt q4
  have r5 := digitValue_lt q5
  have r6 := digitValue_lt q6
  have r7 := digitValue_lt q7
  have r8 := digitValue_lt q8
  rw [digitValue_injective p1 q1 (by omega), digitValue_injective p2 q2 (by omega),
    digitValue_injective p3 q3 (by omega), digitValue_injective p4 q4 (by omega),
    digitValue_injective p5 q5 (by omega), digitValue_injective p6 q6 (by omega),
    digitValue_injective p7 q7 (by omega), digitValue_injective p8 q8 (by omega)]

theorem checkLatency_of_invalid_start (currentDate : DateTime) (logs : List String)
    (options : LatencyOptions) (m : String) (rest : List String)
    (hpos : options.positional = m :: rest) (hm : m ∈ modulesNames)
    (ha : options.startDate currentDate = DateTime.invalid) :
    checkLatency currentDate logs options =
      [Effect.log [LogArg.text "Fecha inicio inválida tiene que ser de la forma (02/09/2023)"]] := by
  unfold checkLatency
  rw [hpos]
  simp only [hm, if_true, ha, DateTime.isValid, Bool.not_false]

theorem checkLatency_of_invalid_end (currentDate : DateTime) (logs : List String)
    (options : LatencyOptions) (m : String) (rest : List String) (a : Int)
    (hpos : options.positional = m :: rest) (hm : m ∈ modulesNames)
    (ha : options.startDate currentDate = DateTime.valid a)
    (hb : options.endDate currentDate = DateTime.invalid) :
    checkLatency currentDate logs options =
      [Effect.log [LogArg.text "Fecha fin inválida tiene que ser de la forma (02/09/2023)"]] := by
  unfold checkLatency
  rw [hpos]
  simp only [hm, if_true, ha, hb, DateTime.isValid, Bool.not_false, Bool.not_true,
    Bool.false_eq_true, if_false]

theorem checkLatency_of_reversed (currentDate : DateTime) (logs : List String)
    (options : LatencyOptions) (m : String) (rest : List String) (a b : Int)
    (hpos : options.positional = m :: rest) (hm : m ∈ modulesNames)
    (ha : options.startDate currentDate = DateTime.valid a)
    (hb : options.endDate currentDate = DateTime.valid b) (hab : b < a) :
    checkLatency currentDate logs options =
      [Effect.log [LogArg.text "La fecha inicio es después de la fecha fin"]] := by
  unfold checkLatency
  rw [hpos]
  simp only [hm, if_true, ha, hb, DateTime.isValid, Bool.not_true, Bool.false_eq_true,
    if_false, DateTime.diffDays]
  rw [if_pos (by omega)]

theorem checkAvailability_head (currentDate : DateTime) (logs : List String)
    (options : PeriodOptions) (m : String) (rest : List String)
    (hpos : options.positional = m :: rest) (hm : m ∈ modulesNames) :
    ∃ rows : List Effect, checkAvailability currentDate logs options =
      Effect.scrap (currentDate.plusDays (-(resolveDays options - 1))) (resolveDays options)
        "logs.txt" :: rows := by
  unfold checkAvailability
  rw [hpos]
  simp only [hm, if_true]
  exact ⟨_, rfl⟩

theorem renderGraph_head (currentDate : DateTime) (logs : List String)
    (options : PeriodOptions) (m : String) (rest : List String)
    (hpos : options.positional = m :: rest) (hm : m ∈ modulesNames) :
    ∃ rows : List Effect, renderGraph currentDate logs options =
      Effect.log [LogArg.optionsObject] ::
        Effect.log [LogArg.number (resolveDays options : ℚ)] ::
        Effect.scrap (currentDate.plusDays (-(resolveDays options - 1))) (resolveDays options)
          "logs.txt" :: rows := by
  unfold renderGraph
  rw [hpos]
  simp only [hm, if_true]
  exact ⟨_, rfl⟩

theorem bind_pure_cast (l : List ℕ) :
    (do let a ← l; pure (a : ℤ) : List ℤ) = l.map (fun a : ℕ => (a : ℤ)) := by
  induction l with
  | nil => rfl
  | cons x l ih =>
    simp only [List.map_cons]
    rw [← ih]
    rfl

/-- What `renderGraph` does for a known module and a non-negative number of
days: after its two prints and the call of `scrapDataFromLogs` for the window of
that many days that ends today, it hands to the plotter the values of the days of
the window, each one four times; when the plotter throws the run ends there,
and otherwise the chart, the ticks and the three lines of labels of the days of
the window are printed. -/
theorem renderGraph_of_known (today : Int) (logs : List String)
    (options : PeriodOptions) (m : String) (rest : List String)
    (hpos : options.positional = m :: rest) (hm : m ∈ modulesNames)
    (hdays : 0 ≤ resolveDays options) :
    ∃ (data : Data) (api : APIData) (perDay : List Number),
      scrapDataFromLogs (DateTime.valid (today + -(resolveDays options - 1)))
        (resolveDays options).toNat logs = some data ∧
      data.get? m = some api ∧ api.HasLength (resolveDays options).toNat ∧
      perDay.length = (resolveDays options).toNat ∧
      (∀ k, k < (resolveDays options).toNat → perDay[k]? =
        if options.Latency then (api.latency[k]?).bind averageLatencyOfDay
        else availabilityOfDay api k) ∧
      graphData api (resolveDays options).toNat options.Latency =
        some (perDay.flatMap (fun elem => List.replicate 4 elem)) ∧
      (plot (perDay.flatMap (fun elem => List.replicate 4 elem)) 8 = none →
        renderGraph (DateTime.valid today) logs options =
          [Effect.log [LogArg.optionsObject],
           Effect.log [LogArg.number (resolveDays options : ℚ)],
           Effect.scrap (DateTime.valid (today + -(resolveDays options - 1)))
             (resolveDays options) "logs.txt",
           Effect.error]) ∧
      ∀ chart : LogArg, plot (perDay.flatMap (fun elem => List.replicate 4 elem)) 8 = some chart →
        renderGraph (DateTime.valid today) logs options =
          [Effect.log [LogArg.optionsObject],
           Effect.log [LogArg.number (resolveDays options : ℚ)],
           Effect.scrap (DateTime.valid (today + -(resolveDays options - 1)))
             (resolveDays options) "logs.txt",
           Effect.log [chart],
           Effect.log [LogArg.text ("             " ++ "─" ++
             "───".intercalate (List.replicate (resolveDays options).toNat "┬"))],
           Effect.log [LogArg.axis AxisField.day ((List.range (resolveDays options).toNat).map
             (fun i : ℕ => DateTime.valid (today + -(resolveDays options - 1) + (i : ℤ))))],
           Effect.log [LogArg.axis AxisField.month ((List.range (resolveDays options).toNat).map
             (fun i : ℕ => DateTime.valid (today + -(resolveDays options - 1) + (i : ℤ))))],
           Effect.log [LogArg.axis AxisField.year ((List.range (resolveDays options).toNat).map
             (fun i : ℕ => DateTime.valid (today + -(resolveDays options - 1) + (i : ℤ))))]] := by
  obtain ⟨n, hn⟩ : ∃ n : ℕ, resolveDays options = n := ⟨(resolveDays options).toNat, by omega⟩
  obtain ⟨data, hdata, hlen, hspec⟩ := scrapDataFromLogs_spec (today + -((n : ℤ) - 1)) n logs
  obtain ⟨api, hapi, _⟩ := hspec m hm
  obtain ⟨perDay, hplen, hg, hper⟩ := graphData_spec api n (hlen.get? hapi) options.Latency
  rw [hn, Int.toNat_ofNat]
  refine ⟨data, api, perDay, hdata, hapi, hlen.get? hapi, hplen, hper, hg, ?_, ?_⟩
  · intro hplot
    unfold renderGraph
    rw [hpos]
    simp only [hm, if_true, DateTime.plusDays, hn, scrapCall_natCast, Int.toNat_ofNat, hdata,
      hapi, hg, hplot]
  · intro chart hplot
    unfold renderGraph
    rw [hpos]
    simp only [hm, if_true, DateTime.plusDays, hn, scrapCall_natCast, Int.toNat_ofNat, hdata,
      hapi, hg, hplot, bind_pure_cast, List.map_map, Function.comp_def]

/-- The finite values of an array in which every value is repeated four
times. -/
theorem finiteValues_flatMap_replicate_four (l : List Number) :
    finiteValues (l.flatMap (fun elem => List.replicate 4 elem)) =
      (finiteValues l).map (fun values => values.flatMap (fun elem => List.replicate 4 elem)) := by
  induction l with
  | nil => rfl
  | cons x l ih =>
    cases x with
    | finite q =>
      have e : (Number.finite q :: l).flatMap (fun elem => List.replicate 4 elem) =
          Number.finite q :: Number.finite q :: Number.finite q :: Number.finite q ::
            l.flatMap (fun elem => List.replicate 4 elem) := rfl
      rw [e]
      simp only [finiteValues, ih]
      cases finiteValues l with
      | none => rfl
      | some values => rfl
    | infinity => rfl

theorem finiteValues_eq_none_iff (l : List Number) :
    finiteValues l = none ↔ Number.infinity ∈ l := by
  induction l with
  | nil => simp [finiteValues]
  | cons x l ih =>
    cases x with
    | finite q =>
      simp only [finiteValues, Option.map_eq_none', ih, List.mem_cons, reduceCtorEq, false_or]
    | infinity => simp [finiteValues]

theorem finiteValues_length {l : List Number} {values : List ℚ}
    (h : finiteValues l = some values) : values.length = l.length := by
  induction l generalizing values with
  | nil =>
    simp only [finiteValues, Option.some.injEq] at h
    subst h
    rfl
  | cons x l ih =>
    cases x with
    | finite q =>
      simp only [finiteValues, Option.map_eq_some'] at h
      obtain ⟨vs, hvs, rfl⟩ := h
      simp [ih hvs]
    | infinity => simp [finiteValues] at h

theorem resolveDays_of_no_option (options : PeriodOptions)
    (h1 : options.LastNthDays = NthDays.absent) (h2 : options.Last3Days = false)
    (h3 : options.Last30Days = false) : resolveDays options = 7 := by
  unfold resolveDays
  simp [h1, h2, h3]

theorem regexExec_append_of_no_earlier (p rest : List Char)
    (h : ∀ before after : List Char, p ++ rest = before ++ after →
      before.length < p.length → matchHere after = none)
    (hrest : (matchHere rest).isSome = true) :
    regexExec (p ++ rest) = matchHere rest := by
  induction p with
  | nil =>
    simp only [List.nil_append]
    cases rest with
    | nil => rfl
    | cons c rest =>
      unfold regexExec
      obtain ⟨g, hg⟩ := Option.isSome_iff_exists.1 hrest
      rw [hg]
  | cons c p ih =>
    have h0 : matchHere (c :: (p ++ rest)) = none :=
      h [] (c :: (p ++ rest)) rfl (by simp)
    rw [List.cons_append]
    unfold regexExec
    rw [h0]
    apply ih
    intro before after e hlt
    exact h (c :: before) after (by simp [e]) (by simpa using hlt)

theorem scrapDataFromLogs_congr_line (startDate : DateTime) (n : Nat) (line1 line2 : String)
    (h : ∀ data, lineHandler startDate n data line1 = lineHandler startDate n data line2)
    (before after : List String) :
    scrapDataFromLogs startDate n (before ++ line1 :: after) =
      scrapDataFromLogs startDate n (before ++ line2 :: after) := by
  unfold scrapDataFromLogs
  rw [List.foldlM_append, List.foldlM_append]
  congr 1
  funext data
  rw [List.foldlM_cons, List.foldlM_cons, h data]

theorem sum_flatMap_replicate_four (l : List ℚ) :
    (l.flatMap (fun elem => List.replicate 4 elem)).sum = 4 * l.sum := by
  induction l with
  | nil => simp
  | cons x l ih =>
    rw [List.flatMap_cons, List.sum_append, ih, List.sum_cons]
    simp only [List.replicate, List.sum_cons, List.sum_nil]
    ring

theorem mean_flatMap_replicate_four (l : List ℚ) :
    (l.flatMap (fun elem => List.replicate 4 elem)).sum /
        ((l.flatMap (fun elem => List.replicate 4 elem)).length : ℚ) =
      l.sum / (l.length : ℚ) := by
  rw [sum_flatMap_replicate_four, length_flatMap_replicate_four]
  push_cast
  rw [mul_div_mul_left _ _ (by norm_num : (4 : ℚ) ≠ 0)]

theorem data_new_countsMatchSamples (n : Nat) : (Data.new n).CountsMatchSamples n := by
  intro key api hk k hkn
  have e : api = APIData.new n := by
    unfold Data.get? Data.new at hk
    split_ifs at hk <;> simp_all
  subst e
  exact ⟨0, 0, [], by simp [APIData.new, hkn], by simp [APIData.new, hkn],
    by simp [APIData.new, hkn], rfl⟩

theorem lineHandler_countsMatchSamples (startDate : DateTime) (n : Nat) (data : Data)
    (hd : data.HasLength n) (hinv : data.CountsMatchSamples n) (line : String) :
    ∃ data1, lineHandler startDate n data line = some data1 ∧ data1.HasLength n ∧
      data1.CountsMatchSamples n := by
  cases startDate with
  | invalid => exact ⟨data, lineHandler_invalid_start n data line, hd, hinv⟩
  | valid start =>
    obtain ⟨data1, h1, hd1, hstep⟩ := lineHandler_step start n data hd line
    refine ⟨data1, h1, hd1, ?_⟩
    intro key api1 hk1 k hkn
    have hkey : key ∈ modulesNames :=
      (Data.get?_isSome_iff data1 key).1 (by rw [hk1]; rfl)
    obtain ⟨api, hapi⟩ := Option.isSome_iff_exists.1 ((Data.get?_isSome_iff data key).2 hkey)
    obtain ⟨api2, hapi2, hspec⟩ := hstep key api hapi
    rw [hk1] at hapi2
    cases hapi2
    obtain ⟨s, f, samples, hs, hf, hl, hsum⟩ := hinv key api hapi k hkn
    obtain ⟨a1, a2, a3⟩ := hspec k hkn
    rw [hs] at a1
    rw [hf] at a2
    rw [hl] at a3
    simp only [Option.map_some'] at a1 a2 a3
    refine ⟨_, _, _, a1, a2, a3, ?_⟩
    have := eventLatency_length key (start + k) line
    rw [List.length_append, this]
    omega

theorem foldlM_lineHandler_countsMatchSamples (startDate : DateTime) (n : Nat)
    (lines : List String) :
    ∀ data : Data, data.HasLength n → data.CountsMatchSamples n →
      ∃ data1, lines.foldlM (lineHandler startDate n) data = some data1 ∧ data1.HasLength n ∧
        data1.CountsMatchSamples n := by
  induction lines with
  | nil => exact fun data hd hinv => ⟨data, rfl, hd, hinv⟩
  | cons line lines ih =>
    intro data hd hinv
    obtain ⟨data1, h1, hd1, hinv1⟩ := lineHandler_countsMatchSamples startDate n data hd hinv line
    obtain ⟨data2, h2, hd2, hinv2⟩ := ih data1 hd1 hinv1
    exact ⟨data2, by rw [List.foldlM_cons, h1]; exact h2, hd2, hinv2⟩

theorem acceptedOffset_lt {startDate date : DateTime} {n k : Nat}
    (h : acceptedOffset startDate n date = some k) : k < n := by
  unfold acceptedOffset at h
  split at h
  · cases h
  · rename_i o _
    split at h
    · rename_i hw
      simp only [Option.some.injEq] at h
      omega
    · cases h

/-- The Number of an exact result whose rounding is known and is below `2 ^ 1024`. -/
theorem toNumber_eq_of_roundDouble {q r : ℚ} (m : ℕ) (hr : roundDouble q = r)
    (hm : r ≤ (2 : ℚ) ^ m) (h : m < 1024) : toNumber q = Number.finite r := by
  have hlt : roundDouble q < 2 ^ 1024 := by
    rw [hr]
    exact lt_of_le_of_lt hm (pow_lt_pow_right₀ (by norm_num) h)
  rw [toNumber_of_lt hlt, hr]

theorem toNumber_two_pow_53_add_one :
    toNumber (9007199254740993 : ℚ) = Number.finite 9007199254740992 := by
  have hr : roundDouble (9007199254740993 : ℚ) = 9007199254740992 := by
    rw [roundDouble_eq_of_bounds 1 (by norm_num) (by norm_num),
      roundHalfEven_tie_even 4503599627370496 (by norm_num) (by decide)]
    norm_num
  exact toNumber_eq_of_roundDouble 53 hr (by norm_num) (by norm_num)

/-- The quotient of an integer up to `2 ^ 53` by a positive integer is below
`10 ^ 21`, where `toFixed` writes decimals. -/
theorem roundDouble_div_lt (s n : ℕ) (hn : 0 < n) (hs : s ≤ 2 ^ 53) :
    roundDouble ((s : ℚ) / (n : ℚ)) < 10 ^ 21 := by
  have hnq : (1 : ℚ) ≤ n := by exact_mod_cast hn
  have h1 : (s : ℚ) / (n : ℚ) ≤ s := div_le_self (by positivity) hnq
  have h2 := roundDouble_le_natCast (by positivity) s hs h1
  have h3 : (s : ℚ) ≤ 2 ^ 53 := by exact_mod_cast hs
  have h4 : (2 : ℚ) ^ 53 < 10 ^ 21 := by norm_num
  linarith

theorem toNumber_two_pow_53_add_two :
    toNumber (9007199254740994 : ℚ) = Number.finite 9007199254740994 := by
  have hr : roundDouble (9007199254740994 : ℚ) = 9007199254740994 := by
    have := roundDouble_of_repr 4503599627370497 1 (by norm_num)
    norm_num at this
    exact this
  exact toNumber_eq_of_roundDouble 54 hr (by norm_num) (by norm_num)

theorem Number.add_finite (a b : ℚ) :
    Number.add (Number.finite a) (Number.finite b) = toNumber (a + b) := rfl

theorem Number.zero_add_finite (a : ℚ) : Number.add 0 (Number.finite a) = toNumber a := by
  show toNumber (((0 : ℕ) : ℚ) + a) = toNumber a
  rw [Nat.cast_zero, zero_add]

theorem toNumber_ofNat (n : ℕ) [n.AtLeastTwo] (h : n ≤ 2 ^ 53) :
    toNumber (OfNat.ofNat n : ℚ) = Number.finite (OfNat.ofNat n) := by
  have := toNumber_natCast n h
  simpa using this

/-- The binary64 quotient of `2 ^ 53 + 2` by 3. -/
theorem roundDouble_div_three_up :
    roundDouble ((9007199254740994 : ℚ) / 3) = 6004799503160663 / 2 := by
  rw [roundDouble_eq_of_bounds (-1) (by norm_num) (by norm_num),
    roundHalfEven_eq_of_lt 6004799503160663 (by norm_num) (by norm_num)]
  norm_num

/-- The binary64 quotient of `2 ^ 53` by 3. -/
theorem roundDouble_div_three_down :
    roundDouble ((9007199254740992 : ℚ) / 3) = 6004799503160661 / 2 := by
  rw [roundDouble_eq_of_bounds (-1) (by norm_num) (by norm_num),
    roundHalfEven_eq_of_lt 6004799503160661 (by norm_num) (by norm_num)]
  norm_num

theorem toFixed2_example_up :
    toFixed2 (Number.finite (6004799503160663 / 2)) = "3002399751580331.50" := by
  have h : toFixedHundredths (6004799503160663 / 2) = 300239975158033150 := by
    unfold toFixedHundredths
    have : ⌊(6004799503160663 / 2 : ℚ) * 100 + 1 / 2⌋ = 300239975158033150 := by
      rw [Int.floor_eq_iff]
      norm_num
    rw [this]
    rfl
  rw [toFixed2_of_lt (by norm_num), h]
  decide

theorem toFixed2_example_down :
    toFixed2 (Number.finite (6004799503160661 / 2)) = "3002399751580330.50" := by
  have h : toFixedHundredths (6004799503160661 / 2) = 300239975158033050 := by
    unfold toFixedHundredths
    have : ⌊(6004799503160661 / 2 : ℚ) * 100 + 1 / 2⌋ = 300239975158033050 := by
      rw [Int.floor_eq_iff]
      norm_num
    rw [this]
    rfl
  rw [toFixed2_of_lt (by norm_num), h]
  decide

/-- The text of a day with three latencies, from the three sums of `reduce`. -/
theorem averageLatency_three (a b c : ℚ) (s1 s2 s3 : Number) (h1 : toNumber a = s1)
    (h2 : s1.add (Number.finite b) = s2) (h3 : s2.add (Number.finite c) = s3) :
    averageLatency [Number.finite a, Number.finite b, Number.finite c] =
      (s3.div 3).map (fun q => toFixed2 q ++ "ms") := by
  unfold averageLatency
  rw [if_pos (by simp)]
  simp only [List.foldl_cons, List.foldl_nil, List.length_cons, List.length_nil,
    Number.zero_add_finite, h1, h2, h3]
  norm_num

/-- Three latencies near `3 * 10 ^ 15`: the quotient is a multiple of 1/2. -/
theorem averageLatency_large :
    averageLatency [Number.finite 3002399751580331, Number.finite 3002399751580331,
      Number.finite 3002399751580332] = some "3002399751580331.50ms" := by
  have h2 : (Number.finite 3002399751580331).add (Number.finite 3002399751580331) =
      Number.finite 6004799503160662 := by
    rw [Number.add_finite]
    norm_num only
    exact toNumber_ofNat _ (by norm_num)
  have h3 : (Number.finite 6004799503160662).add (Number.finite 3002399751580332) =
      Number.finite 9007199254740994 := by
    rw [Number.add_finite]
    norm_num only
    exact toNumber_two_pow_53_add_two
  rw [averageLatency_three _ _ _ _ _ _ (toNumber_ofNat _ (by norm_num)) h2 h3,
    Number.div_finite _ (by norm_num), roundDouble_div_three_up, Option.map_some',
    toFixed2_example_up]
  rfl

/-- The latencies `2 ^ 53`, 1, 1 in this order: both additions of 1 are lost. -/
theorem averageLatency_large_first :
    averageLatency [Number.finite 9007199254740992, Number.finite 1, Number.finite 1] =
      some "3002399751580330.50ms" := by
  have h2 : (Number.finite 9007199254740992).add (Number.finite 1) =
      Number.finite 9007199254740992 := by
    rw [Number.add_finite]
    norm_num only
    exact toNumber_two_pow_53_add_one
  rw [averageLatency_three _ _ _ _ _ _ (toNumber_ofNat _ (by norm_num)) h2 h2,
    Number.div_finite _ (by norm_num), roundDouble_div_three_down, Option.map_some',
    toFixed2_example_down]
  rfl

/-- The latencies 1, 1, `2 ^ 53` in this order: the sum is exact. -/
theorem averageLatency_large_last :
    averageLatency [Number.finite 1, Number.finite 1, Number.finite 9007199254740992] =
      some "3002399751580331.50ms" := by
  have h1 : toNumber (1 : ℚ) = Number.finite 1 := by
    have := toNumber_natCast 1 (by norm_num)
    simpa using this
  have h2 : (Number.finite 1).add (Number.finite 1) = Number.finite 2 := by
    rw [Number.add_finite]
    norm_num only
    exact toNumber_ofNat _ (by norm_num)
  have h3 : (Number.finite 2).add (Number.finite 9007199254740992) =
      Number.finite 9007199254740994 := by
    rw [Number.add_finite]
    norm_num only
    exact toNumber_two_pow_53_add_two
  rw [averageLatency_three _ _ _ _ _ _ h1 h2 h3,
    Number.div_finite _ (by norm_num), roundDouble_div_three_up, Option.map_some',
    toFixed2_example_up]
  rfl

/-- The run of `checkLatency` for PokeAPI on the single day 01/03/2024, from the
text of that day. -/
theorem checkLatency_single_day (logs : List String) (bucket : List Number) (text : String)
    (hb : logs.filterMap (eventLatency "PokeAPI" 739311) = bucket)
    (ht : averageLatency bucket = some text) :
    checkLatency (DateTime.valid 739400) logs
        { positional := ["PokeAPI"], start := some "01/03/2024", finish := some "01/03/2024" } =
      [Effect.scrap (DateTime.valid 739311) 1 "logs.txt",
       Effect.log [LogArg.date (DateTime.valid 739311), LogArg.text text]] := by
  rw [checkLatency_of_valid (DateTime.valid 739400) _ _ "PokeAPI" [] 739311 739311 rfl
    (by decide) (by decide) (by decide) (by decide)]
  have hr : (739311 : ℤ) - 739311 + 1 = ((1 : ℕ) : ℤ) := by norm_num
  rw [hr, Int.toNat_ofNat]
  simp only [List.range_succ, List.range_zero, List.nil_append, List.map_cons, List.map_nil,
    Nat.cast_zero, add_zero, hb, ht, Option.getD_some]
  rfl

theorem finiteValues_map_finite (values : List ℚ) :
    finiteValues (values.map Number.finite) = some values := by
  induction values with
  | nil => rfl
  | cons q values ih => simp only [List.map_cons, finiteValues, ih, Option.map_some']

theorem finiteValues_eq_some {l : List Number} {values : List ℚ}
    (h : finiteValues l = some values) : l = values.map Number.finite := by
  induction l generalizing values with
  | nil =>
    simp only [finiteValues, Option.some.injEq] at h
    subst h
    rfl
  | cons x l ih =>
    cases x with
    | finite q =>
      simp only [finiteValues, Option.map_eq_some'] at h
      obtain ⟨vs, hvs, rfl⟩ := h
      rw [List.map_cons, ← ih hvs]
    | infinity => simp [finiteValues] at h

theorem exists_map_finite (l : List Number) (h : ∀ x ∈ l, ∃ q, x = Number.finite q) :
    ∃ values : List ℚ, l = values.map Number.finite := by
  induction l with
  | nil => exact ⟨[], rfl⟩
  | cons x l ih =>
    obtain ⟨q, rfl⟩ := h x (List.mem_cons_self _ _)
    obtain ⟨values, rfl⟩ := ih (fun y hy => h y (List.mem_cons_of_mem _ hy))
    exact ⟨q :: values, rfl⟩

theorem parseFloatFixed2_finite (q : ℚ) :
    ∃ r, parseFloatFixed2 (Number.finite q) = Number.finite r := by
  unfold parseFloatFixed2
  by_cases h : q < 10 ^ 21
  · exact ⟨_, if_pos h⟩
  · exact ⟨_, if_neg h⟩

/-- The plotter returns a chart for every array of finite values that is not
empty. -/
theorem plot_map_finite {values : List ℚ} (h : values ≠ []) (height : ℕ) :
    plot (values.map Number.finite) height = some (LogArg.chart values height) := by
  unfold plot
  rw [if_neg (by simpa using h), finiteValues_map_finite]
  rfl

/-- The plotter throws when a value is `Infinity`. -/
theorem plot_of_infinity {l : List Number} (h : Number.infinity ∈ l) (height : ℕ) :
    plot l height = none := by
  unfold plot
  split
  · rfl
  · rw [(finiteValues_eq_none_iff l).2 h]
    rfl

/-- The value plotted for a day in the availability mode is finite. -/
theorem availabilityOfDay_finite {api : APIData} {k : ℕ} {x : Number}
    (h : availabilityOfDay api k = some x) : ∃ q, x = Number.finite q := by
  unfold availabilityOfDay at h
  split at h
  · rename_i s f _ _
    simp only at h
    split at h
    · cases h
      exact ⟨_, rfl⟩
    · simp only [Option.map_eq_some'] at h
      obtain ⟨_, _, rfl⟩ := h
      exact ⟨_, rfl⟩
  · cases h

/-- The value plotted for a day in the latency mode is finite when the
latencies written in the lines of the day have a sum of at most `2 ^ 53`. -/
theorem averageLatencyOfDay_finite {vs : List ℕ} (hs : vs.sum ≤ 2 ^ 53) {x : Number}
    (h : averageLatencyOfDay (vs.map (fun v : ℕ => toNumber (v : ℚ))) = some x) :
    ∃ q, x = Number.finite q := by
  rw [map_toNumber_of_sum_le vs hs] at h
  by_cases hn : vs = []
  · subst hn
    cases h
    exact ⟨_, rfl⟩
  · rw [averageLatencyOfDay_of_exact hn hs] at h
    cases h
    obtain ⟨r, hr⟩ := parseFloatFixed2_finite (roundDouble ((vs.sum : ℚ) / (vs.length : ℚ)))
    exact ⟨r, hr⟩

theorem mem_of_mem_flatMap_replicate_four {α : Type} {l : List α} {x : α}
    (h : x ∈ l.flatMap (fun elem => List.replicate 4 elem)) : x ∈ l := by
  obtain ⟨y, hy, hx⟩ := List.mem_flatMap.1 h
  rw [(List.mem_replicate.1 hx).2]
  exact hy

/-- With a window of 0 days `renderGraph` hands the empty array to the plotter,
which throws: no chart and no axis is printed. -/
theorem renderGraph_zero_days :
    renderGraph (DateTime.valid 739311) ["PokeAPI (success,120ms,01/03/2024)"]
      { positional := ["PokeAPI"], LastNthDays := NthDays.value 0, Last3Days := false,
        Last30Days := false, Latency := false } =
      [Effect.log [LogArg.optionsObject], Effect.log [LogArg.number 0],
       Effect.scrap (DateTime.valid 739312) 0 "logs.txt", Effect.error] := by
  rfl

/-! ## The claims -/

/-- Claim C1, as amended. For every start date, window length and list of log
lines, `scrapDataFromLogs` returns, for each known module `m` and each offset `k`
below the window length: in `success[k]` the number of lines whose pattern match
has module `m`, status `success` and a valid date equal to start + `k` days, in
`fail[k]` the same count for status `fail`, and in `latency[k]` the latency
values of exactly those lines (both statuses) in log order, each one as the
Number that `parseInt` reads: the binary64 value nearest to the integer written
in the line (`Infinity` beyond the finite binary64 values), which is the
integer itself when it is at most `2 ^ 53`. -/
theorem scrapDataFromLogs_buckets (start : Int) (n : Nat) (lines : List String)
    (m : String) (k : Nat) (hm : m ∈ modulesNames) (hk : k < n) :
    ∃ data api, scrapDataFromLogs (DateTime.valid start) n lines = some data ∧
      data.get? m = some api ∧
      api.success[k]? = some (lines.countP (isEvent m "success" (start + k))) ∧
      api.fail[k]? = some (lines.countP (isEvent m "fail" (start + k))) ∧
      api.latency[k]? = some (lines.filterMap (eventLatency m (start + k))) ∧
      lines.filterMap (eventLatency m (start + k)) =
        (lines.filterMap (writtenLatency m (start + k))).map (fun v : ℕ => toNumber (v : ℚ)) ∧
      ((∀ v ∈ lines.filterMap (writtenLatency m (start + k)), v ≤ 2 ^ 53) →
        api.latency[k]? = some ((lines.filterMap (writtenLatency m (start + k))).map
          (fun v : ℕ => Number.finite (v : ℚ)))) := by
  obtain ⟨data, h, _, hs⟩ := scrapDataFromLogs_spec start n lines
  obtain ⟨api, hapi, hb⟩ := hs m hm
  obtain ⟨b1, b2, b3⟩ := hb k hk
  refine ⟨data, api, h, hapi, b1, b2, b3, filterMap_eventLatency m (start + k) lines, ?_⟩
  intro hle
  rw [b3, filterMap_eventLatency, map_toNumber_of_le _ hle]

theorem scrapDataFromLogs_buckets_witness :
    ∃ data api, scrapDataFromLogs (DateTime.valid 739311) 2
        ["PokeAPI (success,120ms,01/03/2024)", "noise", "PokeAPI (fail,80ms,01/03/2024)",
         "PokeStats (success,7ms,01/03/2024)", "PokeAPI (success,15ms,02/03/2024)"] = some data ∧
      data.get? "PokeAPI" = some api ∧
      api.success[0]? = some 1 ∧ api.fail[0]? = some 1 ∧ api.latency[0]? = some [120, 80] := by
  obtain ⟨data, api, h1, h2, h3, h4, h5, _, _⟩ := scrapDataFromLogs_buckets 739311 2
    ["PokeAPI (success,120ms,01/03/2024)", "noise", "PokeAPI (fail,80ms,01/03/2024)",
     "PokeStats (success,7ms,01/03/2024)", "PokeAPI (success,15ms,02/03/2024)"]
    "PokeAPI" 0 (by decide) (by decide)
  refine ⟨data, api, h1, h2, ?_, ?_, ?_⟩
  · rw [h3]; decide
  · rw [h4]; decide
  · rw [h5]; decide

/-- Counterexample to claim C1 as stated: the latency `9007199254740993` written in
a line is stored as `9007199254740992`, the binary64 value nearest to it, so the
latency list of the day is not the list of the latencies of its lines. -/
theorem scrapDataFromLogs_rounds_latency :
    ∃ data api,
      scrapDataFromLogs (DateTime.valid 739311) 1
        ["PokeAPI (success,9007199254740993ms,01/03/2024)"] = some data ∧
      data.get? "PokeAPI" = some api ∧
      ["PokeAPI (success,9007199254740993ms,01/03/2024)"].filterMap
        (writtenLatency "PokeAPI" 739311) = [9007199254740993] ∧
      api.latency[0]? = some [Number.finite 9007199254740992] ∧
      api.latency[0]? ≠ some [Number.finite 9007199254740993] := by
  obtain ⟨data, h, _, hs⟩ := scrapDataFromLogs_spec 739311 1
    ["PokeAPI (success,9007199254740993ms,01/03/2024)"]
  obtain ⟨api, hapi, hb⟩ := hs "PokeAPI" (by decide)
  have hw : ["PokeAPI (success,9007199254740993ms,01/03/2024)"].filterMap
      (writtenLatency "PokeAPI" 739311) = [9007199254740993] := by decide
  have hl : api.latency[0]? = some [Number.finite 9007199254740992] := by
    have := (hb 0 (by decide)).2.2
    simp only [Nat.cast_zero, add_zero] at this
    rw [this, filterMap_eventLatency, hw]
    simp only [List.map_cons, List.map_nil, Nat.cast_ofNat, toNumber_two_pow_53_add_one]
  refine ⟨data, api, h, hapi, hw, hl, ?_⟩
  rw [hl]
  intro hc
  simp only [Option.some.injEq, List.cons.injEq, Number.finite.injEq, and_true] at hc
  norm_num at hc

/-- Claim C2. For every window length (zero included) and every list of log
lines (the empty one included), the result of `scrapDataFromLogs` has an entry
for exactly the three known modules PokeAPI, PokeImages and PokeStats, and for
each of them the `success`, `fail` and `latency` sequences all have exactly as
many elements as the window has days; processing any line preserves these
three lengths. -/
theorem scrapDataFromLogs_lengths (startDate : DateTime) (n : Nat) (lines : List String) :
    (∃ data, scrapDataFromLogs startDate n lines = some data ∧
      (∀ key, (data.get? key).isSome = true ↔ key ∈ ["PokeAPI", "PokeImages", "PokeStats"]) ∧
      ∀ key api, data.get? key = some api →
        api.success.length = n ∧ api.fail.length = n ∧ api.latency.length = n) ∧
    ∀ data line,
      (∀ key api, data.get? key = some api →
        api.success.length = n ∧ api.fail.length = n ∧ api.latency.length = n) →
      ∃ data1, lineHandler startDate n data line = some data1 ∧
        ∀ key api, data1.get? key = some api →
          api.success.length = n ∧ api.fail.length = n ∧ api.latency.length = n := by
  constructor
  · obtain ⟨data, h, hd⟩ := foldlM_lineHandler_hasLength startDate n lines (Data.new n)
      (data_new_hasLength n)
    exact ⟨data, h, fun key => Data.get?_isSome_iff data key, (Data.hasLength_iff n data).1 hd⟩
  · intro data line hd
    obtain ⟨data1, h1, hd1⟩ :=
      lineHandler_hasLength startDate n data ((Data.hasLength_iff n data).2 hd) line
    exact ⟨data1, h1, (Data.hasLength_iff n data1).1 hd1⟩

theorem scrapDataFromLogs_lengths_witness :
    scrapDataFromLogs (DateTime.valid 739311) 0 [] = some (Data.new 0) ∧
    ∃ data1, lineHandler (DateTime.valid 739311) 2 (Data.new 2)
        "PokeImages (fail,31ms,02/03/2024)" = some data1 ∧
      ∀ key api, data1.get? key = some api →
        api.success.length = 2 ∧ api.fail.length = 2 ∧ api.latency.length = 2 :=
  ⟨by decide,
    (scrapDataFromLogs_lengths (DateTime.valid 739311) 2 []).2 (Data.new 2)
      "PokeImages (fail,31ms,02/03/2024)"
      ((Data.hasLength_iff 2 (Data.new 2)).1 (data_new_hasLength 2))⟩

/-- Claim C3. For every accumulator state and every line that contains no
substring of the shape
`<PokeStats|PokeImages|PokeAPI> (<success|fail>,<digits>ms,<dd>/<dd>/<dddd>)`,
processing that line in `scrapDataFromLogs` raises no error and leaves every
sequence of every module unchanged; the line can be dropped from the log. -/
theorem lineHandler_no_record (startDate : DateTime) (n : Nat) (line : String)
    (h : ¬ ContainsRecord line.toList) :
    (∀ data, lineHandler startDate n data line = some data) ∧
    ∀ before after : List String,
      scrapDataFromLogs startDate n (before ++ line :: after) =
        scrapDataFromLogs startDate n (before ++ after) := by
  have hnone : regexExec line.toList = none := by
    cases hre : regexExec line.toList with
    | none => rfl
    | some g => exact absurd ⟨g, regexExec_sound hre⟩ h
  have hskip := fun data => lineHandler_of_regexExec_none startDate n data line hnone
  exact ⟨hskip, scrapDataFromLogs_skip startDate n line hskip⟩

theorem lineHandler_no_record_witness :
    ¬ ContainsRecord "PokeMaps (success,12ms,01/03/2024)".toList ∧
    ¬ ContainsRecord "PokeAPI (success,1x2ms,01/03/2024)".toList ∧
    lineHandler (DateTime.valid 739311) 1 (Data.new 1) "PokeMaps (success,12ms,01/03/2024)" =
      some (Data.new 1) ∧
    lineHandler (DateTime.valid 739311) 1 (Data.new 1) "PokeAPI (success,1x2ms,01/03/2024)" =
      some (Data.new 1) :=
  have h1 : ¬ ContainsRecord "PokeMaps (success,12ms,01/03/2024)".toList :=
    fun h => absurd ((regexExec_isSome_iff _).2 h) (by decide)
  have h2 : ¬ ContainsRecord "PokeAPI (success,1x2ms,01/03/2024)".toList :=
    fun h => absurd ((regexExec_isSome_iff _).2 h) (by decide)
  ⟨h1, h2, (lineHandler_no_record _ 1 _ h1).1 _, (lineHandler_no_record _ 1 _ h2).1 _⟩

/-- Claim C4. For every window (start, L), the bucket index computed for an
event date `d` is `d - start` in whole days when that value lies in `[0, L)`
and the event is discarded otherwise: the map `k ↦ start + k days` is a
bijection between `[0, L)` and the dates that are accepted, every event dated
before `start` or on/after `start + L days` changes no accumulator, two date
texts that are accepted into the same bucket are the same text, and the line
handler records an event in the bucket of this index and in no other case. -/
theorem acceptedOffset_window (start : Int) (n : Nat) :
    (∀ d : Int, 0 ≤ d - start → d - start < n →
      acceptedOffset (DateTime.valid start) n (DateTime.valid d) = some (d - start).toNat) ∧
    Set.BijOn (fun k : Nat => DateTime.valid (start + k)) (Set.Iio n)
      {date | (acceptedOffset (DateTime.valid start) n date).isSome = true} ∧
    (∀ d : Int, d < start ∨ start + n ≤ d →
      acceptedOffset (DateTime.valid start) n (DateTime.valid d) = none ∧
      ∀ (data : Data) (line : String) (g : Groups), regexExec line.toList = some g →
        fromFormat g.date = DateTime.valid d →
        lineHandler (DateTime.valid start) n data line = some data) ∧
    (∀ (text1 text2 : List Char) (k : Nat),
      acceptedOffset (DateTime.valid start) n (fromFormat text1) = some k →
      acceptedOffset (DateTime.valid start) n (fromFormat text2) = some k → text1 = text2) ∧
    ∀ (data : Data) (line : String) (g : Groups), regexExec line.toList = some g →
      lineHandler (DateTime.valid start) n data line =
        match acceptedOffset (DateTime.valid start) n (fromFormat g.date) with
        | none => some data
        | some k =>
          (data.get? g.module_name).bind (fun api =>
            (api.record k g.status (parseInt g.latency)).map (fun api1 =>
              data.set g.module_name api1)) := by
  refine ⟨?_, ⟨?_, ?_, ?_⟩, ?_, ?_, ?_⟩
  · intro d h0 h1
    exact (acceptedOffset_valid start n d _).2 ⟨by omega, by omega⟩
  · intro k hk
    have : acceptedOffset (DateTime.valid start) n (DateTime.valid (start + k)) = some k :=
      (acceptedOffset_valid start n _ k).2 ⟨hk, rfl⟩
    simp [this]
  · intro a _ b _ hab
    simp only [DateTime.valid.injEq] at hab
    omega
  · intro date hdate
    cases date with
    | invalid => simp [acceptedOffset_invalid] at hdate
    | valid d =>
      obtain ⟨k, hk⟩ := Option.isSome_iff_exists.1 hdate
      obtain ⟨h1, h2⟩ := (acceptedOffset_valid start n d k).1 hk
      exact ⟨k, h1, by simp [h2]⟩
  · intro d hd
    have hnone : acceptedOffset (DateTime.valid start) n (DateTime.valid d) = none := by
      cases h : acceptedOffset (DateTime.valid start) n (DateTime.valid d) with
      | none => rfl
      | some k =>
        obtain ⟨h1, h2⟩ := (acceptedOffset_valid start n d k).1 h
        omega
    refine ⟨hnone, fun data line g hg hdate => ?_⟩
    exact lineHandler_of_not_accepted _ n data line g hg (by rw [hdate]; exact hnone)
  · intro text1 text2 k h1 h2
    cases hd1 : fromFormat text1 with
    | invalid => rw [hd1, acceptedOffset_invalid] at h1; cases h1
    | valid d1 =>
      cases hd2 : fromFormat text2 with
      | invalid => rw [hd2, acceptedOffset_invalid] at h2; cases h2
      | valid d2 =>
        rw [hd1] at h1
        rw [hd2] at h2
        have e1 := ((acceptedOffset_valid start n d1 k).1 h1).2
        have e2 := ((acceptedOffset_valid start n d2 k).1 h2).2
        rw [← e2] at e1
        subst e1
        exact fromFormat_injective hd1 hd2
  · intro data line g hg
    cases hacc : acceptedOffset (DateTime.valid start) n (fromFormat g.date) with
    | none => exact lineHandler_of_not_accepted _ n data line g hg hacc
    | some k => exact lineHandler_of_accepted _ n data line g hg k hacc

theorem acceptedOffset_window_witness :
    fromFormat "10/03/2024".toList = DateTime.valid 739320 ∧
    fromFormat "09/03/2024".toList = DateTime.valid 739319 ∧
    lineHandler (DateTime.valid 739320) 3 (Data.new 3) "PokeAPI (success,120ms,09/03/2024)" =
      some (Data.new 3) ∧
    scrapDataFromLogs (fromFormat "10/03/2024".toList) 3
      ["PokeAPI (success,120ms,09/03/2024)"] = some (Data.new 3) :=
  ⟨by decide, by decide,
    ((acceptedOffset_window 739320 3).2.2.1 739319 (by decide)).2 (Data.new 3)
      "PokeAPI (success,120ms,09/03/2024)"
      { module_name := "PokeAPI", status := "success", latency := "120".toList,
        date := "09/03/2024".toList } (by decide) (by decide),
    by decide⟩

/-- Claim C5. For every window and every line that matches the textual pattern
but whose `dd/MM/yyyy` text is not a real calendar date (such as 31/02/2024 or
00/13/2024), `scrapDataFromLogs` inserts nothing: no success count, fail count
or latency list of any module changes, and no error is raised. -/
theorem lineHandler_invalid_date (startDate : DateTime) (n : Nat) (line : String) (g : Groups)
    (hg : regexExec line.toList = some g) (hd : fromFormat g.date = DateTime.invalid) :
    (∀ data, lineHandler startDate n data line = some data) ∧
    ∀ before after : List String,
      scrapDataFromLogs startDate n (before ++ line :: after) =
        scrapDataFromLogs startDate n (before ++ after) := by
  have hskip := fun data => lineHandler_of_not_accepted startDate n data line g hg
    (by rw [hd]; exact acceptedOffset_invalid startDate n)
  exact ⟨hskip, scrapDataFromLogs_skip startDate n line hskip⟩

theorem lineHandler_invalid_date_witness :
    fromFormat "31/02/2024".toList = DateTime.invalid ∧
    fromFormat "00/13/2024".toList = DateTime.invalid ∧
    (∀ data, lineHandler (DateTime.valid 739282) 30 data "PokeAPI (success,120ms,31/02/2024)" =
      some data) ∧
    (∀ data, lineHandler (DateTime.valid 739282) 30 data "PokeStats (fail,9ms,00/13/2024)" =
      some data) :=
  ⟨by decide, by decide,
    (lineHandler_invalid_date (DateTime.valid 739282) 30 "PokeAPI (success,120ms,31/02/2024)"
      { module_name := "PokeAPI", status := "success", latency := "120".toList,
        date := "31/02/2024".toList } (by decide) (by decide)).1,
    (lineHandler_invalid_date (DateTime.valid 739282) 30 "PokeStats (fail,9ms,00/13/2024)"
      { module_name := "PokeStats", status := "fail", latency := "9".toList,
        date := "00/13/2024".toList } (by decide) (by decide)).1⟩

/-- Claim C6, as amended. For every day bucket whose latency list is non-empty
and whose latencies, as written in the lines, have a sum `s` with
`200 * s < 2 ^ 53`, the average latency that `checkLatency` prints in the row of
that day is the arithmetic mean (sum divided by count) of exactly the latencies
of the events of that day, displayed rounded to two decimals (a nearest
multiple of 1/100 of the mean) with the suffix `ms`. -/
theorem checkLatency_average (currentDate : DateTime) (logs : List String)
    (options : LatencyOptions) (m : String) (rest : List String) (a b : Int)
    (k : ℕ) (hpos : options.positional = m :: rest) (hm : m ∈ modulesNames)
    (ha : options.startDate currentDate = DateTime.valid a)
    (hb : options.endDate currentDate = DateTime.valid b)
    (hk : a + k ≤ b)
    (hne : logs.filterMap (writtenLatency m (a + k)) ≠ [])
    (hsum : 200 * (logs.filterMap (writtenLatency m (a + k))).sum < 2 ^ 53) :
    ∃ h : ℕ,
      (checkLatency currentDate logs options)[k + 1]? =
        some (Effect.log [LogArg.date (DateTime.valid (a + k)),
          LogArg.text (fixedText h ++ "ms")]) ∧
      |(h : ℚ) / 100 - ((logs.filterMap (writtenLatency m (a + k))).sum : ℚ) /
          ((logs.filterMap (writtenLatency m (a + k))).length : ℚ)| ≤ 1 / 200 := by
  have hlen : 0 < (logs.filterMap (writtenLatency m (a + k))).length := List.length_pos.2 hne
  have hs : (logs.filterMap (writtenLatency m (a + k))).sum ≤ 2 ^ 53 := by omega
  refine ⟨toFixedHundredths (roundDouble
    (((logs.filterMap (writtenLatency m (a + k))).sum : ℚ) /
      ((logs.filterMap (writtenLatency m (a + k))).length : ℚ))), ?_,
    toFixedHundredths_roundDouble_div _ _ hlen hsum⟩
  rw [checkLatency_of_valid currentDate logs options m rest a b hpos hm ha hb (by omega)]
  have hkn : k < (b - a + 1).toNat := by omega
  rw [List.getElem?_cons_succ, List.getElem?_map, List.getElem?_range hkn]
  simp only [Option.map_some', filterMap_eventLatency, map_toNumber_of_sum_le _ hs,
    averageLatency_of_exact hne hs, Option.getD_some,
    toFixed2_of_lt (roundDouble_div_lt _ _ hlen hs)]

theorem checkLatency_average_witness :
    (∃ h : ℕ,
      (checkLatency (DateTime.valid 739400)
        ["PokeAPI (success,120ms,01/03/2024)", "PokeAPI (fail,80ms,01/03/2024)"]
        { positional := ["PokeAPI"], start := some "01/03/2024",
          finish := some "01/03/2024" })[0 + 1]? =
        some (Effect.log [LogArg.date (DateTime.valid (739311 + (0 : ℕ))),
          LogArg.text (fixedText h ++ "ms")]) ∧
      |(h : ℚ) / 100 -
        ((["PokeAPI (success,120ms,01/03/2024)", "PokeAPI (fail,80ms,01/03/2024)"].filterMap
          (writtenLatency "PokeAPI" (739311 + (0 : ℕ)))).sum : ℚ) /
        ((["PokeAPI (success,120ms,01/03/2024)", "PokeAPI (fail,80ms,01/03/2024)"].filterMap
          (writtenLatency "PokeAPI" (739311 + (0 : ℕ)))).length : ℚ)| ≤ 1 / 200) ∧
    checkLatency (DateTime.valid 739400)
        ["PokeAPI (success,120ms,01/03/2024)", "PokeAPI (fail,80ms,01/03/2024)"]
        { positional := ["PokeAPI"], start := some "01/03/2024", finish := some "01/03/2024" } =
      [Effect.scrap (DateTime.valid 739311) 1 "logs.txt",
       Effect.log [LogArg.date (DateTime.valid 739311), LogArg.text "100.00ms"]] := by
  refine ⟨checkLatency_average (DateTime.valid 739400)
    ["PokeAPI (success,120ms,01/03/2024)", "PokeAPI (fail,80ms,01/03/2024)"]
    { positional := ["PokeAPI"], start := some "01/03/2024", finish := some "01/03/2024" }
    "PokeAPI" [] 739311 739311 0 rfl (by decide)
    (by decide) (by decide) (by decide) (by decide) (by decide), ?_⟩
  rw [checkLatency_of_valid (DateTime.valid 739400) _ _ "PokeAPI" [] 739311 739311 rfl
    (by decide) (by decide) (by decide) (by decide)]
  have hb : ["PokeAPI (success,120ms,01/03/2024)", "PokeAPI (fail,80ms,01/03/2024)"].filterMap
      (eventLatency "PokeAPI" (739311 + ((0 : ℕ) : ℤ))) =
      ([120, 80] : List ℕ).map (fun v : ℕ => Number.finite (v : ℚ)) := by decide
  have hd : roundDouble ((([120, 80] : List ℕ).sum : ℚ) / (([120, 80] : List ℕ).length : ℚ)) =
      100 := by
    have := roundDouble_natCast 100 (by norm_num)
    norm_num at this ⊢
    exact this
  have hr : (739311 : ℤ) - 739311 + 1 = ((1 : ℕ) : ℤ) := by norm_num
  rw [hr, Int.toNat_ofNat]
  simp only [List.range_succ, List.range_zero, List.nil_append, List.map_cons, List.map_nil]
  rw [hb, averageLatency_of_exact (by decide) (by decide), hd, toFixed2_hundred]
  rfl

/-- Counterexample to claim C6 as stated: for the latencies 3002399751580331,
3002399751580331 and 3002399751580332 of one day, whose mean is
3002399751580331.33..., `checkLatency` prints `3002399751580331.50ms`.  The
quotient is a binary64 value, and the binary64 values near `3 * 10 ^ 15` are the
multiples of 1/2. -/
theorem checkLatency_average_large_latencies :
    checkLatency (DateTime.valid 739400)
        ["PokeAPI (success,3002399751580331ms,01/03/2024)",
         "PokeAPI (fail,3002399751580331ms,01/03/2024)",
         "PokeAPI (success,3002399751580332ms,01/03/2024)"]
        { positional := ["PokeAPI"], start := some "01/03/2024", finish := some "01/03/2024" } =
      [Effect.scrap (DateTime.valid 739311) 1 "logs.txt",
       Effect.log [LogArg.date (DateTime.valid 739311),
         LogArg.text "3002399751580331.50ms"]] ∧
    ["PokeAPI (success,3002399751580331ms,01/03/2024)",
     "PokeAPI (fail,3002399751580331ms,01/03/2024)",
     "PokeAPI (success,3002399751580332ms,01/03/2024)"].filterMap
        (writtenLatency "PokeAPI" 739311) =
      [3002399751580331, 3002399751580331, 3002399751580332] ∧
    fixedText 300239975158033150 = "3002399751580331.50" ∧
    ¬ |(300239975158033150 : ℚ) / 100 -
        ((3002399751580331 + 3002399751580331 + 3002399751580332 : ℕ) : ℚ) / 3| ≤ 1 / 200 := by
  have hw : ["PokeAPI (success,3002399751580331ms,01/03/2024)",
      "PokeAPI (fail,3002399751580331ms,01/03/2024)",
      "PokeAPI (success,3002399751580332ms,01/03/2024)"].filterMap
        (writtenLatency "PokeAPI" 739311) =
      [3002399751580331, 3002399751580331, 3002399751580332] := by decide
  refine ⟨checkLatency_single_day _ _ _ ?_ averageLatency_large, hw, by decide, ?_⟩
  · rw [filterMap_eventLatency, hw, map_toNumber_of_le _ (by decide)]
    simp only [List.map_cons, List.map_nil, Nat.cast_ofNat]
  · rw [abs_le]
    norm_num

/-- Claim C7. For every day bucket with success + fail > 0, the availability that
`checkAvailability` prints in the row of that day is the value of
`success / (success + fail) * 100` (in binary64 arithmetic, within a relative
error of `2 ^ (-51)` of the exact percentage) and lies in the closed interval
`[0, 100]`; it is 100 exactly when fail = 0 and 0 exactly when success = 0.
The counts are below `2 ^ 53`, where doubles are exact on them. -/
theorem checkAvailability_percentage (today : Int) (logs : List String)
    (options : PeriodOptions) (m : String) (rest : List String) (k s f : ℕ)
    (hpos : options.positional = m :: rest) (hm : m ∈ modulesNames)
    (hk : (k : ℤ) < resolveDays options)
    (hs : s = logs.countP (isEvent m "success" (today + -(resolveDays options - 1) + (k : ℤ))))
    (hf : f = logs.countP (isEvent m "fail" (today + -(resolveDays options - 1) + (k : ℤ))))
    (hpos1 : 0 < s + f) (hlt : s + f < 2 ^ 53) :
    ∃ v : ℚ,
      (checkAvailability (DateTime.valid today) logs options)[k + 1]? =
        some (Effect.log [LogArg.date (DateTime.valid (today + -(resolveDays options - 1) + k)),
          LogArg.number v]) ∧
      |v - (s : ℚ) / ((s + f : ℕ) : ℚ) * 100| ≤ (s : ℚ) / ((s + f : ℕ) : ℚ) * 100 / 2 ^ 51 ∧
      0 ≤ v ∧ v ≤ 100 ∧ (v = 100 ↔ f = 0) ∧ (v = 0 ↔ s = 0) := by
  refine ⟨jsMul (roundDouble ((s : ℚ) / ((s + f : ℕ) : ℚ))) 100, ?_, percentage_spec s f hpos1 hlt⟩
  rw [checkAvailability_of_known today logs options m rest hpos hm (by omega)]
  have hkn : k < (resolveDays options).toNat := by omega
  rw [List.getElem?_cons_succ, List.getElem?_map, List.getElem?_range hkn]
  simp only [Option.map_some', ← hs, ← hf, availability_of_pos hpos1, Option.getD_some]

theorem checkAvailability_percentage_witness :
    (∃ v : ℚ,
      (checkAvailability (DateTime.valid 739311)
        ["PokeAPI (success,120ms,01/03/2024)", "PokeAPI (fail,80ms,01/03/2024)"]
        { positional := ["PokeAPI"], LastNthDays := NthDays.absent, Last3Days := false,
          Last30Days := false, Latency := false })[6 + 1]? =
        some (Effect.log [LogArg.date (DateTime.valid (739311 + -(resolveDays
          { positional := ["PokeAPI"], LastNthDays := NthDays.absent, Last3Days := false,
            Last30Days := false, Latency := false } - 1) + (6 : ℕ))),
          LogArg.number v]) ∧
      |v - ((1 : ℕ) : ℚ) / ((1 + 1 : ℕ) : ℚ) * 100| ≤
        ((1 : ℕ) : ℚ) / ((1 + 1 : ℕ) : ℚ) * 100 / 2 ^ 51 ∧
      0 ≤ v ∧ v ≤ 100 ∧ (v = 100 ↔ 1 = 0) ∧ (v = 0 ↔ 1 = 0)) ∧
    (checkAvailability (DateTime.valid 739311)
        ["PokeAPI (success,120ms,01/03/2024)", "PokeAPI (fail,80ms,01/03/2024)"]
        { positional := ["PokeAPI"], LastNthDays := NthDays.absent, Last3Days := false,
          Last30Days := false, Latency := false })[7]? =
      some (Effect.log [LogArg.date (DateTime.valid 739311), LogArg.number 50]) := by
  refine ⟨checkAvailability_percentage 739311
    ["PokeAPI (success,120ms,01/03/2024)", "PokeAPI (fail,80ms,01/03/2024)"]
    { positional := ["PokeAPI"], LastNthDays := NthDays.absent, Last3Days := false,
      Last30Days := false, Latency := false } "PokeAPI" [] 6 1 1 rfl (by decide) (by decide)
    (by decide) (by decide) (by decide) (by decide), ?_⟩
  rw [checkAvailability_of_known 739311 _ _ "PokeAPI" [] rfl (by decide) (by decide)]
  have hr : resolveDays
      { positional := ["PokeAPI"], LastNthDays := NthDays.absent, Last3Days := false,
        Last30Days := false, Latency := false } = ((7 : ℕ) : ℤ) := by decide
  rw [hr, Int.toNat_ofNat, List.getElem?_cons_succ, List.getElem?_map,
    List.getElem?_range (by decide)]
  have h1 : ["PokeAPI (success,120ms,01/03/2024)", "PokeAPI (fail,80ms,01/03/2024)"].countP
      (isEvent "PokeAPI" "success" (739311 + -(((7 : ℕ) : ℤ) - 1) + ((6 : ℕ) : ℤ))) = 1 := by
    decide
  have h2 : ["PokeAPI (success,120ms,01/03/2024)", "PokeAPI (fail,80ms,01/03/2024)"].countP
      (isEvent "PokeAPI" "fail" (739311 + -(((7 : ℕ) : ℤ) - 1) + ((6 : ℕ) : ℤ))) = 1 := by
    decide
  simp only [Option.map_some', h1, h2]
  rw [availability_of_pos (by decide), percentage_half]
  rfl

/-- Claim C8, as amended. For every result of `scrapDataFromLogs`, every known
module and every day offset of the window with `success[offset] = 0` and
`fail[offset] = 0`, the day has no latency samples, `checkLatency` and
`checkAvailability` print the text `desconocido` in the row of that day, and
`renderGraph` plots the number 0 for that day (four times) in its latency mode
and in its availability mode; for every day, empty or not, the rows and the
plotted series are defined, so that no division by zero is performed. -/
theorem empty_bucket_metrics (start : Int) (n : ℕ) (lines : List String) (m : String) (k : ℕ)
    (data : Data) (api : APIData) (hm : m ∈ modulesNames) (hk : k < n)
    (hdata : scrapDataFromLogs (DateTime.valid start) n lines = some data)
    (hapi : data.get? m = some api)
    (hs : api.success[k]? = some 0) (hf : api.fail[k]? = some 0) :
    api.latency[k]? = some [] ∧
    latencyRow data m (DateTime.valid start) k =
      some (Effect.log [LogArg.date (DateTime.valid (start + k)), LogArg.text "desconocido"]) ∧
    availabilityRow data m (DateTime.valid start) k =
      some (Effect.log [LogArg.date (DateTime.valid (start + k)), LogArg.text "desconocido"]) ∧
    (∀ latencyOption : Bool, ∃ series : List Number,
      graphData api n latencyOption = some series ∧
      ∀ i, i < 4 → series[4 * k + i]? = some 0) ∧
    ∀ j, j < n →
      (latencyRow data m (DateTime.valid start) j).isSome = true ∧
      (availabilityRow data m (DateTime.valid start) j).isSome = true := by
  obtain ⟨data1, hdata1, hlen, hspec⟩ := scrapDataFromLogs_spec start n lines
  rw [hdata] at hdata1
  cases hdata1
  obtain ⟨api1, hapi1, hb⟩ := hspec m hm
  rw [hapi] at hapi1
  cases hapi1
  obtain ⟨b1, b2, b3⟩ := hb k hk
  have hs0 : lines.countP (isEvent m "success" (start + k)) = 0 := by
    rw [b1] at hs; exact (Option.some.inj hs)
  have hf0 : lines.countP (isEvent m "fail" (start + k)) = 0 := by
    rw [b2] at hf; exact (Option.some.inj hf)
  have hnil : lines.filterMap (eventLatency m (start + k)) = [] := by
    apply List.length_eq_zero.1
    rw [length_filterMap_eventLatency, hs0, hf0]
  have hlat : api.latency[k]? = some [] := by rw [b3, hnil]
  refine ⟨hlat, ?_, ?_, ?_, ?_⟩
  · rw [latencyRow_of_bucket hapi hlat]; rfl
  · rw [availabilityRow_of_bucket hapi hs hf]; rfl
  · intro latencyOption
    obtain ⟨perDay, _, hg, hper⟩ := graphData_spec api n (hlen.get? hapi) latencyOption
    refine ⟨_, hg, fun i hi => ?_⟩
    rw [getElem?_flatMap_replicate_four _ _ _ hi, hper k hk]
    cases latencyOption with
    | true => simp only [if_true, hlat, Option.some_bind]; rfl
    | false =>
      simp only [Bool.false_eq_true, if_false]
      rw [availabilityOfDay_of_counts hs hf]
      rfl
  · intro j hj
    obtain ⟨c1, c2, c3⟩ := hb j hj
    rw [latencyRow_of_bucket hapi c3, availabilityRow_of_bucket hapi c1 c2]
    exact ⟨rfl, rfl⟩

theorem empty_bucket_metrics_witness :
    (APIData.new 3).latency[0]? = some [] ∧
    latencyRow (Data.new 3) "PokeAPI" (DateTime.valid 739320) 0 =
      some (Effect.log [LogArg.date (DateTime.valid (739320 + (0 : ℕ))),
        LogArg.text "desconocido"]) ∧
    availabilityRow (Data.new 3) "PokeAPI" (DateTime.valid 739320) 0 =
      some (Effect.log [LogArg.date (DateTime.valid (739320 + (0 : ℕ))),
        LogArg.text "desconocido"]) ∧
    (∀ latencyOption : Bool, ∃ series : List Number,
      graphData (APIData.new 3) 3 latencyOption = some series ∧
      ∀ i, i < 4 → series[4 * 0 + i]? = some 0) ∧
    ∀ j, j < 3 →
      (latencyRow (Data.new 3) "PokeAPI" (DateTime.valid 739320) j).isSome = true ∧
      (availabilityRow (Data.new 3) "PokeAPI" (DateTime.valid 739320) j).isSome = true :=
  empty_bucket_metrics 739320 3 ["PokeAPI (success,120ms,09/03/2024)"] "PokeAPI" 0
    (Data.new 3) (APIData.new 3) (by decide) (by decide) (by decide) (by decide) (by decide)
    (by decide)

/-- Counterexample to claim C8 as stated: for a day without traffic `renderGraph`
does not yield the text `desconocido` but plots the number 0, in its latency mode
and in its availability mode. -/
theorem renderGraph_empty_day_plots_zero :
    (renderGraph (DateTime.valid 739311) []
      { positional := ["PokeAPI"], LastNthDays := NthDays.value 1, Last3Days := false,
        Last30Days := false, Latency := true })[3]? =
      some (Effect.log [LogArg.chart [0, 0, 0, 0] 8]) ∧
    (renderGraph (DateTime.valid 739311) []
      { positional := ["PokeAPI"], LastNthDays := NthDays.value 1, Last3Days := false,
        Last30Days := false, Latency := false })[3]? =
      some (Effect.log [LogArg.chart [0, 0, 0, 0] 8]) ∧
    (checkAvailability (DateTime.valid 739311) []
      { positional := ["PokeAPI"], LastNthDays := NthDays.value 1, Last3Days := false,
        Last30Days := false, Latency := false })[1]? =
      some (Effect.log [LogArg.date (DateTime.valid 739311), LogArg.text "desconocido"]) := by
  refine ⟨?_, ?_, ?_⟩ <;> rfl

/-- Claim C9, as amended. For every window and every two lists of log lines that
are permutations of each other, the results of `scrapDataFromLogs` have, for
every known module and every day offset, equal success and fail counts and
latency lists that are equal as multisets; the per-day availability derived from
them (the rows of `checkAvailability`, the series of `renderGraph`) is
identical, and so is the per-day average latency (the rows of `checkLatency`,
the latency series of `renderGraph`) of every day whose latencies, as written
in the lines, have a sum of at most `2 ^ 53`. -/
theorem scrapDataFromLogs_perm (start : Int) (n : ℕ) (lines1 lines2 : List String)
    (m : String) (hperm : lines1.Perm lines2) (hm : m ∈ modulesNames) :
    ∃ data1 api1 data2 api2,
      scrapDataFromLogs (DateTime.valid start) n lines1 = some data1 ∧
      data1.get? m = some api1 ∧
      scrapDataFromLogs (DateTime.valid start) n lines2 = some data2 ∧
      data2.get? m = some api2 ∧
      api1.success = api2.success ∧ api1.fail = api2.fail ∧
      (∀ k, k < n → ∃ l1 l2, api1.latency[k]? = some l1 ∧ api2.latency[k]? = some l2 ∧
        l1.Perm l2 ∧
        availabilityRow data1 m (DateTime.valid start) k =
          availabilityRow data2 m (DateTime.valid start) k ∧
        ((lines1.filterMap (writtenLatency m (start + k))).sum ≤ 2 ^ 53 →
          latencyRow data1 m (DateTime.valid start) k =
            latencyRow data2 m (DateTime.valid start) k ∧
          averageLatencyOfDay l1 = averageLatencyOfDay l2)) ∧
      graphData api1 n false = graphData api2 n false ∧
      ((∀ k, k < n → (lines1.filterMap (writtenLatency m (start + k))).sum ≤ 2 ^ 53) →
        graphData api1 n true = graphData api2 n true) := by
  obtain ⟨data1, hd1, hlen1, hspec1⟩ := scrapDataFromLogs_spec start n lines1
  obtain ⟨data2, hd2, hlen2, hspec2⟩ := scrapDataFromLogs_spec start n lines2
  obtain ⟨api1, hapi1, hb1⟩ := hspec1 m hm
  obtain ⟨api2, hapi2, hb2⟩ := hspec2 m hm
  have hl1 := hlen1.get? hapi1
  have hl2 := hlen2.get? hapi2
  have hsucc : api1.success = api2.success := by
    apply List.ext_getElem?
    intro k
    by_cases hk : k < n
    · rw [(hb1 k hk).1, (hb2 k hk).1, hperm.countP_eq]
    · rw [List.getElem?_eq_none (by rw [hl1.1]; omega),
        List.getElem?_eq_none (by rw [hl2.1]; omega)]
  have hfail : api1.fail = api2.fail := by
    apply List.ext_getElem?
    intro k
    by_cases hk : k < n
    · rw [(hb1 k hk).2.1, (hb2 k hk).2.1, hperm.countP_eq]
    · rw [List.getElem?_eq_none (by rw [hl1.2.1]; omega),
        List.getElem?_eq_none (by rw [hl2.2.1]; omega)]
  have hlatp : ∀ k, (lines1.filterMap (eventLatency m (start + k))).Perm
      (lines2.filterMap (eventLatency m (start + k))) := fun k => hperm.filterMap _
  have hwp : ∀ k, (lines1.filterMap (writtenLatency m (start + k))).Perm
      (lines2.filterMap (writtenLatency m (start + k))) := fun k => hperm.filterMap _
  have hgraph : ∀ latencyOption : Bool,
      (latencyOption = true →
        ∀ k, k < n → (lines1.filterMap (writtenLatency m (start + k))).sum ≤ 2 ^ 53) →
      graphData api1 n latencyOption = graphData api2 n latencyOption := by
    intro latencyOption hexact
    obtain ⟨p1, hp1, hg1, hv1⟩ := graphData_spec api1 n hl1 latencyOption
    obtain ⟨p2, hp2, hg2, hv2⟩ := graphData_spec api2 n hl2 latencyOption
    have hpe : p1 = p2 := by
      apply List.ext_getElem?
      intro k
      by_cases hk : k < n
      · rw [hv1 k hk, hv2 k hk]
        cases latencyOption with
        | true =>
          simp only [if_true, (hb1 k hk).2.2, (hb2 k hk).2.2, Option.some_bind]
          rw [filterMap_eventLatency, filterMap_eventLatency]
          exact averageLatencyOfDay_perm_of_exact (hwp k) (hexact rfl k hk)
        | false =>
          simp only [Bool.false_eq_true, if_false]
          rw [availabilityOfDay_of_counts (hb1 k hk).1 (hb1 k hk).2.1,
            availabilityOfDay_of_counts (hb2 k hk).1 (hb2 k hk).2.1, hperm.countP_eq,
            hperm.countP_eq]
      · rw [List.getElem?_eq_none (by omega), List.getElem?_eq_none (by omega)]
    rw [hg1, hg2, hpe]
  refine ⟨data1, api1, data2, api2, hd1, hapi1, hd2, hapi2, hsucc, hfail, ?_,
    hgraph false (fun h => absurd h (by decide)), fun hexact => hgraph true (fun _ => hexact)⟩
  intro k hk
  refine ⟨_, _, (hb1 k hk).2.2, (hb2 k hk).2.2, hlatp k, ?_, ?_⟩
  · rw [availabilityRow_of_bucket hapi1 (hb1 k hk).1 (hb1 k hk).2.1,
      availabilityRow_of_bucket hapi2 (hb2 k hk).1 (hb2 k hk).2.1, hperm.countP_eq,
      hperm.countP_eq]
  · intro hexact
    constructor
    · rw [latencyRow_of_bucket hapi1 (hb1 k hk).2.2, latencyRow_of_bucket hapi2 (hb2 k hk).2.2,
        filterMap_eventLatency, filterMap_eventLatency,
        averageLatency_perm_of_exact (hwp k) hexact]
    · rw [filterMap_eventLatency, filterMap_eventLatency]
      exact averageLatencyOfDay_perm_of_exact (hwp k) hexact

theorem scrapDataFromLogs_perm_witness :
    ∃ data1 api1 data2 api2,
      scrapDataFromLogs (DateTime.valid 739311) 2
        ["PokeAPI (success,120ms,01/03/2024)", "PokeAPI (fail,80ms,01/03/2024)",
         "PokeAPI (success,15ms,02/03/2024)"] = some data1 ∧
      data1.get? "PokeAPI" = some api1 ∧
      scrapDataFromLogs (DateTime.valid 739311) 2
        ["PokeAPI (success,15ms,02/03/2024)", "PokeAPI (fail,80ms,01/03/2024)",
         "PokeAPI (success,120ms,01/03/2024)"] = some data2 ∧
      data2.get? "PokeAPI" = some api2 ∧
      api1.success = api2.success ∧ api1.fail = api2.fail ∧
      (∀ k, k < 2 → latencyRow data1 "PokeAPI" (DateTime.valid 739311) k =
          latencyRow data2 "PokeAPI" (DateTime.valid 739311) k ∧
        availabilityRow data1 "PokeAPI" (DateTime.valid 739311) k =
          availabilityRow data2 "PokeAPI" (DateTime.valid 739311) k) ∧
      ∀ latencyOption : Bool, graphData api1 2 latencyOption = graphData api2 2 latencyOption := by
  obtain ⟨data1, api1, data2, api2, h1, h2, h3, h4, h5, h6, h7, h8, h9⟩ :=
    scrapDataFromLogs_perm 739311 2
      ["PokeAPI (success,120ms,01/03/2024)", "PokeAPI (fail,80ms,01/03/2024)",
       "PokeAPI (success,15ms,02/03/2024)"]
      ["PokeAPI (success,15ms,02/03/2024)", "PokeAPI (fail,80ms,01/03/2024)",
       "PokeAPI (success,120ms,01/03/2024)"]
      "PokeAPI" (by decide) (by decide)
  have hexact : ∀ k : ℕ, k < 2 →
      (["PokeAPI (success,120ms,01/03/2024)", "PokeAPI (fail,80ms,01/03/2024)",
        "PokeAPI (success,15ms,02/03/2024)"].filterMap
          (writtenLatency "PokeAPI" (739311 + (k : ℤ)))).sum ≤ 2 ^ 53 := by
    intro k hk
    interval_cases k <;> decide
  refine ⟨data1, api1, data2, api2, h1, h2, h3, h4, h5, h6, ?_, ?_⟩
  · intro k hk
    obtain ⟨l1, l2, _, _, _, hav, hlat⟩ := h7 k hk
    exact ⟨(hlat (hexact k hk)).1, hav⟩
  · intro latencyOption
    cases latencyOption with
    | false => exact h8
    | true => exact h9 hexact

/-- Counterexample to claim C9 as stated: two logs with the same three lines in a
different order, with the latencies `2 ^ 53`, 1, 1 of one day.  `reduce` adds from
left to right in binary64: after `2 ^ 53` each addition of 1 is lost, after
1 + 1 the sum is exact, and `checkLatency` prints two different averages. -/
theorem checkLatency_depends_on_line_order :
    ["PokeAPI (success,9007199254740992ms,01/03/2024)", "PokeAPI (success,1ms,01/03/2024)",
      "PokeAPI (fail,1ms,01/03/2024)"].Perm
      ["PokeAPI (success,1ms,01/03/2024)", "PokeAPI (fail,1ms,01/03/2024)",
        "PokeAPI (success,9007199254740992ms,01/03/2024)"] ∧
    checkLatency (DateTime.valid 739400)
        ["PokeAPI (success,9007199254740992ms,01/03/2024)", "PokeAPI (success,1ms,01/03/2024)",
         "PokeAPI (fail,1ms,01/03/2024)"]
        { positional := ["PokeAPI"], start := some "01/03/2024", finish := some "01/03/2024" } =
      [Effect.scrap (DateTime.valid 739311) 1 "logs.txt",
       Effect.log [LogArg.date (DateTime.valid 739311),
         LogArg.text "3002399751580330.50ms"]] ∧
    checkLatency (DateTime.valid 739400)
        ["PokeAPI (success,1ms,01/03/2024)", "PokeAPI (fail,1ms,01/03/2024)",
         "PokeAPI (success,9007199254740992ms,01/03/2024)"]
        { positional := ["PokeAPI"], start := some "01/03/2024", finish := some "01/03/2024" } =
      [Effect.scrap (DateTime.valid 739311) 1 "logs.txt",
       Effect.log [LogArg.date (DateTime.valid 739311),
         LogArg.text "3002399751580331.50ms"]] := by
  have hw1 : ["PokeAPI (success,9007199254740992ms,01/03/2024)",
      "PokeAPI (success,1ms,01/03/2024)", "PokeAPI (fail,1ms,01/03/2024)"].filterMap
        (writtenLatency "PokeAPI" 739311) = [9007199254740992, 1, 1] := by decide
  have hw2 : ["PokeAPI (success,1ms,01/03/2024)", "PokeAPI (fail,1ms,01/03/2024)",
      "PokeAPI (success,9007199254740992ms,01/03/2024)"].filterMap
        (writtenLatency "PokeAPI" 739311) = [1, 1, 9007199254740992] := by decide
  refine ⟨@List.perm_append_comm _ ["PokeAPI (success,9007199254740992ms,01/03/2024)"] _,
    checkLatency_single_day _ _ _ ?_ averageLatency_large_first,
    checkLatency_single_day _ _ _ ?_ averageLatency_large_last⟩
  · rw [filterMap_eventLatency, hw1, map_toNumber_of_le _ (by decide)]
    simp only [List.map_cons, List.map_nil, Nat.cast_ofNat, Nat.cast_one]
  · rw [filterMap_eventLatency, hw2, map_toNumber_of_le _ (by decide)]
    simp only [List.map_cons, List.map_nil, Nat.cast_ofNat, Nat.cast_one]

/-- Claim C10. For every argument list whose first positional argument is not
one of PokeAPI, PokeImages, PokeStats, each of `checkLatency`,
`checkAvailability` and `renderGraph` emits the unknown-module message that
lists the known modules, emits no report row and no chart, and never invokes
`scrapDataFromLogs` (`renderGraph` prints its options and its number of days
before the message, as it does on every call). -/
theorem unknown_module_no_report (currentDate : DateTime) (logs : List String)
    (latencyOptions : LatencyOptions) (periodOptions : PeriodOptions) (m : String)
    (rest : List String) (hm : m ∉ ["PokeAPI", "PokeImages", "PokeStats"])
    (h1 : latencyOptions.positional = m :: rest) (h2 : periodOptions.positional = m :: rest) :
    unknownModuleMessage =
      Effect.log [LogArg.text "Módulo no existe, tiene que ser uno de los siguientes",
        LogArg.text "PokeAPI, PokeImages, PokeStats"] ∧
    checkLatency currentDate logs latencyOptions = [unknownModuleMessage] ∧
    checkAvailability currentDate logs periodOptions = [unknownModuleMessage] ∧
    renderGraph currentDate logs periodOptions =
      [Effect.log [LogArg.optionsObject],
       Effect.log [LogArg.number (resolveDays periodOptions : ℚ)], unknownModuleMessage] ∧
    ∀ (startDate : DateTime) (periodLength : Int) (logsFile : String),
      Effect.scrap startDate periodLength logsFile ∉
        checkLatency currentDate logs latencyOptions ∧
      Effect.scrap startDate periodLength logsFile ∉
        checkAvailability currentDate logs periodOptions ∧
      Effect.scrap startDate periodLength logsFile ∉
        renderGraph currentDate logs periodOptions := by
  have hm1 : m ∉ modulesNames := hm
  have e1 : checkLatency currentDate logs latencyOptions = [unknownModuleMessage] := by
    unfold checkLatency
    rw [h1]
    simp only [if_neg hm1]
  have e2 : checkAvailability currentDate logs periodOptions = [unknownModuleMessage] := by
    unfold checkAvailability
    rw [h2]
    simp only [if_neg hm1]
  have e3 : renderGraph currentDate logs periodOptions =
      [Effect.log [LogArg.optionsObject],
       Effect.log [LogArg.number (resolveDays periodOptions : ℚ)], unknownModuleMessage] := by
    unfold renderGraph
    rw [h2]
    simp only [if_neg hm1]
  refine ⟨by decide, e1, e2, e3, fun startDate periodLength logsFile => ?_⟩
  rw [e1, e2, e3]
  simp [unknownModuleMessage]

theorem unknown_module_no_report_witness :
    checkLatency (DateTime.valid 739311) ["PokeAPI (success,120ms,01/03/2024)"]
      { positional := ["Unknown"], start := none, finish := none } = [unknownModuleMessage] ∧
    checkAvailability (DateTime.valid 739311) ["PokeAPI (success,120ms,01/03/2024)"]
      { positional := ["Unknown"], LastNthDays := NthDays.absent, Last3Days := false,
        Last30Days := false, Latency := false } = [unknownModuleMessage] ∧
    renderGraph (DateTime.valid 739311) ["PokeAPI (success,120ms,01/03/2024)"]
      { positional := ["Unknown"], LastNthDays := NthDays.absent, Last3Days := false,
        Last30Days := false, Latency := false } =
      [Effect.log [LogArg.optionsObject], Effect.log [LogArg.number 7], unknownModuleMessage] :=
  have h := unknown_module_no_report (DateTime.valid 739311)
    ["PokeAPI (success,120ms,01/03/2024)"]
    { positional := ["Unknown"], start := none, finish := none }
    { positional := ["Unknown"], LastNthDays := NthDays.absent, Last3Days := false,
      Last30Days := false, Latency := false } "Unknown" [] (by decide) rfl rfl
  ⟨h.2.1, h.2.2.1, h.2.2.2.1⟩

/-- Claim C11. For every known module and every pair of caller-supplied dates,
`checkLatency` emits an error message and performs no aggregation if and only
if the start date is invalid, or the end date is invalid, or the end date is
strictly earlier than the start date; in particular end = start is accepted,
and end < start always yields the invalid-range message with no report rows. -/
theorem checkLatency_date_errors (currentDate : DateTime) (logs : List String)
    (options : LatencyOptions) (m : String) (rest : List String)
    (hpos : options.positional = m :: rest) (hm : m ∈ modulesNames) :
    ((∃ message ∈ ["Fecha inicio inválida tiene que ser de la forma (02/09/2023)",
          "Fecha fin inválida tiene que ser de la forma (02/09/2023)",
          "La fecha inicio es después de la fecha fin"],
        checkLatency currentDate logs options = [Effect.log [LogArg.text message]]) ↔
      (options.startDate currentDate = DateTime.invalid ∨
        options.endDate currentDate = DateTime.invalid ∨
        ∃ a b, options.startDate currentDate = DateTime.valid a ∧
          options.endDate currentDate = DateTime.valid b ∧ b < a)) ∧
    ((∀ (startDate : DateTime) (periodLength : Int) (logsFile : String),
        Effect.scrap startDate periodLength logsFile ∉ checkLatency currentDate logs options) ↔
      (options.startDate currentDate = DateTime.invalid ∨
        options.endDate currentDate = DateTime.invalid ∨
        ∃ a b, options.startDate currentDate = DateTime.valid a ∧
          options.endDate currentDate = DateTime.valid b ∧ b < a)) ∧
    (∀ a b, options.startDate currentDate = DateTime.valid a →
      options.endDate currentDate = DateTime.valid b → b < a →
      checkLatency currentDate logs options =
        [Effect.log [LogArg.text "La fecha inicio es después de la fecha fin"]]) ∧
    (∀ a, options.startDate currentDate = DateTime.valid a →
      options.endDate currentDate = DateTime.valid a →
      (checkLatency currentDate logs options)[0]? =
        some (Effect.scrap (DateTime.valid a) 1 "logs.txt")) := by
  have key : (options.startDate currentDate = DateTime.invalid ∨
        options.endDate currentDate = DateTime.invalid ∨
        ∃ a b, options.startDate currentDate = DateTime.valid a ∧
          options.endDate currentDate = DateTime.valid b ∧ b < a) ∨
      ∃ a b, options.startDate currentDate = DateTime.valid a ∧
        options.endDate currentDate = DateTime.valid b ∧ a ≤ b := by
    cases ha : options.startDate currentDate with
    | invalid => exact Or.inl (Or.inl rfl)
    | valid a =>
      cases hb : options.endDate currentDate with
      | invalid => exact Or.inl (Or.inr (Or.inl rfl))
      | valid b =>
        rcases lt_or_le b a with h | h
        · exact Or.inl (Or.inr (Or.inr ⟨a, b, rfl, rfl, h⟩))
        · exact Or.inr ⟨a, b, rfl, rfl, h⟩
  have hrej : (options.startDate currentDate = DateTime.invalid ∨
        options.endDate currentDate = DateTime.invalid ∨
        ∃ a b, options.startDate currentDate = DateTime.valid a ∧
          options.endDate currentDate = DateTime.valid b ∧ b < a) →
      ∃ message ∈ ["Fecha inicio inválida tiene que ser de la forma (02/09/2023)",
          "Fecha fin inválida tiene que ser de la forma (02/09/2023)",
          "La fecha inicio es después de la fecha fin"],
        checkLatency currentDate logs options = [Effect.log [LogArg.text message]] := by
    intro h
    cases ha : options.startDate currentDate with
    | invalid =>
      exact ⟨_, by simp, checkLatency_of_invalid_start currentDate logs options m rest hpos hm ha⟩
    | valid a =>
      cases hb : options.endDate currentDate with
      | invalid =>
        exact ⟨_, by simp,
          checkLatency_of_invalid_end currentDate logs options m rest a hpos hm ha hb⟩
      | valid b =>
        rcases h with h | h | ⟨a1, b1, h1, h2, h3⟩
        · rw [ha] at h; cases h
        · rw [hb] at h; cases h
        · rw [ha] at h1; rw [hb] at h2
          cases h1; cases h2
          exact ⟨_, by simp,
            checkLatency_of_reversed currentDate logs options m rest a b hpos hm ha hb h3⟩
  have hacc : ∀ a b, options.startDate currentDate = DateTime.valid a →
      options.endDate currentDate = DateTime.valid b → a ≤ b →
      (checkLatency currentDate logs options)[0]? =
        some (Effect.scrap (DateTime.valid a) (b - a + 1) "logs.txt") := by
    intro a b ha hb hab
    rw [checkLatency_of_valid currentDate logs options m rest a b hpos hm ha hb hab,
      List.getElem?_cons_zero]
  refine ⟨⟨?_, hrej⟩, ⟨?_, ?_⟩, ?_, ?_⟩
  · rintro ⟨message, _, hmsg⟩
    rcases key with h | ⟨a, b, ha, hb, hab⟩
    · exact h
    · have := hacc a b ha hb hab
      rw [hmsg] at this
      simp at this
  · intro hno
    rcases key with h | ⟨a, b, ha, hb, hab⟩
    · exact h
    · exact absurd (List.getElem?_mem (hacc a b ha hb hab)) (hno _ _ _)
  · intro h startDate periodLength logsFile
    obtain ⟨message, _, hmsg⟩ := hrej h
    rw [hmsg]
    simp
  · intro a b ha hb hab
    exact checkLatency_of_reversed currentDate logs options m rest a b hpos hm ha hb hab
  · intro a ha hb
    have := hacc a a ha hb (le_refl a)
    simpa using this

theorem checkLatency_date_errors_witness :
    checkLatency (DateTime.valid 739400) ["PokeAPI (success,120ms,01/03/2024)"]
        { positional := ["PokeAPI"], start := some "02/03/2024", finish := some "01/03/2024" } =
      [Effect.log [LogArg.text "La fecha inicio es después de la fecha fin"]] ∧
    (checkLatency (DateTime.valid 739400) ["PokeAPI (success,120ms,01/03/2024)"]
        { positional := ["PokeAPI"], start := some "01/03/2024",
          finish := some "01/03/2024" })[0]? =
      some (Effect.scrap (DateTime.valid 739311) 1 "logs.txt") :=
  ⟨(checkLatency_date_errors (DateTime.valid 739400) ["PokeAPI (success,120ms,01/03/2024)"]
      { positional := ["PokeAPI"], start := some "02/03/2024", finish := some "01/03/2024" }
      "PokeAPI" [] rfl (by decide)).2.2.1 739312 739311 (by decide) (by decide) (by decide),
   (checkLatency_date_errors (DateTime.valid 739400) ["PokeAPI (success,120ms,01/03/2024)"]
      { positional := ["PokeAPI"], start := some "01/03/2024", finish := some "01/03/2024" }
      "PokeAPI" [] rfl (by decide)).2.2.2 739311 (by decide) (by decide)⟩

/-- Claim C12. For every known module and every valid start <= end,
`checkLatency` prints exactly (end - start in days) + 1 rows, in window order,
where row `k` (0-based) is labelled with the date start + `k` days and carries
the latency metric computed from exactly the log events of that module dated
start + `k` days; the first row is start and the last row is end. -/
theorem checkLatency_rows (currentDate : DateTime) (logs : List String)
    (options : LatencyOptions) (m : String) (rest : List String) (a b : Int)
    (hpos : options.positional = m :: rest) (hm : m ∈ modulesNames)
    (ha : options.startDate currentDate = DateTime.valid a)
    (hb : options.endDate currentDate = DateTime.valid b) (hab : a ≤ b) :
    ∃ rows : List Effect,
      checkLatency currentDate logs options =
        Effect.scrap (DateTime.valid a) (b - a + 1) "logs.txt" :: rows ∧
      (rows.length : Int) = b - a + 1 ∧
      (∀ k : ℕ, a + k ≤ b → ∃ text : String,
        averageLatency (logs.filterMap (eventLatency m (a + k))) = some text ∧
        rows[k]? = some (Effect.log [LogArg.date (DateTime.valid (a + k)), LogArg.text text])) ∧
      (∃ text : String,
        rows[0]? = some (Effect.log [LogArg.date (DateTime.valid a), LogArg.text text])) ∧
      ∃ text : String,
        rows[rows.length - 1]? =
          some (Effect.log [LogArg.date (DateTime.valid b), LogArg.text text]) := by
  have hrow : ∀ k : ℕ, a + k ≤ b →
      ((List.range (b - a + 1).toNat).map (fun k : ℕ =>
        Effect.log [LogArg.date (DateTime.valid (a + (k : ℤ))),
          LogArg.text ((averageLatency
            (logs.filterMap (eventLatency m (a + (k : ℤ))))).getD "")]))[k]? =
      some (Effect.log [LogArg.date (DateTime.valid (a + k)),
        LogArg.text ((averageLatency (logs.filterMap (eventLatency m (a + k)))).getD "")]) := by
    intro k hk
    rw [List.getElem?_map, List.getElem?_range (by omega)]
    rfl
  have hlen : ((List.range (b - a + 1).toNat).map (fun k : ℕ =>
        Effect.log [LogArg.date (DateTime.valid (a + (k : ℤ))),
          LogArg.text ((averageLatency
            (logs.filterMap (eventLatency m (a + (k : ℤ))))).getD "")])).length =
      (b - a + 1).toNat := by
    rw [List.length_map, List.length_range]
  refine ⟨_, checkLatency_of_valid currentDate logs options m rest a b hpos hm ha hb hab,
    ?_, ?_, ?_, ?_⟩
  · rw [hlen]; omega
  · intro k hk
    exact ⟨_, averageLatency_isSome _, hrow k hk⟩
  · have := hrow 0 (by simpa using hab)
    simp only [Nat.cast_zero, add_zero] at this
    exact ⟨_, this⟩
  · have := hrow (b - a).toNat (by omega)
    have e : a + ((b - a).toNat : ℤ) = b := by omega
    rw [e] at this
    rw [hlen]
    have e2 : (b - a + 1).toNat - 1 = (b - a).toNat := by omega
    rw [e2]
    exact ⟨_, this⟩

theorem checkLatency_rows_witness :
    ∃ rows : List Effect,
      checkLatency (DateTime.valid 739400)
        ["PokeAPI (success,120ms,01/03/2024)", "PokeAPI (fail,80ms,03/03/2024)"]
        { positional := ["PokeAPI"], start := some "01/03/2024", finish := some "03/03/2024" } =
        Effect.scrap (DateTime.valid 739311) (739313 - 739311 + 1) "logs.txt" :: rows ∧
      (rows.length : Int) = 739313 - 739311 + 1 ∧
      (∀ k : ℕ, (739311 : Int) + k ≤ 739313 → ∃ text : String,
        averageLatency
          (["PokeAPI (success,120ms,01/03/2024)", "PokeAPI (fail,80ms,03/03/2024)"].filterMap
            (eventLatency "PokeAPI" (739311 + k))) = some text ∧
        rows[k]? =
          some (Effect.log [LogArg.date (DateTime.valid (739311 + k)), LogArg.text text])) ∧
      (∃ text : String,
        rows[0]? = some (Effect.log [LogArg.date (DateTime.valid 739311), LogArg.text text])) ∧
      ∃ text : String,
        rows[rows.length - 1]? =
          some (Effect.log [LogArg.date (DateTime.valid 739313), LogArg.text text]) :=
  checkLatency_rows (DateTime.valid 739400)
    ["PokeAPI (success,120ms,01/03/2024)", "PokeAPI (fail,80ms,03/03/2024)"]
    { positional := ["PokeAPI"], start := some "01/03/2024", finish := some "03/03/2024" }
    "PokeAPI" [] 739311 739313 rfl (by decide) (by decide) (by decide) (by decide)

/-- Claim C13. For every resolved day count N >= 1 and every value of today, the
relative window built by `checkAvailability` and `renderGraph` has
start = today - (N - 1) days and length N, so its last day (offset N - 1) is
exactly today, and an event dated today lands in bucket N - 1 while an event
dated today + 1 or today - N is discarded; with no period option supplied N
is 7. -/
theorem relative_window (today : Int) (logs : List String) (options : PeriodOptions)
    (m : String) (rest : List String) (hpos : options.positional = m :: rest)
    (hm : m ∈ modulesNames) (hN : 1 ≤ resolveDays options) :
    (checkAvailability (DateTime.valid today) logs options)[0]? =
      some (Effect.scrap (DateTime.valid (today - (resolveDays options - 1)))
        (resolveDays options) "logs.txt") ∧
    (renderGraph (DateTime.valid today) logs options)[2]? =
      some (Effect.scrap (DateTime.valid (today - (resolveDays options - 1)))
        (resolveDays options) "logs.txt") ∧
    (DateTime.valid (today - (resolveDays options - 1))).plusDays (resolveDays options - 1) =
      DateTime.valid today ∧
    acceptedOffset (DateTime.valid (today - (resolveDays options - 1)))
      (resolveDays options).toNat (DateTime.valid today) =
        some ((resolveDays options).toNat - 1) ∧
    acceptedOffset (DateTime.valid (today - (resolveDays options - 1)))
      (resolveDays options).toNat (DateTime.valid (today + 1)) = none ∧
    acceptedOffset (DateTime.valid (today - (resolveDays options - 1)))
      (resolveDays options).toNat (DateTime.valid (today - resolveDays options)) = none ∧
    (∀ (data : Data) (line : String) (g : Groups), regexExec line.toList = some g →
      (fromFormat g.date = DateTime.valid today →
        lineHandler (DateTime.valid (today - (resolveDays options - 1)))
          (resolveDays options).toNat data line =
          (data.get? g.module_name).bind (fun api =>
            (api.record ((resolveDays options).toNat - 1) g.status (parseInt g.latency)).map
              (fun api1 => data.set g.module_name api1))) ∧
      (fromFormat g.date = DateTime.valid (today + 1) ∨
        fromFormat g.date = DateTime.valid (today - resolveDays options) →
        lineHandler (DateTime.valid (today - (resolveDays options - 1)))
          (resolveDays options).toNat data line = some data)) ∧
    (options.LastNthDays = NthDays.absent → options.Last3Days = false →
      options.Last30Days = false → resolveDays options = 7) := by
  have e : today + -(resolveDays options - 1) = today - (resolveDays options - 1) := by ring
  have h1 : acceptedOffset (DateTime.valid (today - (resolveDays options - 1)))
      (resolveDays options).toNat (DateTime.valid today) =
        some ((resolveDays options).toNat - 1) :=
    (acceptedOffset_valid _ _ _ _).2 ⟨by omega, by omega⟩
  have h2 : acceptedOffset (DateTime.valid (today - (resolveDays options - 1)))
      (resolveDays options).toNat (DateTime.valid (today + 1)) = none := by
    cases h : acceptedOffset (DateTime.valid (today - (resolveDays options - 1)))
      (resolveDays options).toNat (DateTime.valid (today + 1)) with
    | none => rfl
    | some k =>
      obtain ⟨a1, a2⟩ := (acceptedOffset_valid _ _ _ k).1 h
      omega
  have h3 : acceptedOffset (DateTime.valid (today - (resolveDays options - 1)))
      (resolveDays options).toNat (DateTime.valid (today - resolveDays options)) = none := by
    cases h : acceptedOffset (DateTime.valid (today - (resolveDays options - 1)))
      (resolveDays options).toNat (DateTime.valid (today - resolveDays options)) with
    | none => rfl
    | some k =>
      obtain ⟨a1, a2⟩ := (acceptedOffset_valid _ _ _ k).1 h
      omega
  refine ⟨?_, ?_, ?_, h1, h2, h3, ?_, resolveDays_of_no_option options⟩
  · obtain ⟨rows, hrows⟩ := checkAvailability_head (DateTime.valid today) logs options m rest
      hpos hm
    rw [hrows, List.getElem?_cons_zero]
    simp only [DateTime.plusDays, e]
  · obtain ⟨rows, hrows⟩ := renderGraph_head (DateTime.valid today) logs options m rest hpos hm
    rw [hrows]
    simp only [List.getElem?_cons_succ, List.getElem?_cons_zero, DateTime.plusDays, e]
  · simp only [DateTime.plusDays, DateTime.valid.injEq]
    ring
  · intro data line g hg
    constructor
    · intro hd
      exact lineHandler_of_accepted _ _ data line g hg _ (by rw [hd]; exact h1)
    · rintro (hd | hd)
      · exact lineHandler_of_not_accepted _ _ data line g hg (by rw [hd]; exact h2)
      · exact lineHandler_of_not_accepted _ _ data line g hg (by rw [hd]; exact h3)

theorem relative_window_witness :
    (checkAvailability (DateTime.valid 739311) ["PokeAPI (success,120ms,01/03/2024)"]
      { positional := ["PokeAPI"], LastNthDays := NthDays.absent, Last3Days := false,
        Last30Days := false, Latency := false })[0]? =
      some (Effect.scrap (DateTime.valid 739305) 7 "logs.txt") ∧
    (renderGraph (DateTime.valid 739311) ["PokeAPI (success,120ms,01/03/2024)"]
      { positional := ["PokeAPI"], LastNthDays := NthDays.absent, Last3Days := false,
        Last30Days := false, Latency := false })[2]? =
      some (Effect.scrap (DateTime.valid 739305) 7 "logs.txt") ∧
    acceptedOffset (DateTime.valid 739305) 7 (DateTime.valid 739311) = some 6 :=
  have h := relative_window 739311 ["PokeAPI (success,120ms,01/03/2024)"]
    { positional := ["PokeAPI"], LastNthDays := NthDays.absent, Last3Days := false,
      Last30Days := false, Latency := false } "PokeAPI" [] rfl (by decide) (by decide)
  ⟨h.1, h.2.1, h.2.2.2.1⟩

/-- Claim C14. For every combination of the options LastNthDays (absent, bare
flag, or a numeric value n), Last3Days and Last30Days, the day count resolved
by `checkAvailability` and `renderGraph` is 30 if Last30Days is set, otherwise
3 if Last3Days is set, otherwise n if a numeric LastNthDays was given,
otherwise 7; hence a shorthand flag overrides both the default of 7 and an
explicit N, and when both shorthands are set the result is 30. -/
theorem resolveDays_precedence (options : PeriodOptions) :
    resolveDays options =
      (if options.Last30Days = true then 30
       else if options.Last3Days = true then 3
       else match options.LastNthDays with
         | NthDays.value n => n
         | NthDays.flag => 7
         | NthDays.absent => 7) ∧
    (options.Last3Days = true → options.Last30Days = true → resolveDays options = 30) ∧
    (∀ (currentDate : DateTime) (logs : List String) (m : String) (rest : List String),
      options.positional = m :: rest → m ∈ modulesNames →
      (checkAvailability currentDate logs options)[0]? =
        some (Effect.scrap (currentDate.plusDays (-(resolveDays options - 1)))
          (resolveDays options) "logs.txt") ∧
      (renderGraph currentDate logs options)[1]? =
        some (Effect.log [LogArg.number (resolveDays options : ℚ)]) ∧
      (renderGraph currentDate logs options)[2]? =
        some (Effect.scrap (currentDate.plusDays (-(resolveDays options - 1)))
          (resolveDays options) "logs.txt")) := by
  refine ⟨?_, ?_, ?_⟩
  · unfold resolveDays
    cases options.Last30Days <;> cases options.Last3Days <;> cases options.LastNthDays <;> rfl
  · intro h1 h2
    unfold resolveDays
    simp [h1, h2]
  · intro currentDate logs m rest hpos hm
    obtain ⟨rows1, h1⟩ := checkAvailability_head currentDate logs options m rest hpos hm
    obtain ⟨rows2, h2⟩ := renderGraph_head currentDate logs options m rest hpos hm
    rw [h1, h2]
    simp only [List.getElem?_cons_succ, List.getElem?_cons_zero, and_self]

theorem resolveDays_precedence_witness :
    resolveDays
      { positional := ["PokeAPI"], LastNthDays := NthDays.value 12, Last3Days := true,
        Last30Days := true, Latency := false } = 30 ∧
    resolveDays
      { positional := ["PokeAPI"], LastNthDays := NthDays.value 12, Last3Days := true,
        Last30Days := false, Latency := false } = 3 ∧
    resolveDays
      { positional := ["PokeAPI"], LastNthDays := NthDays.value 12, Last3Days := false,
        Last30Days := false, Latency := false } = 12 ∧
    resolveDays
      { positional := ["PokeAPI"], LastNthDays := NthDays.flag, Last3Days := false,
        Last30Days := false, Latency := false } = 7 ∧
    (renderGraph (DateTime.valid 739311) []
      { positional := ["PokeStats"], LastNthDays := NthDays.value 12, Last3Days := true,
        Last30Days := false, Latency := false })[2]? =
      some (Effect.scrap (DateTime.valid 739309) 3 "logs.txt") :=
  ⟨(resolveDays_precedence _).1, (resolveDays_precedence _).1, (resolveDays_precedence _).1,
    (resolveDays_precedence _).1,
    ((resolveDays_precedence _).2.2 (DateTime.valid 739311) [] "PokeStats" [] rfl
      (by decide)).2.2⟩

/-- Claim C15, the code at the failing input. The help text (l. 368) marks
`--Last3Days` as the default of `CheckAvailability` and of `RenderGraph`, but
with a known module and no period option at all both commands cover the last 7
days: the window starts at today - 6 days, `checkAvailability` prints 7 rows
and `renderGraph` draws 7 ticks and plots 7 days. -/
theorem no_period_option_covers_seven_days :
    checkAvailability (DateTime.valid 739311) []
      { positional := ["PokeAPI"], LastNthDays := NthDays.absent, Last3Days := false,
        Last30Days := false, Latency := false } =
      [Effect.scrap (DateTime.valid 739305) 7 "logs.txt",
       Effect.log [LogArg.date (DateTime.valid 739305), LogArg.text "desconocido"],
       Effect.log [LogArg.date (DateTime.valid 739306), LogArg.text "desconocido"],
       Effect.log [LogArg.date (DateTime.valid 739307), LogArg.text "desconocido"],
       Effect.log [LogArg.date (DateTime.valid 739308), LogArg.text "desconocido"],
       Effect.log [LogArg.date (DateTime.valid 739309), LogArg.text "desconocido"],
       Effect.log [LogArg.date (DateTime.valid 739310), LogArg.text "desconocido"],
       Effect.log [LogArg.date (DateTime.valid 739311), LogArg.text "desconocido"]] ∧
    (renderGraph (DateTime.valid 739311) []
      { positional := ["PokeAPI"], LastNthDays := NthDays.absent, Last3Days := false,
        Last30Days := false, Latency := false }).take 5 =
      [Effect.log [LogArg.optionsObject], Effect.log [LogArg.number 7],
       Effect.scrap (DateTime.valid 739305) 7 "logs.txt",
       Effect.log [LogArg.chart (List.replicate 28 0) 8],
       Effect.log [LogArg.text "             ─┬───┬───┬───┬───┬───┬───┬"]] := by
  constructor
  · rfl
  · rfl

/-- Claim C16. For every well-formed record `r` of the shape
`<Module> (<outcome>,<latency>ms,<DD/MM/YYYY>)` and every prefix `p` and suffix
`s` that do not themselves introduce an earlier pattern match, processing the
line `p ++ r ++ s` in `scrapDataFromLogs` changes the accumulators exactly as
processing `r` alone does. -/
theorem lineHandler_surrounding_text (startDate : DateTime) (n : Nat)
    (g : Groups) (p s : List Char) (hg : IsRecord g)
    (hearlier : ∀ (before after : List Char) (g1 : Groups),
      p ++ (recordText g ++ s) = before ++ after → before.length < p.length →
      ¬ StartsWithRecord after g1) :
    regexExec (p ++ (recordText g ++ s)) = some g ∧
    regexExec (recordText g) = some g ∧
    (∀ data, lineHandler startDate n data (String.mk (p ++ (recordText g ++ s))) =
      lineHandler startDate n data (String.mk (recordText g))) ∧
    ∀ before after : List String,
      scrapDataFromLogs startDate n (before ++ String.mk (p ++ (recordText g ++ s)) :: after) =
        scrapDataFromLogs startDate n (before ++ String.mk (recordText g) :: after) := by
  have h1 : matchHere (recordText g ++ s) = some g := matchHere_complete ⟨hg, s, rfl⟩
  have h2 : matchHere (recordText g) = some g :=
    matchHere_complete ⟨hg, [], (List.append_nil _).symm⟩
  have e1 : regexExec (p ++ (recordText g ++ s)) = some g := by
    rw [regexExec_append_of_no_earlier p (recordText g ++ s) ?_ (by rw [h1]; rfl), h1]
    intro before after e hlt
    cases hm : matchHere after with
    | none => rfl
    | some g1 => exact absurd (matchHere_sound hm) (hearlier before after g1 e hlt)
  have e2 : regexExec (recordText g) = some g := by
    have := regexExec_append_of_no_earlier [] (recordText g)
      (fun before after _ hlt => absurd hlt (by simp)) (by rw [h2]; rfl)
    simpa [h2] using this
  have e3 : ∀ data, lineHandler startDate n data (String.mk (p ++ (recordText g ++ s))) =
      lineHandler startDate n data (String.mk (recordText g)) := by
    intro data
    unfold lineHandler
    simp only [String.toList, e1, e2]
  exact ⟨e1, e2, e3, scrapDataFromLogs_congr_line startDate n _ _ e3⟩

theorem lineHandler_surrounding_text_witness :
    regexExec "2024-03-01 INFO PokeAPI (success,120ms,01/03/2024) served".toList =
      some { module_name := "PokeAPI", status := "success", latency := "120".toList,
             date := "01/03/2024".toList } ∧
    lineHandler (DateTime.valid 739311) 1 (Data.new 1)
        "2024-03-01 INFO PokeAPI (success,120ms,01/03/2024) served" =
      lineHandler (DateTime.valid 739311) 1 (Data.new 1) "PokeAPI (success,120ms,01/03/2024)" := by
  have h := lineHandler_surrounding_text (DateTime.valid 739311) 1
    { module_name := "PokeAPI", status := "success", latency := "120".toList,
      date := "01/03/2024".toList } "2024-03-01 INFO ".toList " served".toList
    ⟨by decide, by decide, by decide, by decide,
      "01".toList, "03".toList, "2024".toList, by decide, by decide, by decide, by decide,
      by decide, by decide, by decide⟩
    (by
      have key : ∀ k, k < 16 → matchHere
          (("2024-03-01 INFO PokeAPI (success,120ms,01/03/2024) served".toList).drop k) = none := by
        intro k hk
        interval_cases k <;> decide
      intro before after g1 e hlt hstart
      have hm := matchHere_complete hstart
      have ha : after = ("2024-03-01 INFO PokeAPI (success,120ms,01/03/2024) served".toList).drop
          before.length := by
        have := congrArg (List.drop before.length) e
        simpa using this.symm
      rw [ha, key before.length hlt] at hm
      cases hm)
  exact ⟨h.1, h.2.2.1 (Data.new 1)⟩

/-- Claim C17. For every known module, window length L (at least one day) and
aggregated data, the numeric sequence that `renderGraph` hands to the plotter has
exactly 4 * L elements, and for every day `k` in `[0, L)` and `i` in `[0, 4)`
element `4k + i` equals the metric of day `k` (availability by default, average
latency when the Latency option is set); consequently the arithmetic mean of
the plotted sequence equals the arithmetic mean of the L per-day values.  The
fourth step of `renderGraph` is the call of the plotter on this sequence: the
chart is printed when the plotter returns one, and the run ends there when it
throws.  The values are finite in the availability mode, and in the latency
mode when the latencies written on each day have a sum of at most `2 ^ 53`; an
`Infinity` in the sequence is the metric of some day. -/
theorem renderGraph_series (today : Int) (logs : List String) (options : PeriodOptions)
    (m : String) (rest : List String) (hpos : options.positional = m :: rest)
    (hm : m ∈ modulesNames) (hdays : 1 ≤ resolveDays options) :
    ∃ (data : Data) (api : APIData) (perDay series : List Number),
      scrapDataFromLogs (DateTime.valid (today + -(resolveDays options - 1)))
        (resolveDays options).toNat logs = some data ∧
      data.get? m = some api ∧
      graphData api (resolveDays options).toNat options.Latency = some series ∧
      (renderGraph (DateTime.valid today) logs options)[3]? =
        some ((plot series 8).elim Effect.error (fun chart => Effect.log [chart])) ∧
      series.length = 4 * (resolveDays options).toNat ∧
      perDay.length = (resolveDays options).toNat ∧
      (∀ k, k < (resolveDays options).toNat →
        perDay[k]? =
          (if options.Latency then (api.latency[k]?).bind averageLatencyOfDay
           else availabilityOfDay api k) ∧
        ∀ i, i < 4 → series[4 * k + i]? = perDay[k]?) ∧
      (∀ values : List ℚ, series = values.map Number.finite →
        ∃ dayValues : List ℚ, perDay = dayValues.map Number.finite ∧
          values.sum / (values.length : ℚ) = dayValues.sum / (dayValues.length : ℚ)) ∧
      ((options.Latency = false ∨ ∀ k : ℕ, k < (resolveDays options).toNat →
          (logs.filterMap (writtenLatency m
            (today + -(resolveDays options - 1) + (k : ℤ)))).sum ≤ 2 ^ 53) →
        ∃ values : List ℚ, series = values.map Number.finite) ∧
      (Number.infinity ∈ series ↔ Number.infinity ∈ perDay) := by
  obtain ⟨data, api, perDay, hdata, hapi, hlen, hplen, hper, hg, herr, hok⟩ :=
    renderGraph_of_known today logs options m rest hpos hm (by omega)
  have hinf : Number.infinity ∈ perDay.flatMap (fun elem => List.replicate 4 elem) ↔
      Number.infinity ∈ perDay := by
    rw [← finiteValues_eq_none_iff, ← finiteValues_eq_none_iff,
      finiteValues_flatMap_replicate_four, Option.map_eq_none']
  refine ⟨data, api, perDay, perDay.flatMap (fun elem => List.replicate 4 elem), hdata, hapi, hg,
    ?_, ?_, hplen, ?_, ?_, ?_, hinf⟩
  · cases hplot : plot (perDay.flatMap (fun elem => List.replicate 4 elem)) 8 with
    | none =>
      rw [herr hplot]
      rfl
    | some chart =>
      rw [hok chart hplot]
      rfl
  · rw [length_flatMap_replicate_four, hplen]
  · intro k hk
    exact ⟨hper k hk, fun i hi => getElem?_flatMap_replicate_four perDay k i hi⟩
  · intro values hvalues
    have hfin : finiteValues (perDay.flatMap (fun elem => List.replicate 4 elem)) =
        some values := by
      rw [hvalues, finiteValues_map_finite]
    rw [finiteValues_flatMap_replicate_four, Option.map_eq_some'] at hfin
    obtain ⟨dayValues, hday, hflat⟩ := hfin
    refine ⟨dayValues, finiteValues_eq_some hday, ?_⟩
    rw [← hflat]
    exact mean_flatMap_replicate_four dayValues
  · intro hcases
    apply exists_map_finite
    intro x hx
    obtain ⟨k, hk, hxk⟩ := List.getElem_of_mem (mem_of_mem_flatMap_replicate_four hx)
    have hkn : k < (resolveDays options).toNat := by omega
    have hxk2 : perDay[k]? = some x := by rw [List.getElem?_eq_getElem hk, hxk]
    rw [hper k hkn] at hxk2
    cases hL : options.Latency with
    | false =>
      rw [hL] at hxk2
      simp only [Bool.false_eq_true, if_false] at hxk2
      exact availabilityOfDay_finite hxk2
    | true =>
      rcases hcases with hc | hc
      · rw [hL] at hc
        cases hc
      · rw [hL] at hxk2
        obtain ⟨data1, hdata1, _, hspec1⟩ := scrapDataFromLogs_spec
          (today + -(resolveDays options - 1)) (resolveDays options).toNat logs
        rw [hdata] at hdata1
        cases hdata1
        obtain ⟨api1, hapi1, hb⟩ := hspec1 m hm
        rw [hapi] at hapi1
        cases hapi1
        simp only [if_true, (hb k hkn).2.2, Option.some_bind, filterMap_eventLatency] at hxk2
        exact averageLatencyOfDay_finite (hc k hkn) hxk2

theorem renderGraph_series_witness :
    ∃ (data : Data) (api : APIData) (perDay series : List Number) (values dayValues : List ℚ),
      scrapDataFromLogs (DateTime.valid (739311 + -(resolveDays
          { positional := ["PokeAPI"], LastNthDays := NthDays.value 2, Last3Days := false,
            Last30Days := false, Latency := true } - 1)))
        (resolveDays
          { positional := ["PokeAPI"], LastNthDays := NthDays.value 2, Last3Days := false,
            Last30Days := false, Latency := true }).toNat
        ["PokeAPI (success,120ms,01/03/2024)"] = some data ∧
      data.get? "PokeAPI" = some api ∧
      series = values.map Number.finite ∧ perDay = dayValues.map Number.finite ∧
      (renderGraph (DateTime.valid 739311) ["PokeAPI (success,120ms,01/03/2024)"]
        { positional := ["PokeAPI"], LastNthDays := NthDays.value 2, Last3Days := false,
          Last30Days := false, Latency := true })[3]? =
        some (Effect.log [LogArg.chart values 8]) ∧
      series.length = 4 * 2 ∧ perDay.length = 2 ∧
      values.sum / (values.length : ℚ) = dayValues.sum / (dayValues.length : ℚ) := by
  obtain ⟨data, api, perDay, series, h1, h2, _, h3, h4, h5, _, h7, h8, _⟩ :=
    renderGraph_series 739311 ["PokeAPI (success,120ms,01/03/2024)"]
      { positional := ["PokeAPI"], LastNthDays := NthDays.value 2, Last3Days := false,
        Last30Days := false, Latency := true } "PokeAPI" [] rfl (by decide) (by decide)
  obtain ⟨values, hvalues⟩ := h8 (Or.inr (by
    intro k hk
    have hk2 : k < 2 := hk
    interval_cases k <;> decide))
  obtain ⟨dayValues, hday, hmean⟩ := h7 values hvalues
  have h4 : series.length = 4 * 2 := h4
  have hne : values ≠ [] := by
    intro e
    rw [hvalues, e] at h4
    simp at h4
  refine ⟨data, api, perDay, series, values, dayValues, h1, h2, hvalues, hday, ?_, h4, h5,
    hmean⟩
  rw [h3, hvalues, plot_map_finite hne 8]
  rfl

/-- Claim C18. For every window and every list of log lines, the result of
`scrapDataFromLogs` satisfies, for every module and every offset `k` in
`[0, L)`, `success[k] + fail[k] = length of latency[k]`; this holds initially
and is preserved by processing any single line, so a day has latency samples
if and only if it has recorded traffic. -/
theorem scrapDataFromLogs_counts_match_samples (startDate : DateTime) (n : Nat)
    (lines : List String) :
    (Data.new n).CountsMatchSamples n ∧
    (∀ (data : Data) (line : String),
      (∀ key api, data.get? key = some api →
        api.success.length = n ∧ api.fail.length = n ∧ api.latency.length = n) →
      data.CountsMatchSamples n →
      ∃ data1, lineHandler startDate n data line = some data1 ∧ data1.CountsMatchSamples n) ∧
    ∃ data, scrapDataFromLogs startDate n lines = some data ∧
      ∀ key api, data.get? key = some api → ∀ k, k < n →
        ∃ (s f : Nat) (samples : List Number),
          api.success[k]? = some s ∧ api.fail[k]? = some f ∧
          api.latency[k]? = some samples ∧
          s + f = samples.length ∧ (samples ≠ [] ↔ 0 < s + f) := by
  refine ⟨data_new_countsMatchSamples n, ?_, ?_⟩
  · intro data line hd hinv
    obtain ⟨data1, h1, _, hinv1⟩ := lineHandler_countsMatchSamples startDate n data
      ((Data.hasLength_iff n data).2 hd) hinv line
    exact ⟨data1, h1, hinv1⟩
  · obtain ⟨data, h1, _, hinv⟩ := foldlM_lineHandler_countsMatchSamples startDate n lines
      (Data.new n) (data_new_hasLength n) (data_new_countsMatchSamples n)
    refine ⟨data, h1, ?_⟩
    intro key api hk k hkn
    obtain ⟨s, f, samples, hs, hf, hl, hsum⟩ := hinv key api hk k hkn
    refine ⟨s, f, samples, hs, hf, hl, hsum, ?_⟩
    rw [hsum, ← List.length_pos]

theorem scrapDataFromLogs_counts_match_samples_witness :
    ∃ data, scrapDataFromLogs (DateTime.valid 739311) 2
        ["PokeAPI (success,120ms,01/03/2024)", "PokeAPI (fail,80ms,01/03/2024)",
         "PokeStats (success,7ms,02/03/2024)"] = some data ∧
      ∀ key api, data.get? key = some api → ∀ k, k < 2 →
        ∃ (s f : Nat) (samples : List Number),
          api.success[k]? = some s ∧ api.fail[k]? = some f ∧
          api.latency[k]? = some samples ∧
          s + f = samples.length ∧ (samples ≠ [] ↔ 0 < s + f) :=
  (scrapDataFromLogs_counts_match_samples (DateTime.valid 739311) 2
    ["PokeAPI (success,120ms,01/03/2024)", "PokeAPI (fail,80ms,01/03/2024)",
     "PokeStats (success,7ms,02/03/2024)"]).2.2

/-- Claim C19. For every accumulator state (with sequences of the window length)
and every line that matches with module `m` and an in-window date at offset
`k`, processing the line changes only the series of module `m` at index `k`:
exactly one of `success[k]` and `fail[k]` of `m` increases by 1 (the other is
unchanged), `latency[k]` of `m` grows by exactly one element, and every other
index of `m` and every sequence of the two other modules is unchanged. -/
theorem lineHandler_frame (startDate : DateTime) (n : Nat) (data : Data) (line : String)
    (g : Groups) (k : Nat)
    (hd : ∀ key api, data.get? key = some api →
      api.success.length = n ∧ api.fail.length = n ∧ api.latency.length = n)
    (hg : regexExec line.toList = some g)
    (hk : acceptedOffset startDate n (fromFormat g.date) = some k) :
    ∃ data1 api api1,
      lineHandler startDate n data line = some data1 ∧
      data.get? g.module_name = some api ∧ data1.get? g.module_name = some api1 ∧
      ((g.status = "success" ∧ api1.success[k]? = (api.success[k]?).map (fun v => v + 1) ∧
          api1.fail[k]? = api.fail[k]?) ∨
        (g.status = "fail" ∧ api1.fail[k]? = (api.fail[k]?).map (fun v => v + 1) ∧
          api1.success[k]? = api.success[k]?)) ∧
      api1.latency[k]? = (api.latency[k]?).map (fun v => v ++ [parseInt g.latency]) ∧
      (∀ j, j ≠ k → api1.success[j]? = api.success[j]? ∧ api1.fail[j]? = api.fail[j]? ∧
        api1.latency[j]? = api.latency[j]?) ∧
      ∀ key, key ≠ g.module_name → data1.get? key = data.get? key := by
  have hlen : data.HasLength n := (Data.hasLength_iff n data).2 hd
  have hkn : k < n := acceptedOffset_lt hk
  have hmod := regexExec_module hg
  obtain ⟨api, hapi⟩ := Option.isSome_iff_exists.1
    ((Data.get?_isSome_iff data g.module_name).2 hmod)
  obtain ⟨api1, hrec, _, hs, hf, hl⟩ :=
    APIData.record_eq_some (hlen.get? hapi) hkn g.status (parseInt g.latency)
  have hsk : (api.success[k]?).isSome = true := by
    rw [List.getElem?_eq_getElem (by rw [(hlen.get? hapi).1]; exact hkn)]; rfl
  have hfk : (api.fail[k]?).isSome = true := by
    rw [List.getElem?_eq_getElem (by rw [(hlen.get? hapi).2.1]; exact hkn)]; rfl
  refine ⟨data.set g.module_name api1, api, api1, ?_, hapi, ?_, ?_, ?_, ?_, ?_⟩
  · rw [lineHandler_of_accepted startDate n data line g hg k hk, hapi]
    simp only [Option.some_bind, hrec, Option.map_some']
  · rw [Data.get?_set _ _ _ hmod, if_pos rfl]
  · rcases regexExec_status hg with hst | hst
    · left
      refine ⟨hst, ?_, ?_⟩
      · rw [hs k]; simp [hst]
      · rw [hf k]
        obtain ⟨v, hv⟩ := Option.isSome_iff_exists.1 hfk
        simp [hst, hv]
    · right
      refine ⟨hst, ?_, ?_⟩
      · rw [hf k]; simp [hst]
      · rw [hs k]
        obtain ⟨v, hv⟩ := Option.isSome_iff_exists.1 hsk
        simp [hst, hv]
  · rw [hl k]; simp
  · intro j hj
    refine ⟨?_, ?_, ?_⟩
    · rw [hs j]
      cases api.success[j]? <;> simp [hj]
    · rw [hf j]
      cases api.fail[j]? <;> simp [hj]
    · rw [hl j]
      cases api.latency[j]? <;> simp [hj]
  · intro key hkey
    rw [Data.get?_set _ _ _ hmod, if_neg hkey]

theorem lineHandler_frame_witness :
    ∃ data1 api api1,
      lineHandler (DateTime.valid 739311) 2 (Data.new 2) "PokeAPI (fail,80ms,02/03/2024)" =
        some data1 ∧
      (Data.new 2).get? "PokeAPI" = some api ∧ data1.get? "PokeAPI" = some api1 ∧
      api1.fail[1]? = (api.fail[1]?).map (fun v => v + 1) ∧
      api1.success[1]? = api.success[1]? ∧
      api1.latency[1]? = (api.latency[1]?).map (fun v => v ++ [80]) ∧
      (∀ j, j ≠ 1 → api1.success[j]? = api.success[j]? ∧ api1.fail[j]? = api.fail[j]? ∧
        api1.latency[j]? = api.latency[j]?) ∧
      ∀ key, key ≠ "PokeAPI" → data1.get? key = (Data.new 2).get? key := by
  obtain ⟨data1, api, api1, h1, h2, h3, h4, h5, h6, h7⟩ :=
    lineHandler_frame (DateTime.valid 739311) 2 (Data.new 2) "PokeAPI (fail,80ms,02/03/2024)"
      { module_name := "PokeAPI", status := "fail", latency := "80".toList,
        date := "02/03/2024".toList } 1
      ((Data.hasLength_iff 2 (Data.new 2)).1 (data_new_hasLength 2)) (by decide) (by decide)
  refine ⟨data1, api, api1, h1, h2, h3, ?_, ?_, h5, h6, h7⟩
  · rcases h4 with ⟨hst, _, _⟩ | ⟨_, hf, _⟩
    · exact absurd hst (by decide)
    · exact hf
  · rcases h4 with ⟨hst, _, _⟩ | ⟨_, _, hs⟩
    · exact absurd hst (by decide)
    · exact hs

end LogBot
